import Mathlib

/-!
# goclaw2: the agent loop, the tool registry and the conversation memory

A shallow embedding of `internal/memory/store.go`, `internal/tools/registry.go`,
`internal/provider/zhipu/client.go`, `internal/agent/context.go`,
`internal/agent/agent.go` and, of the tools, `exec_tool.go`, `file_tools.go` and
`memory_tools.go`, followed by the properties proved about it.

Conventions of the embedding.

* A Go `error` is an `Err`: `none` is `nil`, `some msg` is an error whose
  `Error()` text is `msg`. `fmt.Errorf("p: %w", err)` is `"p: " ++ msg`.
* A Go function returning `(T, error)` returns a pair `T × Err`; one that
  returns a pointer and an error, of which exactly one is `nil`, returns an
  `Except String T`. A method that changes its receiver returns the receiver
  as it leaves it.
* A Go `string` is a `String`: a string of characters, so that a Go string
  that is not valid UTF-8 has no counterpart. A Go `int`/`int64` is an `Int`,
  a `float64` a `Rat`.
* Whatever the process does not control is an explicit argument: the error the
  database driver reports for a statement, the reading of `time.Now()`, the
  replies of the remote endpoint, the state `ω` of the machine the tool
  handlers act on, and the functions of the standard library that serialise
  the requests and the replies of the endpoint.
* `encoding/json` is part of the embedding where the claims depend on what it
  does: the decoding of an arguments text into a `map[string]interface{}`
  (`json.Parse`, `json.Unmarshal`) and the encoding and decoding of `[]Message`
  (`memory.Codec`), with the methods of `time.Time` as arguments.
-/

namespace Goclaw

/-- A Go `error` value: `none` is `nil`, `some msg` an error with text `msg`. -/
abbrev Err := Option String

/-- A reading of the wall clock, as `time.Now()` returns it. Where a reading is
stored in column `timestamp`, the order `≤` on `Time` is the order in which
SQLite compares the stored values: the driver writes a reading as a text in
the local zone, and it is these texts that `ORDER BY timestamp` compares. It is
the order of the instants as long as the clock is not set back and the offset
of the local zone stays as it is. -/
abbrev Time := Nat

/-- A Go slice `[]T`. -/
abbrev Slice (α : Type) := List α

/-- Read `m[key]` in a Go `map[string]string` kept as a list of bindings: the
value of the first binding of `key`, the zero value `""` when there is none. -/
def mapIndex (m : List (String × String)) (key : String) : String :=
  match m.find? (fun kv => kv.1 == key) with
  | some kv => kv.2
  | none => ""

/-! ## internal/memory/store.go -/

namespace memory

/-- Message represents a chat message: one row of table `messages`. -/
structure Message where
  ID : Int
  Role : String
  Content : String
  Timestamp : Time
  SessionID : String
deriving DecidableEq, Repr, Inhabited

/-- The database behind a store: the rows of table `messages` in rowid order
and the largest rowid AUTOINCREMENT has handed out (`sqlite_sequence`). -/
structure DB where
  rows : List Message
  seq : Int
deriving DecidableEq, Repr, Inhabited

/-- Store manages message storage. -/
structure Store where
  db : DB
  sessionID : String
deriving DecidableEq, Repr, Inhabited

/-- The rowid of the next inserted row: one more than the largest rowid in the
table and than every rowid handed out before. -/
def DB.nextID (db : DB) : Int :=
  (db.rows.map (fun m => m.ID)).foldl max db.seq + 1

/-- The statement `INSERT INTO messages (session_id, role, content, timestamp)
VALUES (?, ?, ?, ?)`. -/
def DB.insert (db : DB) (sessionID role content : String) (timestamp : Time) : DB :=
  { rows := db.rows ++ [{ ID := db.nextID, Role := role, Content := content,
                          Timestamp := timestamp, SessionID := sessionID }],
    seq := db.nextID }

/-- The statement `SELECT ... FROM messages WHERE session_id = ? ORDER BY
timestamp ASC LIMIT ?`: the rows of the session, by ascending stored timestamp
(`≤` on `Time` is the comparison of the stored values; rows of equal timestamp
keep their rowid order, as the scan of the index on `(session_id, timestamp)`
gives them), cut to `limit` rows; a negative `limit` is no limit. The order of
the result is that of the timestamps, not that of the inserts. -/
def DB.select (db : DB) (sessionID : String) (limit : Int) : List Message :=
  let ordered := (db.rows.filter (fun m => m.SessionID = sessionID)).insertionSort
    (fun a b => a.Timestamp ≤ b.Timestamp)
  if limit < 0 then ordered else ordered.take limit.toNat

/-- The statement `DELETE FROM messages WHERE session_id = ?`. -/
def DB.delete (db : DB) (sessionID : String) : DB :=
  { db with rows := db.rows.filter (fun m => ¬ (m.SessionID = sessionID)) }

/-- The statement `SELECT COUNT(*) FROM messages WHERE session_id = ?`. -/
def DB.count (db : DB) (sessionID : String) : Int :=
  ((db.rows.filter (fun m => m.SessionID = sessionID)).length : Int)

/-- Add adds a message to the store. `dbErr` is the error of `s.db.Exec`, `now`
the reading of `time.Now()`, which is stored as the timestamp of the row.
Returns the error and the store afterwards. -/
def Store.Add (s : Store) (dbErr : Err) (now : Time) (role content : String) : Err × Store :=
  match dbErr with
  | some err => (some err, s)
  | none => (none, { s with db := s.db.insert s.sessionID role content now })

/-- GetHistory retrieves message history. `dbErr` is the error of the query or
of reading its rows. -/
def Store.GetHistory (s : Store) (dbErr : Err) (limit : Int) : List Message × Err :=
  match dbErr with
  | some err => ([], some err)
  | none => (s.db.select s.sessionID limit, none)

/-- GetRecent retrieves recent messages. -/
def Store.GetRecent (s : Store) (dbErr : Err) (count : Int) : List Message × Err :=
  s.GetHistory dbErr count

/-- Clear clears all messages for the current session. -/
def Store.Clear (s : Store) (dbErr : Err) : Err × Store :=
  match dbErr with
  | some err => (some err, s)
  | none => (none, { s with db := s.db.delete s.sessionID })

/-- Count returns the number of messages in the current session. -/
def Store.Count (s : Store) (dbErr : Err) : Int × Err :=
  match dbErr with
  | some err => (0, some err)
  | none => (s.db.count s.sessionID, none)

/-- ToProviderFormat converts messages to provider format. -/
def Store.ToProviderFormat (s : Store) (dbErr : Err) (limit : Int) :
    List (List (String × String)) × Err :=
  match s.GetHistory dbErr limit with
  | (_, some err) => ([], some err)
  | (messages, none) =>
    (messages.map (fun msg => [("role", msg.Role), ("content", msg.Content)]), none)

end memory

/-! ## internal/config/config.go -/

namespace config

structure ZhipuConfig where
  APIKey : String
  BaseURL : String
  Model : String
  Temperature : Rat
  MaxTokens : Int
deriving DecidableEq, Repr, Inhabited

structure AgentConfig where
  MaxHistory : Int
deriving DecidableEq, Repr, Inhabited

structure MemoryConfig where
  Type_ : String
  FilePath : String
  Workspace : String
deriving DecidableEq, Repr, Inhabited

structure GatewayConfig where
  Enabled : Bool
  Port : Int
  Host : String
deriving DecidableEq, Repr, Inhabited

structure Config where
  Zhipu : ZhipuConfig
  Agent : AgentConfig
  Memory : MemoryConfig
  Gateway : GatewayConfig
deriving DecidableEq, Repr, Inhabited

end config

/-- A dynamic Go value (`interface{}`) as the handlers and schemas use it. -/
inductive Any where
  | null
  | bool (b : Bool)
  | float64 (x : Rat)
  | int (n : Int)
  | string (s : String)
  | slice (xs : List Any)
  | map (kvs : List (String × Any))
deriving Inhabited

/-- A Go `map[string]interface{}`, as a list of bindings. -/
abbrev Object := List (String × Any)

/-! ## internal/provider/zhipu/client.go -/

namespace zhipu

/-- The anonymous struct of field `Function` of a ToolCall. -/
structure ToolCallFunction where
  Name : String
  Arguments : String
deriving DecidableEq, Repr, Inhabited

/-- ToolCall represents a call to a tool. -/
structure ToolCall where
  ID : String
  Type_ : String
  Function : ToolCallFunction
deriving DecidableEq, Repr, Inhabited

/-- Message represents a chat message. -/
structure Message where
  Role : String
  Content : String
  ToolCalls : List ToolCall := []
  ToolID : String := ""
deriving DecidableEq, Repr, Inhabited

structure ToolFunction where
  Name : String
  Description : String
  Parameters : Object
deriving Inhabited

/-- Tool represents a function that can be called. -/
structure Tool where
  Type_ : String
  Function : ToolFunction
deriving Inhabited

/-- ChatRequest represents a chat completion request. -/
structure ChatRequest where
  Model : String := ""
  Messages : List Message
  Tools : List Tool := []
  Stream : Bool := false
  Temperature : Rat := 0
  MaxTokens : Int := 0
deriving Inhabited

structure Choice where
  Index : Int
  Message : Message
  FinishReason : String
deriving DecidableEq, Repr, Inhabited

structure Usage where
  PromptTokens : Int
  CompletionTokens : Int
  TotalTokens : Int
deriving DecidableEq, Repr, Inhabited

/-- ChatResponse represents a chat completion response. -/
structure ChatResponse where
  ID : String
  Object : String
  Created : Int
  Model : String
  Choices : List Choice
  Usage : Usage
deriving DecidableEq, Repr, Inhabited

/-- The request `http.NewRequest` builds, with the two headers Chat sets. -/
structure HTTPRequest where
  Method : String
  URL : String
  ContentType : String
  Authorization : String
  Body : String
deriving DecidableEq, Repr, Inhabited

/-- The reply of the endpoint: its status code and what `io.ReadAll` makes of
its body. -/
structure HTTPResponse where
  StatusCode : Int
  Body : String × Err
deriving DecidableEq, Repr, Inhabited

/-- What Chat calls outside this repository: `json.Marshal` of the request,
`http.NewRequest` (the error only: the request is determined by its
arguments), `(*http.Client).Do`, where `Do n` answers the request sent after
`n` earlier ones, and `json.Unmarshal` of the reply. -/
structure HTTP where
  Marshal : ChatRequest → String × Err
  NewRequest : String → String → String → Err
  Do : Nat → HTTPRequest → HTTPResponse × Err
  Unmarshal : String → ChatResponse × Err

/-- Client represents the Zhipu AI client. -/
structure Client where
  cfg : config.Config
  client : HTTP
  baseURL : String
  apiKey : String

/-- New creates a new Zhipu AI client. -/
def New (cfg : config.Config) (client : HTTP) : Client :=
  { cfg := cfg, client := client, baseURL := cfg.Zhipu.BaseURL, apiKey := cfg.Zhipu.APIKey }

/-- The request as Chat fills it from the configuration before serialising. -/
def Client.fill (c : Client) (req : ChatRequest) : ChatRequest :=
  let req := { req with Model := c.cfg.Zhipu.Model }
  let req := if req.Temperature = 0 then { req with Temperature := c.cfg.Zhipu.Temperature } else req
  if req.MaxTokens = 0 then { req with MaxTokens := c.cfg.Zhipu.MaxTokens } else req

/-- Chat sends a chat completion request; `n` requests were sent before. -/
def Client.Chat (c : Client) (n : Nat) (req : ChatRequest) : Except String ChatResponse :=
  let req := c.fill req
  match c.client.Marshal req with
  | (_, some err) => .error ("failed to marshal request: " ++ err)
  | (body, none) =>
    match c.client.NewRequest "POST" (c.baseURL ++ "/chat/completions") body with
    | some err => .error ("failed to create request: " ++ err)
    | none =>
      let httpReq : HTTPRequest :=
        { Method := "POST", URL := c.baseURL ++ "/chat/completions",
          ContentType := "application/json", Authorization := "Bearer " ++ c.apiKey,
          Body := body }
      match c.client.Do n httpReq with
      | (_, some err) => .error ("failed to send request: " ++ err)
      | (resp, none) =>
        match resp.Body with
        | (_, some err) => .error ("failed to read response: " ++ err)
        | (respBody, none) =>
          if resp.StatusCode ≠ 200 then
            .error ("API error (status " ++ toString resp.StatusCode ++ "): " ++ respBody)
          else
            match c.client.Unmarshal respBody with
            | (_, some err) => .error ("failed to unmarshal response: " ++ err)
            | (chatResp, none) => .ok chatResp

/-- The lines of Chat after `json.Marshal`: builds the HTTP request around
`body`, sends it and reads, checks and decodes the reply. -/
def Client.post (c : Client) (n : Nat) (body : String) : Except String ChatResponse :=
  match c.client.NewRequest "POST" (c.baseURL ++ "/chat/completions") body with
  | some err => .error ("failed to create request: " ++ err)
  | none =>
    let httpReq : HTTPRequest :=
      { Method := "POST", URL := c.baseURL ++ "/chat/completions",
        ContentType := "application/json", Authorization := "Bearer " ++ c.apiKey,
        Body := body }
    match c.client.Do n httpReq with
    | (_, some err) => .error ("failed to send request: " ++ err)
    | (resp, none) =>
      match resp.Body with
      | (_, some err) => .error ("failed to read response: " ++ err)
      | (respBody, none) =>
        if resp.StatusCode ≠ 200 then
          .error ("API error (status " ++ toString resp.StatusCode ++ "): " ++ respBody)
        else
          match c.client.Unmarshal respBody with
          | (_, some err) => .error ("failed to unmarshal response: " ++ err)
          | (chatResp, none) => .ok chatResp

/-- ChatSimple sends a simple text chat request. -/
def Client.ChatSimple (c : Client) (n : Nat) (messages : List Message) :
    Except String ChatResponse :=
  c.Chat n { Messages := messages }

/-- ChatWithTools sends a chat request with available tools. -/
def Client.ChatWithTools (c : Client) (n : Nat) (messages : List Message) (tools : List Tool) :
    Except String ChatResponse :=
  c.Chat n { Messages := messages, Tools := tools }

/-- HasToolCalls checks if the response contains tool calls. -/
def ChatResponse.HasToolCalls (r : ChatResponse) : Bool :=
  match r.Choices with
  | [] => false
  | first :: _ => decide (first.Message.ToolCalls.length > 0)

/-- GetContent returns the response content. -/
def ChatResponse.GetContent (r : ChatResponse) : String :=
  match r.Choices with
  | [] => ""
  | first :: _ => first.Message.Content

/-- GetToolCalls returns tool calls from the response. -/
def ChatResponse.GetToolCalls (r : ChatResponse) : List ToolCall :=
  match r.Choices with
  | [] => []
  | first :: _ => first.Message.ToolCalls

end zhipu

/-! ## internal/tools/registry.go -/

namespace tools

/-- Tool represents a tool that can be executed: what its four methods return.
Execute acts on the state `ω` of the machine and returns the state it leaves. -/
structure Tool (ω : Type) where
  Name : String
  Description : String
  Parameters : Object
  Execute : Object → ω → (String × Err) × ω

/-- Registry manages available tools: the bindings of map `tools`. -/
structure Registry (ω : Type) where
  tools : List (String × Tool ω)

/-- New creates a new tool registry. -/
def New (ω : Type) : Registry ω :=
  { tools := [] }

/-- Register adds a tool to the registry: `r.tools[tool.Name()] = tool`. -/
def Registry.Register {ω : Type} (r : Registry ω) (tool : Tool ω) : Registry ω :=
  { tools := r.tools.filter (fun kv => ¬ (kv.1 = tool.Name)) ++ [(tool.Name, tool)] }

/-- Get retrieves a tool by name; `none` is the result `(nil, false)`. -/
def Registry.Get {ω : Type} (r : Registry ω) (name : String) : Option (Tool ω) :=
  (r.tools.find? (fun kv => kv.1 = name)).map (fun kv => kv.2)

/-- List returns all registered tools (a Go map is ranged over in no fixed
order; the order of the bindings stands for it). -/
def Registry.List {ω : Type} (r : Registry ω) : Slice (Tool ω) :=
  r.tools.map (fun kv => kv.2)

/-- ToProviderFormat converts tools to the format expected by AI providers. -/
def Registry.ToProviderFormat {ω : Type} (r : Registry ω) : Slice Object :=
  r.tools.map (fun kv =>
    [("type", Any.string "function"),
     ("function", Any.map [("name", Any.string kv.2.Name),
                           ("description", Any.string kv.2.Description),
                           ("parameters", Any.map kv.2.Parameters)])])

/-- ExecuteToolCall executes a tool call with the given arguments. `unmarshal`
is `json.Unmarshal` into a `map[string]interface{}`. -/
def Registry.ExecuteToolCall {ω : Type} (r : Registry ω) (unmarshal : String → Object × Err)
    (name argsJSON : String) (w : ω) : (String × Err) × ω :=
  match r.Get name with
  | none => (("", some ("tool not found: " ++ name)), w)
  | some tool =>
    match unmarshal argsJSON with
    | (_, some err) => (("", some ("failed to parse arguments: " ++ err)), w)
    | (args, none) =>
      match tool.Execute args w with
      | ((_, some err), w1) => (("", some ("tool execution failed: " ++ err)), w1)
      | ((result, none), w1) => ((result, none), w1)

end tools

/-! ## internal/agent/context.go -/

namespace agent

/-- ContextFile represents a context file with its path and content. -/
structure ContextFile where
  Path : String
  Content : String
deriving DecidableEq, Repr, Inhabited

/-- ContextLoader handles loading context files from workspace. -/
structure ContextLoader where
  workspaceDir : String
deriving DecidableEq, Repr, Inhabited

/-- What the loader calls outside this repository: `os.ReadFile` on the state
`ω` of the machine, and `filepath.Join` of two elements. -/
structure OS (ω : Type) where
  ReadFile : String → ω → String × Err
  Join : String → String → String

/-- The loop of LoadContextFiles over the file names still to try. -/
def ContextLoader.loadEach {ω : Type} (cl : ContextLoader) (os : OS ω) (w : ω) :
    List String → List ContextFile → List ContextFile
  | [], files => files
  | filename :: rest, files =>
    let path := os.Join cl.workspaceDir filename
    match os.ReadFile path w with
    | (content, none) =>
      cl.loadEach os w rest (files ++ [{ Path := filename, Content := content }])
    | (_, some _) => cl.loadEach os w rest files

/-- LoadContextFiles loads all context files from workspace. -/
def ContextLoader.LoadContextFiles {ω : Type} (cl : ContextLoader) (os : OS ω) (w : ω) :
    List ContextFile :=
  cl.loadEach os w ["IDENTITY.md", "SOUL.md", "memory/MEMORY.md"] []

/-- BuildContextPrompt builds the prompt section for context files. -/
def BuildContextPrompt (files : List ContextFile) : String :=
  if files.length = 0 then ""
  else
    let sections := ["## Workspace 上下文文件", "", "以下文件已加载，提供了我的身份和记忆：", ""]
    let sections := files.foldl
      (fun sections file => sections ++ ["### " ++ file.Path, "", file.Content, ""]) sections
    String.intercalate "\n" sections

/-! ## internal/agent/agent.go -/

/-- Agent represents the AI agent. -/
structure Agent (ω : Type) where
  cfg : config.Config
  client : zhipu.Client
  memory : Goclaw.memory.Store
  tools : Goclaw.tools.Registry ω
  maxHistory : Int
  contextLoader : ContextLoader

/-- What one turn meets outside the process, besides the remote endpoint kept
in the client: the driver error and clock reading of the Add of the user
message, the driver error of the history query, those of the Add of the
assistant message, the file system calls and `json.Unmarshal` of tool
arguments. -/
structure Env (ω : Type) where
  addUser : Err × Time
  history : Err
  addAssistant : Err × Time
  os : OS ω
  unmarshal : String → Object × Err

/-- One call of the model as a turn makes it: the messages and tools sent, the
state of the machine at that moment and what the client returned. -/
structure Exchange (ω : Type) where
  messages : List zhipu.Message
  tools : List zhipu.Tool
  world : ω
  reply : Except String zhipu.ChatResponse

/-- What a turn leaves: the results of Chat (`none` while the loop has not
finished within the iterations allowed), the store, the state of the machine,
and the calls of the model in the order they were made. -/
structure Turn (ω : Type) where
  result : Option (String × Err)
  memory : Goclaw.memory.Store
  world : ω
  calls : List (Exchange ω)

/-- The system prompt of Chat before the context is added. -/
def baseSystemPrompt : String :=
  "你是一个 AI 助手，拥有文件操作和命令执行能力。\n\n可用工具：\n- read_file: 读取文件内容\n- write_file: 写入文件\n- list_dir: 列出目录内容\n- exec_command: 执行 shell 命令\n\n重要规则：\n1. 当用户请求读取、写入、列出文件或执行命令时，必须调用相应的工具\n2. 不要猜测文件内容，使用 read_file 工具读取\n3. 在总结文件操作结果时要准确详细\n4. 执行命令前要确认命令的安全性"

/-- The loop `for _, toolCall := range toolCalls` of Chat: executes each tool
call in turn and appends its tool message to `providerMessages`. -/
def Agent.executeEach {ω : Type} (a : Agent ω) (unmarshal : String → Object × Err) :
    List zhipu.ToolCall → List zhipu.Message → ω → List zhipu.Message × ω
  | [], providerMessages, w => (providerMessages, w)
  | toolCall :: rest, providerMessages, w =>
    let toolName := toolCall.Function.Name
    let toolArgs := toolCall.Function.Arguments
    match a.tools.ExecuteToolCall unmarshal toolName toolArgs w with
    | ((result, err), w1) =>
      let result := match err with
        | some e => "Error: " ++ e
        | none => result
      let toolMsg : zhipu.Message := { Role := "tool", Content := result, ToolID := toolCall.ID }
      a.executeEach unmarshal rest (providerMessages ++ [toolMsg]) w1

/-- The first half of one iteration of the loop `for resp.HasToolCalls()`:
the messages and the state of the machine with which the iteration reaches
its call of the model, from those with which the response `resp` was asked. -/
def Agent.round {ω : Type} (a : Agent ω) (unmarshal : String → Object × Err)
    (resp : zhipu.ChatResponse) (providerMessages : List zhipu.Message) (w : ω) :
    List zhipu.Message × ω :=
  a.executeEach unmarshal resp.GetToolCalls
    (providerMessages ++
      [{ Role := "assistant", Content := resp.GetContent, ToolCalls := resp.GetToolCalls }]) w

/-- The outcome of the loop `for resp.HasToolCalls()`: the response without
tool calls it ended on, the error of a failed call, or `none` when the
iterations allowed ran out; with the state of the machine and the calls made. -/
structure Loop (ω : Type) where
  outcome : Option (Except String zhipu.ChatResponse)
  world : ω
  calls : List (Exchange ω)

/-- The loop `for resp.HasToolCalls()` of Chat, run for at most `fuel`
iterations; `n` calls of the model were made before. -/
def Agent.toolLoop {ω : Type} (a : Agent ω) (unmarshal : String → Object × Err)
    (providerTools : List zhipu.Tool) :
    Nat → Nat → List zhipu.Message → zhipu.ChatResponse → ω → Loop ω
  | fuel, n, providerMessages, resp, w =>
    if resp.HasToolCalls then
      match fuel with
      | 0 => { outcome := none, world := w, calls := [] }
      | fuel + 1 =>
        let toolCalls := resp.GetToolCalls
        let assistantMsg : zhipu.Message :=
          { Role := "assistant", Content := resp.GetContent, ToolCalls := toolCalls }
        let providerMessages := providerMessages ++ [assistantMsg]
        match a.executeEach unmarshal toolCalls providerMessages w with
        | (providerMessages, w1) =>
          let reply := a.client.ChatWithTools n providerMessages providerTools
          let call : Exchange ω :=
            { messages := providerMessages, tools := providerTools, world := w1, reply := reply }
          match reply with
          | .error err =>
            { outcome := some (.error ("API call after tool execution failed: " ++ err)),
              world := w1, calls := [call] }
          | .ok resp1 =>
            let rest := a.toolLoop unmarshal providerTools fuel (n + 1) providerMessages resp1 w1
            { rest with calls := call :: rest.calls }
    else { outcome := some (.ok resp), world := w, calls := [] }

/-- The part of Chat under `// Build system prompt`: the base prompt, followed
by the context prompt when there is one. -/
def Agent.systemContent {ω : Type} (a : Agent ω) (os : OS ω) (w : ω) : String :=
  let contextFiles := a.contextLoader.LoadContextFiles os w
  let contextPrompt := BuildContextPrompt contextFiles
  if contextPrompt ≠ "" then baseSystemPrompt ++ ("\n\n" ++ contextPrompt)
  else baseSystemPrompt

/-- The part of Chat under `// Add system message if this is the start of
conversation`: the messages of the first request, from the history in
provider format. -/
def Agent.providerMessages {ω : Type} (a : Agent ω) (os : OS ω) (w : ω)
    (messages : List (List (String × String))) : List zhipu.Message :=
  let systemContent := a.systemContent os w
  if messages.length = 1 then
    let systemMsg : zhipu.Message := { Role := "system", Content := systemContent }
    [systemMsg] ++ messages.map (fun msg =>
      { Role := mapIndex msg "role", Content := mapIndex msg "content" })
  else
    let systemMsg : zhipu.Message := { Role := "system", Content := systemContent }
    [systemMsg] ++ messages.map (fun msg =>
      { Role := mapIndex msg "role", Content := mapIndex msg "content" })

/-- The part of Chat under `// Get available tools`. -/
def Agent.providerTools {ω : Type} (a : Agent ω) : List zhipu.Tool :=
  let toolList := a.tools.List
  toolList.map (fun tool =>
    { Type_ := "function",
      Function := { Name := tool.Name, Description := tool.Description,
                    Parameters := tool.Parameters } })

/-- Chat processes a user message and returns the response. The loop over the
tool calls runs for at most `fuel` iterations. -/
def Agent.Chat {ω : Type} (a : Agent ω) (env : Env ω) (fuel : Nat) (userMessage : String)
    (w : ω) : Turn ω :=
  match a.memory.Add env.addUser.1 env.addUser.2 "user" userMessage with
  | (some err, mem) =>
    { result := some ("", some ("failed to store user message: " ++ err)),
      memory := mem, world := w, calls := [] }
  | (none, mem) =>
    match mem.ToProviderFormat env.history a.maxHistory with
    | (_, some err) =>
      { result := some ("", some ("failed to get history: " ++ err)),
        memory := mem, world := w, calls := [] }
    | (messages, none) =>
      let providerMessages := a.providerMessages env.os w messages
      let providerTools := a.providerTools
      let reply := a.client.ChatWithTools 0 providerMessages providerTools
      let call : Exchange ω :=
        { messages := providerMessages, tools := providerTools, world := w, reply := reply }
      match reply with
      | .error err =>
        { result := some ("", some ("API call failed: " ++ err)),
          memory := mem, world := w, calls := [call] }
      | .ok resp =>
        let loop := a.toolLoop env.unmarshal providerTools fuel 1 providerMessages resp w
        match loop.outcome with
        | none => { result := none, memory := mem, world := loop.world, calls := call :: loop.calls }
        | some (.error err) =>
          { result := some ("", some err), memory := mem, world := loop.world,
            calls := call :: loop.calls }
        | some (.ok last) =>
          let response := last.GetContent
          match mem.Add env.addAssistant.1 env.addAssistant.2 "assistant" response with
          | (some err, mem1) =>
            { result := some ("", some ("failed to store assistant message: " ++ err)),
              memory := mem1, world := loop.world, calls := call :: loop.calls }
          | (none, mem1) =>
            { result := some (response, none), memory := mem1, world := loop.world,
              calls := call :: loop.calls }

end agent

/-! ## The standard library, as far as the tools call it -/

namespace strconv

/-- The quotient `p / q` rounded to the nearest integer, a tie to the even
one. -/
def roundHalfEven (p q : Nat) : Nat :=
  let n := p / q
  let r := p % q
  if 2 * r < q then n
  else if q < 2 * r then n + 1
  else if n % 2 = 0 then n
  else n + 1

/-- The number of binary digits of a positive number. -/
def bitLength (n : Nat) : Nat :=
  (Nat.toDigits 2 n).length

/-- The exponent of the largest power of two that is not more than `p / q`,
for `p` and `q` positive. -/
def log2Ratio (p q : Nat) : Int :=
  let e0 : Int := (bitLength p : Int) - (bitLength q : Int)
  if 0 ≤ e0 then
    if q * 2 ^ e0.toNat ≤ p then e0 else e0 - 1
  else
    if q ≤ p * 2 ^ (-e0).toNat then e0 else e0 - 1

/-- The `float64` nearest to `p / q`, for `p` and `q` positive: 53 bits of
mantissa, fewer below the least normal number, a tie to the even mantissa;
`none` when the rounded number is two to the 1024 or more, which no `float64`
is. -/
def float64OfRatio (p q : Nat) : Option Rat :=
  let k : Int := max (log2Ratio p q - 52) (-1074)
  if 0 ≤ k then
    let m := roundHalfEven p (q * 2 ^ k.toNat)
    if 971 < k ∨ (k = 971 ∧ m = 2 ^ 53) then none else some (mkRat (m * 2 ^ k.toNat) 1)
  else
    some (mkRat (roundHalfEven (p * 2 ^ (-k).toNat) q) (2 ^ (-k).toNat))

/-- The `float64` nearest to `d` times ten to the `e10`; `none` when it is out
of range. A number too large or too small for the quotient to matter is
settled without computing it. -/
def float64OfDecimal (d : Nat) (e10 : Int) : Option Rat :=
  if d = 0 then some 0
  else if 310 < e10 then none
  else if e10 + (bitLength d : Int) < -330 then some 0
  else if 0 ≤ e10 then float64OfRatio (d * 10 ^ e10.toNat) 1
  else float64OfRatio d (10 ^ (-e10).toNat)

/-- The decimal digits a text starts with, and what follows them. -/
def takeDigits : List Char → List Char × List Char
  | [] => ([], [])
  | c :: cs =>
    if c.isDigit then ((c :: (takeDigits cs).1), (takeDigits cs).2) else ([], c :: cs)

/-- The number written by decimal digits. -/
def natOfDigits (ds : List Char) : Nat :=
  ds.foldl (fun n c => 10 * n + (c.toNat - 48)) 0

/-- The exponent written after the mantissa of a number, zero if none is. -/
def exponent : List Char → Int
  | _ :: '+' :: r => (natOfDigits (takeDigits r).1 : Int)
  | _ :: '-' :: r => - (natOfDigits (takeDigits r).1 : Int)
  | _ :: r => (natOfDigits (takeDigits r).1 : Int)
  | [] => 0

/-- The mantissa and exponent of an unsigned number: its digits, those of the
fraction counted off the exponent. -/
def ratOfUnsigned (body : List Char) : Option Rat :=
  match takeDigits body with
  | (ip, '.' :: r) =>
    match takeDigits r with
    | (fp, r1) => float64OfDecimal (natOfDigits (ip ++ fp)) (exponent r1 - (fp.length : Int))
  | (ip, r1) => float64OfDecimal (natOfDigits ip) (exponent r1)

/-- ParseFloat is `strconv.ParseFloat(s, 64)` on a text with the syntax of a
JSON number: the nearest `float64`, or `none` for the range error of a number
too large for a `float64`. A number too small is rounded to zero without
error. -/
def ParseFloat (s : String) : Option Rat :=
  match s.data with
  | '-' :: body => (ratOfUnsigned body).map (fun x => -x)
  | body => ratOfUnsigned body

/-- ParseInt is `strconv.ParseInt(s, 10, 64)` on a text with the syntax of a
JSON number: the integer it writes, or `none` when the text has a fraction or
an exponent or the integer does not fit 64 bits. -/
def ParseInt (s : String) : Option Int :=
  match s.data with
  | '-' :: body =>
    match takeDigits body with
    | (ds, []) => if natOfDigits ds ≤ 2 ^ 63 then some (- (natOfDigits ds : Int)) else none
    | (_, _ :: _) => none
  | body =>
    match takeDigits body with
    | (ds, []) => if natOfDigits ds < 2 ^ 63 then some (natOfDigits ds : Int) else none
    | (_, _ :: _) => none

end strconv

namespace json

/-- A JSON text as the scanner of `encoding/json` reads it, before it is
stored in a Go value: a number is kept as it is written, a string with the text
between its quotes (`raw`) and the text that stands for (`s`), an object with
its members in the order written. -/
inductive Value where
  | null
  | bool (b : Bool)
  | number (literal : String)
  | string (raw s : String)
  | array (xs : List Value)
  | object (members : List (String × Value))
deriving Inhabited

/-- The white space of JSON texts. -/
def isSpace (c : Char) : Bool :=
  c = ' ' || c = '\t' || c = '\r' || c = '\n'

/-- A text without the white space it starts with. -/
def skipSpace : List Char → List Char
  | [] => []
  | c :: cs => if isSpace c then skipSpace cs else c :: cs

/-- The exponent part of a number, if there is one, and the rest. -/
def scanExponent (s : List Char) : Option (List Char × List Char) :=
  match s with
  | c :: rest =>
    if c = 'e' ∨ c = 'E' then
      match rest with
      | '+' :: r =>
        match strconv.takeDigits r with
        | ([], _) => none
        | (ds, r1) => some (c :: '+' :: ds, r1)
      | '-' :: r =>
        match strconv.takeDigits r with
        | ([], _) => none
        | (ds, r1) => some (c :: '-' :: ds, r1)
      | r =>
        match strconv.takeDigits r with
        | ([], _) => none
        | (ds, r1) => some (c :: ds, r1)
    else some ([], s)
  | [] => some ([], [])

/-- A number without its sign: integer part without leading zero, optional
fraction, optional exponent; with the rest. -/
def scanUnsigned (s : List Char) : Option (List Char × List Char) :=
  match strconv.takeDigits s with
  | ([], _) => none
  | (ip, rest) =>
    if ip.length > 1 ∧ ip.head? = some '0' then none
    else
      match rest with
      | '.' :: r =>
        match strconv.takeDigits r with
        | ([], _) => none
        | (fp, r1) =>
          match scanExponent r1 with
          | none => none
          | some (ex, r2) => some (ip ++ '.' :: fp ++ ex, r2)
      | _ =>
        match scanExponent rest with
        | none => none
        | some (ex, r2) => some (ip ++ ex, r2)

/-- The number a text starts with, as it is written, and the rest. -/
def scanNumber (s : List Char) : Option (List Char × List Char) :=
  match s with
  | '-' :: rest =>
    match scanUnsigned rest with
    | none => none
    | some (literal, r) => some ('-' :: literal, r)
  | _ => scanUnsigned s

/-- The value of a hexadecimal digit, in either case. -/
def hexValue (c : Char) : Option Nat :=
  if c.isDigit then some (c.toNat - 48)
  else if 'a' ≤ c ∧ c ≤ 'f' then some (c.toNat - 87)
  else if 'A' ≤ c ∧ c ≤ 'F' then some (c.toNat - 55)
  else none

/-- The number written by four hexadecimal digits. -/
def hex4 (a b c d : Char) : Option Nat :=
  match hexValue a, hexValue b, hexValue c, hexValue d with
  | some x, some y, some z, some t => some (((x * 16 + y) * 16 + z) * 16 + t)
  | _, _, _, _ => none

/-- The escape `\uXXXX` a text starts with, if it does. -/
def unicodeEscape (s : List Char) : Option (Nat × List Char) :=
  match s with
  | '\\' :: 'u' :: a :: b :: c :: d :: rest =>
    match hex4 a b c d with
    | some n => some (n, rest)
    | none => none
  | _ => none

/-- A string after its opening quote, read for at most `fuel` characters:
the text up to the closing quote with the escapes replaced, and the rest. -/
def parseString : Nat → List Char → List Char → Option (String × List Char)
  | 0, _, _ => none
  | _ + 1, [], _ => none
  | fuel + 1, c :: rest, acc =>
    if c = '\x22' then some (String.mk acc, rest)
    else if c = '\\' then
      match rest with
      | 'u' :: a :: b :: c1 :: d :: rest1 =>
        match hex4 a b c1 d with
        | none => none
        | some hi =>
          if 0xD800 ≤ hi ∧ hi < 0xE000 then
            match unicodeEscape rest1 with
            | some (lo, rest2) =>
              if hi < 0xDC00 ∧ 0xDC00 ≤ lo ∧ lo < 0xE000 then
                parseString fuel rest2
                  (acc ++ [Char.ofNat (0x10000 + (hi - 0xD800) * 0x400 + (lo - 0xDC00))])
              else parseString fuel rest1 (acc ++ [Char.ofNat 0xFFFD])
            | none => parseString fuel rest1 (acc ++ [Char.ofNat 0xFFFD])
          else parseString fuel rest1 (acc ++ [Char.ofNat hi])
      | e :: rest1 =>
        if e = '\x22' then parseString fuel rest1 (acc ++ ['\x22'])
        else if e = '\\' then parseString fuel rest1 (acc ++ ['\\'])
        else if e = '/' then parseString fuel rest1 (acc ++ ['/'])
        else if e = 'b' then parseString fuel rest1 (acc ++ [Char.ofNat 8])
        else if e = 'f' then parseString fuel rest1 (acc ++ [Char.ofNat 12])
        else if e = 'n' then parseString fuel rest1 (acc ++ ['\n'])
        else if e = 'r' then parseString fuel rest1 (acc ++ ['\r'])
        else if e = 't' then parseString fuel rest1 (acc ++ ['\t'])
        else none
      | [] => none
    else if c.toNat < 0x20 then none
    else parseString fuel rest (acc ++ [c])

/-- The string a text starts with, after its opening quote: the text between
the quotes as written, the text it stands for, and the rest. -/
def scanString (s : List Char) : Option (String × String × List Char) :=
  match parseString (s.length + 1) s [] with
  | none => none
  | some (str, rest) => some (String.mk (s.take (s.length - rest.length - 1)), str, rest)

mutual

/-- A JSON value at the start of a text, and the rest of the text. -/
def parseValue : Nat → List Char → Option (Value × List Char)
  | 0, _ => none
  | fuel + 1, s =>
    match skipSpace s with
    | [] => none
    | 'n' :: 'u' :: 'l' :: 'l' :: rest => some (Value.null, rest)
    | 't' :: 'r' :: 'u' :: 'e' :: rest => some (Value.bool true, rest)
    | 'f' :: 'a' :: 'l' :: 's' :: 'e' :: rest => some (Value.bool false, rest)
    | '\x22' :: rest =>
      match scanString rest with
      | none => none
      | some (raw, str, r) => some (Value.string raw str, r)
    | '[' :: rest =>
      match skipSpace rest with
      | ']' :: r => some (Value.array [], r)
      | r => parseElements fuel r []
    | '\x7b' :: rest =>
      match skipSpace rest with
      | '\x7d' :: r => some (Value.object [], r)
      | r => parseMembers fuel r []
    | c :: rest =>
      if c = '-' ∨ c.isDigit then
        match scanNumber (c :: rest) with
        | none => none
        | some (literal, r) => some (Value.number (String.mk literal), r)
      else none

/-- The elements of an array after its first bracket. -/
def parseElements : Nat → List Char → List Value → Option (Value × List Char)
  | 0, _, _ => none
  | fuel + 1, s, acc =>
    match parseValue fuel s with
    | none => none
    | some (v, rest) =>
      match skipSpace rest with
      | ',' :: r => parseElements fuel r (acc ++ [v])
      | ']' :: r => some (Value.array (acc ++ [v]), r)
      | _ => none

/-- The members of an object after its first brace. -/
def parseMembers : Nat → List Char → List (String × Value) → Option (Value × List Char)
  | 0, _, _ => none
  | fuel + 1, s, acc =>
    match skipSpace s with
    | '\x22' :: rest =>
      match scanString rest with
      | none => none
      | some (_, key, rest1) =>
        match skipSpace rest1 with
        | ':' :: r =>
          match parseValue fuel r with
          | none => none
          | some (v, rest2) =>
            match skipSpace rest2 with
            | ',' :: r1 => parseMembers fuel r1 (acc ++ [(key, v)])
            | '\x7d' :: r1 => some (Value.object (acc ++ [(key, v)]), r1)
            | _ => none
        | _ => none
    | _ => none

end

mutual

/-- The depth to which arrays and objects are nested in a JSON value: 0 for a
value that is neither, 1 for an array or object that holds neither. -/
def Value.depth : Value → Nat
  | Value.null => 0
  | Value.bool _ => 0
  | Value.number _ => 0
  | Value.string _ _ => 0
  | Value.array xs => depthOfElements xs + 1
  | Value.object members => depthOfMembers members + 1

/-- The greatest depth of the elements of an array. -/
def depthOfElements : List Value → Nat
  | [] => 0
  | x :: xs => max x.depth (depthOfElements xs)

/-- The greatest depth of the values of the members of an object. -/
def depthOfMembers : List (String × Value) → Nat
  | [] => 0
  | (_, x) :: rest => max x.depth (depthOfMembers rest)

end

/-- The value a text writes when the text is JSON, `none` when it is not:
what the scanner of `encoding/json` accepts, which is one value between white
space, with arrays and objects nested to a depth of 10000 at most. The fuel is
more than the depth of nesting and the number of elements and members, which
are less than the length of the text. -/
def Parse (data : String) : Option Value :=
  match parseValue (data.length + 1) data.data with
  | some (v, rest) => if skipSpace rest = [] ∧ v.depth ≤ 10000 then some v else none
  | none => none

/-- Bind `key` to `value` in a map kept as a list of bindings. -/
def insert (m : Object) (key : String) (value : Any) : Object :=
  m.filter (fun kv => ¬ (kv.1 = key)) ++ [(key, value)]

mutual

/-- The Go value `encoding/json` stores in an `interface{}` for a JSON value:
a number as the nearest `float64`, an object as a map in which a later member
replaces an earlier one of the same key. The error is the first number that is
out of the range of `float64`. -/
def toInterface : Value → Except String Any
  | Value.null => .ok Any.null
  | Value.bool b => .ok (Any.bool b)
  | Value.number literal =>
    match strconv.ParseFloat literal with
    | some x => .ok (Any.float64 x)
    | none =>
      .error ("json: cannot unmarshal number " ++ literal ++ " into Go value of type float64")
  | Value.string _ s => .ok (Any.string s)
  | Value.array xs =>
    match toSlice xs with
    | .ok vs => .ok (Any.slice vs)
    | .error err => .error err
  | Value.object members =>
    match toMap members [] with
    | .ok m => .ok (Any.map m)
    | .error err => .error err

/-- The elements of an array as Go values. -/
def toSlice : List Value → Except String (List Any)
  | [] => .ok []
  | x :: xs =>
    match toInterface x with
    | .error err => .error err
    | .ok v =>
      match toSlice xs with
      | .error err => .error err
      | .ok vs => .ok (v :: vs)

/-- The members of an object stored in the map `m`. -/
def toMap : List (String × Value) → Object → Except String Object
  | [], m => .ok m
  | (key, x) :: rest, m =>
    match toInterface x with
    | .error err => .error err
    | .ok v => toMap rest (insert m key v)

end

mutual

/-- The numbers written in a JSON value, as written and in the order written. -/
def Value.literals : Value → List String
  | Value.null => []
  | Value.bool _ => []
  | Value.number literal => [literal]
  | Value.string _ _ => []
  | Value.array xs => literalsOfElements xs
  | Value.object members => literalsOfMembers members

/-- The numbers written in the elements of an array. -/
def literalsOfElements : List Value → List String
  | [] => []
  | x :: xs => x.literals ++ literalsOfElements xs

/-- The numbers written in the values of the members of an object. -/
def literalsOfMembers : List (String × Value) → List String
  | [] => []
  | (_, x) :: rest => x.literals ++ literalsOfMembers rest

end

end json

/-- Unmarshal is `json.Unmarshal(data, &args)` for a nil `args` of type
`map[string]interface{}`: a text that is not JSON is a syntax error, worded by
`malformed`; the text `null` leaves the map nil without error; an object fills
the map, unless a number in it is out of the range of `float64`, which is an
error; a value of another kind cannot be stored in a map. With an error the
map is not looked at by the caller and is given as nil. -/
def json.Unmarshal (malformed : String → String) (data : String) : Object × Err :=
  match json.Parse data with
  | none => ([], some (malformed data))
  | some json.Value.null => ([], none)
  | some (json.Value.object members) =>
    match json.toMap members [] with
    | .ok m => (m, none)
    | .error err => ([], some err)
  | some (json.Value.bool _) =>
    ([], some "json: cannot unmarshal bool into Go value of type map[string]interface \x7b\x7d")
  | some (json.Value.number _) =>
    ([], some "json: cannot unmarshal number into Go value of type map[string]interface \x7b\x7d")
  | some (json.Value.string _ _) =>
    ([], some "json: cannot unmarshal string into Go value of type map[string]interface \x7b\x7d")
  | some (json.Value.array _) =>
    ([], some "json: cannot unmarshal array into Go value of type map[string]interface \x7b\x7d")

namespace unicode

/-- IsSpace is `unicode.IsSpace`: the characters of property White Space. -/
def IsSpace (c : Char) : Bool :=
  c.toNat = 0x09 || c.toNat = 0x0A || c.toNat = 0x0B || c.toNat = 0x0C || c.toNat = 0x0D ||
  c.toNat = 0x20 || c.toNat = 0x85 || c.toNat = 0xA0 || c.toNat = 0x1680 ||
  (0x2000 ≤ c.toNat && c.toNat ≤ 0x200A) || c.toNat = 0x2028 || c.toNat = 0x2029 ||
  c.toNat = 0x202F || c.toNat = 0x205F || c.toNat = 0x3000

end unicode

namespace strings

/-- The loop of `strings.Fields`: `cur` is the field being read. -/
def fields : List Char → List Char → List (List Char)
  | [], cur => if cur = [] then [] else [cur]
  | c :: cs, cur =>
    if unicode.IsSpace c then
      if cur = [] then fields cs [] else cur :: fields cs []
    else fields cs (cur ++ [c])

/-- Fields is `strings.Fields`: splits `s` around each run of white space
characters; the result is empty when `s` holds white space only. -/
def Fields (s : String) : List String :=
  (fields s.data []).map String.mk

/-- ToLower is `strings.ToLower`: maps every character by `unicode.ToLower`,
which is the argument `lower`. -/
def ToLower (lower : Char → Char) (s : String) : String :=
  String.mk (s.data.map lower)

/-- Contains is `strings.Contains`: whether `substr` is within `s`. -/
def Contains (s substr : String) : Bool :=
  s.data.tails.any (fun t => substr.data.isPrefixOf t)

/-- The text made of separators and fields in turn, starting and ending with a
separator: `weave [s0, s1, s2] [f1, f2]` is `s0 ++ f1 ++ s1 ++ f2 ++ s2`. It
is used to state what the fields of a text are, not by the program. -/
def weave : List (List Char) → List (List Char) → List Char
  | sep :: seps, tok :: toks => sep ++ tok ++ weave seps toks
  | sep :: _, [] => sep
  | [], _ => []

end strings

/-- Read `m[key]` in a Go `map[string]interface{}`: the nil interface when the
key is not bound. -/
def Object.index (m : Object) (key : String) : Any :=
  match m.find? (fun kv => kv.1 = key) with
  | some kv => kv.2
  | none => Any.null

/-- The type assertion `v.(string)` in its two-result form. -/
def Any.assertString : Any → String × Bool
  | Any.string s => (s, true)
  | _ => ("", false)

/-- The type assertion `v.(float64)` in its two-result form. -/
def Any.assertFloat64 : Any → Rat × Bool
  | Any.float64 x => (x, true)
  | _ => (0, false)

/-- A rational number without its fraction: rounded toward zero. -/
def truncate (x : Rat) : Int :=
  Int.tdiv x.num x.den

/-- A number as a 64-bit signed integer holds it after overflow. -/
def wrapInt64 (n : Int) : Int :=
  (n + 2 ^ 63) % 2 ^ 64 - 2 ^ 63

/-! ## `encoding/json` on `[]Message`, for ImportJSON and ExportJSON -/

namespace json

/-- The word for the kind of a JSON value in the text of a type error. -/
def Value.kind : Value → String
  | Value.null => "null"
  | Value.bool _ => "bool"
  | Value.number _ => "number"
  | Value.string _ _ => "string"
  | Value.array _ => "array"
  | Value.object _ => "object"

end json

namespace memory

/-- What `encoding/json` calls outside itself on a Message: `MarshalJSON` of
`time.Time`, as the text it puts between the quotes (the digits and signs of
RFC 3339, of which none is escaped in JSON) or its error; `UnmarshalJSON` of
`time.Time` on the text of a JSON string with its quotes; and the comparison
of an object key with a field name that ignores case, `EqualFold`. -/
structure Codec where
  MarshalJSON : Time → String × Err
  UnmarshalJSON : String → Time × Err
  EqualFold : String → String → Bool

/-- The fields of Message. -/
inductive Field where
  | ID
  | Role
  | Content
  | Timestamp
  | SessionID
deriving DecidableEq, Repr, Inhabited

/-- The names the struct tags of Message give its fields in JSON. -/
def fieldTags : List (String × Field) :=
  [("id", Field.ID), ("role", Field.Role), ("content", Field.Content),
   ("timestamp", Field.Timestamp), ("session_id", Field.SessionID)]

/-- The field an object key is stored in: the field of that name, else the first
field whose name is the key when case is ignored, else none. -/
def Codec.field (codec : Codec) (key : String) : Option Field :=
  match fieldTags.find? (fun p => p.1 = key) with
  | some p => some p.2
  | none => (fieldTags.find? (fun p => codec.EqualFold p.1 key)).map (fun p => p.2)

/-- The text of the error for a JSON value that cannot be stored in a field:
the kind of the value, with the number as written when it is a number that
does not fit the field. -/
def typeError (kind field type_ : String) : String :=
  "json: cannot unmarshal " ++ kind ++ " into Go struct field Message." ++ field ++
    " of type " ++ type_

/-- Keep the first error saved. -/
def saveError (saved : Err) (err : String) : Err :=
  match saved with
  | some first => some first
  | none => some err

/-- Store a JSON value in a field of `msg`. A value of the wrong kind is an
error that is saved while decoding goes on; the error of `UnmarshalJSON` of
the time ends the decoding; `null` changes nothing. -/
def Codec.setField (codec : Codec) (msg : Message) (saved : Err) (field : Field)
    (v : json.Value) : Except String (Message × Err) :=
  match field, v with
  | Field.Timestamp, json.Value.null => .ok (msg, saved)
  | Field.Timestamp, json.Value.string raw _ =>
    match codec.UnmarshalJSON ("\x22" ++ raw ++ "\x22") with
    | (_, some err) => .error err
    | (t, none) => .ok ({ msg with Timestamp := t }, saved)
  | Field.Timestamp, _ => .error "Time.UnmarshalJSON: input is not a JSON string"
  | _, json.Value.null => .ok (msg, saved)
  | Field.ID, json.Value.number literal =>
    match strconv.ParseInt literal with
    | some n => .ok ({ msg with ID := n }, saved)
    | none => .ok (msg, saveError saved (typeError ("number " ++ literal) "id" "int64"))
  | Field.ID, _ => .ok (msg, saveError saved (typeError v.kind "id" "int64"))
  | Field.Role, json.Value.string _ s => .ok ({ msg with Role := s }, saved)
  | Field.Role, _ => .ok (msg, saveError saved (typeError v.kind "role" "string"))
  | Field.Content, json.Value.string _ s => .ok ({ msg with Content := s }, saved)
  | Field.Content, _ => .ok (msg, saveError saved (typeError v.kind "content" "string"))
  | Field.SessionID, json.Value.string _ s => .ok ({ msg with SessionID := s }, saved)
  | Field.SessionID, _ => .ok (msg, saveError saved (typeError v.kind "session_id" "string"))

/-- Store the members of an object in `msg`, in the order written; a key that
names no field is passed over. -/
def Codec.setFields (codec : Codec) :
    List (String × json.Value) → Message → Err → Except String (Message × Err)
  | [], msg, saved => .ok (msg, saved)
  | (key, v) :: rest, msg, saved =>
    match codec.field key with
    | none => codec.setFields rest msg saved
    | some field =>
      match codec.setField msg saved field v with
      | .error err => .error err
      | .ok (msg1, saved1) => codec.setFields rest msg1 saved1

/-- The zero value of Message. -/
def Message.zero : Message :=
  { ID := 0, Role := "", Content := "", Timestamp := 0, SessionID := "" }

/-- Decode the elements of an array into messages appended to a nil slice. -/
def Codec.decodeElements (codec : Codec) :
    List json.Value → Err → Except String (List Message × Err)
  | [], saved => .ok ([], saved)
  | v :: rest, saved =>
    match
      (match v with
       | json.Value.object members => codec.setFields members Message.zero saved
       | json.Value.null => .ok (Message.zero, saved)
       | _ =>
         .ok (Message.zero, saveError saved ("json: cannot unmarshal " ++ v.kind ++
           " into Go value of type memory.Message"))) with
    | .error err => .error err
    | .ok (msg, saved1) =>
      match codec.decodeElements rest saved1 with
      | .error err => .error err
      | .ok (msgs, saved2) => .ok (msg :: msgs, saved2)

/-- Unmarshal is `json.Unmarshal(jsonData, &messages)` for a nil `messages` of
type `[]Message`: a text that is not JSON is a syntax error, worded by
`malformed`; `null` leaves the slice nil; an array is decoded element by
element; a value of another kind is an error. -/
def Codec.Unmarshal (codec : Codec) (malformed : String → String) (jsonData : String) :
    List Message × Err :=
  match json.Parse jsonData with
  | none => ([], some (malformed jsonData))
  | some json.Value.null => ([], none)
  | some (json.Value.array xs) =>
    match codec.decodeElements xs none with
    | .error err => ([], some err)
    | .ok (messages, saved) => (messages, saved)
  | some v =>
    ([], some ("json: cannot unmarshal " ++ v.kind ++ " into Go value of type []memory.Message"))

end memory

/-! ## internal/tools/exec_tool.go -/

namespace tools

/-- What Execute of exec_command calls outside this repository:
`exec.CommandContext(ctx, name, argv...).CombinedOutput()` under a context that
times out after the `time.Duration` `d`, a number of nanoseconds, as
`CombinedOutput d name argv`; and the result of the conversion `int(x)` of a
`float64` that does not fit an `int`, which the language leaves to the
implementation. An `int` has 64 bits. -/
structure Exec (ω : Type) where
  CombinedOutput : Int → String → List String → ω → (String × Err) × ω
  intOutOfRange : Rat → Int

/-- The conversion `int(to)` of a `float64`. -/
def Exec.int {ω : Type} (sys : Exec ω) (to_ : Rat) : Int :=
  if - 2 ^ 63 ≤ truncate to_ ∧ truncate to_ < 2 ^ 63 then truncate to_
  else wrapInt64 (sys.intOutOfRange to_)

/-- The value of variable `timeout` in Execute of exec_command. -/
def ExecCommand.timeout {ω : Type} (sys : Exec ω) (args : Object) : Int :=
  match (args.index "timeout").assertFloat64 with
  | (to_, true) => sys.int to_
  | (_, false) => 30

/-- Execute of ExecCommand. -/
def ExecCommand.Execute {ω : Type} (sys : Exec ω) (args : Object) (w : ω) :
    (String × Err) × ω :=
  match (args.index "command").assertString with
  | (_, false) => (("", some "command argument is required"), w)
  | (command, true) =>
    let timeout := ExecCommand.timeout sys args
    let parts := strings.Fields command
    match parts with
    | [] => (("", some "empty command"), w)
    | name :: argv =>
      match sys.CombinedOutput (wrapInt64 (timeout * 1000000000)) name argv w with
      | ((output, some err), w1) =>
        (("", some ("command failed: " ++ err ++ "\nOutput: " ++ output)), w1)
      | ((output, none), w1) => ((output, none), w1)

/-- ExecCommand executes a shell command: the tool with its four methods. -/
def ExecCommand {ω : Type} (sys : Exec ω) : Tool ω :=
  { Name := "exec_command",
    Description := "Execute a shell command and return its output. Use with caution.",
    Parameters :=
      [("type", Any.string "object"),
       ("properties", Any.map
         [("command", Any.map [("type", Any.string "string"),
                               ("description", Any.string "The shell command to execute")]),
          ("timeout", Any.map [("type", Any.string "integer"),
                               ("description", Any.string "Timeout in seconds (default: 30)")])]),
       ("required", Any.slice [Any.string "command"])],
    Execute := ExecCommand.Execute sys }

/-! ## internal/tools/memory_tools.go -/

/-- The helper containsIgnoreCase; `lower` is `unicode.ToLower` and `len` the
number of bytes of a string. -/
def containsIgnoreCase (lower : Char → Char) (text substr : String) : Bool :=
  if substr.utf8ByteSize = 0 then true
  else if text.utf8ByteSize < substr.utf8ByteSize then false
  else
    let textLower := strings.ToLower lower text
    let substrLower := strings.ToLower lower substr
    strings.Contains textLower substrLower

/-- containsKeywords checks if text contains any of the query keywords. -/
def containsKeywords (lower : Char → Char) (text query : String) : Bool :=
  containsIgnoreCase lower text query

end tools

/-! ## The file system and the clock, as the tools and the agent call them -/

namespace filepath

/-- The loop of `filepath.Ext`, from the last character of the path backwards:
`acc` is what was passed. -/
def extLoop : List Char → List Char → List Char
  | [], _ => []
  | c :: rest, acc =>
    if c = '/' then []
    else if c = '.' then c :: acc
    else extLoop rest (c :: acc)

/-- Ext is `filepath.Ext`: the suffix beginning at the final dot in the final
element of `path`, empty if there is no dot. -/
def Ext (path : String) : String :=
  String.mk (extLoop path.data.reverse [])

end filepath

/-- Map is `strings.Map` for a mapping that drops no character: a copy of `s`
with every character replaced by its image. -/
def strings.Map (mapping : Char → Char) (s : String) : String :=
  String.mk (s.data.map mapping)

/-- An entry of a directory as `os.ReadDir` returns it. -/
structure DirEntry where
  Name : String
  IsDir : Bool
deriving DecidableEq, Repr, Inhabited

/-- What the file tools, the memory tools and SaveConversation call outside
this repository, on the state `ω` of the machine: `filepath.Abs`,
`filepath.Dir`, `filepath.Join`, `os.ReadFile`, `os.ReadDir`, `os.MkdirAll` and
`os.WriteFile` with their permission bits, `time.Now`, `Time.Format` as
`Format t layout`, and `unicode.ToLower`. Reading the clock may change the
state, so that two readings may differ. -/
structure Host (ω : Type) where
  Abs : String → ω → String × Err
  Dir : String → String
  Join : List String → String
  ReadFile : String → ω → String × Err
  ReadDir : String → ω → List DirEntry × Err
  MkdirAll : String → Nat → ω → Err × ω
  WriteFile : String → String → Nat → ω → Err × ω
  Now : ω → Time × ω
  Format : Time → String → String
  ToLower : Char → Char

namespace tools

/-! ## internal/tools/file_tools.go -/

/-- Execute of WriteFile. -/
def WriteFile.Execute {ω : Type} (sys : Host ω) (args : Object) (w : ω) : (String × Err) × ω :=
  match (args.index "path").assertString with
  | (_, false) => (("", some "path argument is required"), w)
  | (path, true) =>
    match (args.index "content").assertString with
    | (_, false) => (("", some "content argument is required"), w)
    | (content, true) =>
      match sys.Abs path w with
      | (_, some err) => (("", some ("failed to resolve path: " ++ err)), w)
      | (absPath, none) =>
        let dir := sys.Dir absPath
        match sys.MkdirAll dir 0o755 w with
        | (some err, w1) => (("", some ("failed to create directory: " ++ err)), w1)
        | (none, w1) =>
          match sys.WriteFile absPath content 0o644 w1 with
          | (some err, w2) => (("", some ("failed to write file: " ++ err)), w2)
          | (none, w2) =>
            (("Successfully wrote " ++ toString content.utf8ByteSize ++ " bytes to " ++ path,
              none), w2)

/-- WriteFile writes content to a file: the tool with its four methods. -/
def WriteFile {ω : Type} (sys : Host ω) : Tool ω :=
  { Name := "write_file",
    Description := "Write content to a file at the specified path. Creates the file if it doesn't exist, overwrites if it does.",
    Parameters :=
      [("type", Any.string "object"),
       ("properties", Any.map
         [("path", Any.map [("type", Any.string "string"),
                            ("description", Any.string "Absolute or relative path to the file")]),
          ("content", Any.map [("type", Any.string "string"),
                               ("description", Any.string "Content to write to the file")])]),
       ("required", Any.slice [Any.string "path", Any.string "content"])],
    Execute := WriteFile.Execute sys }

/-! ## internal/tools/memory_tools.go, continued -/

/-- MemorySearch searches for information in memory files. -/
structure MemorySearch where
  WorkspaceDir : String
deriving DecidableEq, Repr, Inhabited

/-- The helper joinStrings. -/
def joinStrings (strs : List String) (sep : String) : String :=
  match strs with
  | [] => ""
  | first :: rest => rest.foldl (fun result s => result ++ (sep ++ s)) first

/-- The loop of searchInMemory over the entries of the conversations
directory. -/
def MemorySearch.searchEntries {ω : Type} (sys : Host ω) (conversationsDir query : String)
    (w : ω) : List DirEntry → List String → List String
  | [], results => results
  | entry :: rest, results =>
    if ¬ entry.IsDir ∧ filepath.Ext entry.Name = ".md" then
      let path := sys.Join [conversationsDir, entry.Name]
      match sys.ReadFile path w with
      | (content, none) =>
        if containsKeywords sys.ToLower content query then
          MemorySearch.searchEntries sys conversationsDir query w rest
            (results ++ ["- " ++ entry.Name])
        else MemorySearch.searchEntries sys conversationsDir query w rest results
      | (_, some _) => MemorySearch.searchEntries sys conversationsDir query w rest results
    else MemorySearch.searchEntries sys conversationsDir query w rest results

/-- The slice `results` of searchInMemory before it is joined. -/
def MemorySearch.results {ω : Type} (t : MemorySearch) (sys : Host ω) (query : String)
    (w : ω) : List String :=
  let memoryDir := sys.Join [t.WorkspaceDir, "memory"]
  let results : List String := []
  let memoryPath := sys.Join [memoryDir, "MEMORY.md"]
  let results :=
    match sys.ReadFile memoryPath w with
    | (content, none) =>
      if containsKeywords sys.ToLower content query then results ++ ["- MEMORY.md"]
      else results
    | (_, some _) => results
  let conversationsDir := sys.Join [memoryDir, "conversations"]
  match sys.ReadDir conversationsDir w with
  | (entries, none) => MemorySearch.searchEntries sys conversationsDir query w entries results
  | (_, some _) => results

/-- searchInMemory performs a simple keyword search in memory files. -/
def MemorySearch.searchInMemory {ω : Type} (t : MemorySearch) (sys : Host ω) (query : String)
    (w : ω) : String :=
  joinStrings (t.results sys query w) "\n"

/-- Execute of MemorySearch; `len(results)` is the number of bytes of the
string `results`. -/
def MemorySearch.Execute {ω : Type} (t : MemorySearch) (sys : Host ω) (args : Object) (w : ω) :
    (String × Err) × ω :=
  match (args.index "query").assertString with
  | (_, false) => (("", some "query 参数是必需的"), w)
  | (query, true) =>
    let results := t.searchInMemory sys query w
    if results.utf8ByteSize = 0 then
      (("未找到关于 '" ++ query ++ "' 的记忆", none), w)
    else
      (("找到 " ++ toString results.utf8ByteSize ++ " 条相关记忆：\n" ++ results, none), w)

/-- UpdateMemory updates MEMORY.md with new information. -/
structure UpdateMemory where
  WorkspaceDir : String
deriving DecidableEq, Repr, Inhabited

/-- The helper sectionOrDefault. -/
def sectionOrDefault (section_ defaultVal : String) : String :=
  if section_ = "" then defaultVal else section_

/-- Execute of UpdateMemory. The error of `os.ReadFile` is dropped. -/
def UpdateMemory.Execute {ω : Type} (t : UpdateMemory) (sys : Host ω) (args : Object) (w : ω) :
    (String × Err) × ω :=
  match (args.index "content").assertString with
  | (_, false) => (("", some "content 参数是必需的"), w)
  | (content, true) =>
    let section_ := (args.index "section").assertString.1
    match sys.Now w with
    | (now, w1) =>
      let timestamp := sys.Format now "2006-01-02 15:04:05"
      let memoryPath := sys.Join [t.WorkspaceDir, "memory", "MEMORY.md"]
      let existing := (sys.ReadFile memoryPath w1).1
      let newEntry := "\n## " ++ sectionOrDefault section_ "其他" ++ "\n\n**时间**: " ++
        timestamp ++ "\n\n" ++ content ++ "\n"
      let updatedContent := existing ++ newEntry
      match sys.WriteFile memoryPath updatedContent 0o644 w1 with
      | (some err, w2) => (("", some ("写入 MEMORY.md 失败: " ++ err)), w2)
      | (none, w2) =>
        (("✓ 已更新 MEMORY.md [" ++ sectionOrDefault section_ "其他" ++ "]", none), w2)

end tools

/-! ## internal/agent/agent.go: SaveConversation -/

namespace agent

/-- The mapping SaveConversation applies to every character of the title. -/
def sanitize (r : Char) : Char :=
  if ('a' ≤ r ∧ r ≤ 'z') ∨ ('A' ≤ r ∧ r ≤ 'Z') ∨ ('0' ≤ r ∧ r ≤ '9') ∨ r = '-' ∨ r = '_' then r
  else '-'

/-- The value of variable `safeTitle` of SaveConversation. -/
def safeTitle (title : String) : String :=
  strings.Map sanitize title

/-- The helper titleOrDefault. -/
def titleOrDefault (title defaultVal : String) : String :=
  if title = "" then defaultVal else title

/-- The value of variable `filename` of SaveConversation, with the state of the
machine after the clock is read. -/
def Agent.filename {ω : Type} (sys : Host ω) (title : String) (w : ω) : String × ω :=
  if title ≠ "" then
    match sys.Now w with
    | (now, w1) => (sys.Format now "20060102-150405" ++ "-" ++ safeTitle title ++ ".md", w1)
  else
    match sys.Now w with
    | (now, w1) => (sys.Format now "20060102-150405.md", w1)

/-- The loop of SaveConversation over the messages: the text it adds to
`content`. -/
def Agent.writeMessages {ω : Type} (sys : Host ω) (messages : List memory.Message)
    (content : String) : String :=
  messages.foldl (fun content msg =>
    let role := msg.Role
    let content :=
      if role = "user" then content ++ ("### 用户 [" ++ sys.Format msg.Timestamp "15:04" ++ "]\n\n")
      else content ++ ("### GoClaw [" ++ sys.Format msg.Timestamp "15:04" ++ "]\n\n")
    let content := content ++ msg.Content
    content ++ "\n\n") content

/-- SaveConversation saves the current conversation to a markdown file.
`dbErr` is the error of the history query. -/
def Agent.SaveConversation {ω : Type} (a : Agent ω) (sys : Host ω) (dbErr : Err)
    (title : String) (w : ω) : (String × Err) × ω :=
  let conversationsDir := sys.Join [a.cfg.Memory.Workspace, "memory", "conversations"]
  match sys.MkdirAll conversationsDir 0o755 w with
  | (some err, w1) => (("", some ("创建 conversations 目录失败: " ++ err)), w1)
  | (none, w1) =>
    match Agent.filename sys title w1 with
    | (filename, w2) =>
      match a.memory.GetHistory dbErr 1000 with
      | (_, some err) => (("", some ("获取对话历史失败: " ++ err)), w2)
      | (messages, none) =>
        match sys.Now w2 with
        | (now, w3) =>
          let content := "" ++ ("# " ++ titleOrDefault title "对话记录" ++ "\n\n")
          let content := content ++ ("**时间**: " ++ sys.Format now "2006-01-02 15:04:05" ++ "\n")
          let content := content ++ ("**消息数**: " ++ toString messages.length ++ "\n\n")
          let content := content ++ "---\n\n"
          let content := Agent.writeMessages sys messages content
          let filePath := sys.Join [conversationsDir, filename]
          match sys.WriteFile filePath content 0o644 w3 with
          | (some err, w4) => (("", some ("写入文件失败: " ++ err)), w4)
          | (none, w4) => ((filePath, none), w4)

end agent

/-! ## A concrete system, on which the theorems below are instantiated -/

namespace sample

/-- A response of the model with no tool call and content `done`. -/
def final : zhipu.ChatResponse :=
  { ID := "r2", Object := "chat.completion", Created := 0, Model := "glm-4-flash",
    Choices := [{ Index := 0, Message := { Role := "assistant", Content := "done" },
                  FinishReason := "stop" }],
    Usage := { PromptTokens := 0, CompletionTokens := 0, TotalTokens := 0 } }

/-- The call of the registered tool `echo`. -/
def callEcho : zhipu.ToolCall :=
  { ID := "call_1", Type_ := "function", Function := { Name := "echo", Arguments := "x" } }

/-- The call of a tool `nope` that is not registered. -/
def callNope : zhipu.ToolCall :=
  { ID := "call_2", Type_ := "function", Function := { Name := "nope", Arguments := "x" } }

/-- A response of the model asking for `echo`, then for `nope`. -/
def asking : zhipu.ChatResponse :=
  { ID := "r1", Object := "chat.completion", Created := 0, Model := "glm-4-flash",
    Choices := [{ Index := 0,
                  Message := { Role := "assistant", Content := "",
                               ToolCalls := [callEcho, callNope] },
                  FinishReason := "tool_calls" }],
    Usage := { PromptTokens := 0, CompletionTokens := 0, TotalTokens := 0 } }

/-- An endpoint that answers its `n`-th request with the `n`-th body of
`bodies` and status 200, and cannot be reached after that; body `asking`
decodes to `asking`, body `final` to `final`, nothing else decodes. -/
def http (bodies : List String) : zhipu.HTTP :=
  { Marshal := fun _ => ("request", none),
    NewRequest := fun _ _ _ => none,
    Do := fun n _ =>
      match bodies[n]? with
      | some body => ({ StatusCode := 200, Body := (body, none) }, none)
      | none => ({ StatusCode := 0, Body := ("", none) }, some "connection refused"),
    Unmarshal := fun body =>
      if body = "asking" then (asking, none)
      else if body = "final" then (final, none)
      else (default, some "unexpected end of JSON input") }

def cfg : config.Config :=
  { Zhipu := { APIKey := "key", BaseURL := "https://open.bigmodel.cn/api/paas/v4",
               Model := "glm-4-flash", Temperature := 7 / 10, MaxTokens := 4096 },
    Agent := { MaxHistory := 4 },
    Memory := { Type_ := "sqlite", FilePath := "./goclaw.db", Workspace := "ws" },
    Gateway := { Enabled := false, Port := 0, Host := "" } }

/-- A tool that counts its executions in the state of the machine. -/
def echo : tools.Tool Nat :=
  { Name := "echo", Description := "echo", Parameters := [],
    Execute := fun _ w => (("echoed", none), w + 1) }

/-- The registry holding `echo` only. -/
def registry : tools.Registry Nat :=
  (tools.New Nat).Register echo

/-- An empty store. -/
def store : memory.Store :=
  { db := { rows := [], seq := 0 }, sessionID := "default" }

/-- A store holding four messages, the oldest first. -/
def store4 : memory.Store :=
  { db := { rows := [{ ID := 1, Role := "user", Content := "m1", Timestamp := 1,
                       SessionID := "default" },
                     { ID := 2, Role := "assistant", Content := "m2", Timestamp := 2,
                       SessionID := "default" },
                     { ID := 3, Role := "user", Content := "m3", Timestamp := 3,
                       SessionID := "default" },
                     { ID := 4, Role := "assistant", Content := "m4", Timestamp := 4,
                       SessionID := "default" }],
            seq := 4 },
    sessionID := "default" }

/-- An agent with `max_history = 4` on store `mem`, whose endpoint answers with
`bodies`. -/
def agent (mem : memory.Store) (bodies : List String) : agent.Agent Nat :=
  { cfg := cfg, client := zhipu.New cfg (http bodies), memory := mem,
    tools := registry, maxHistory := cfg.Agent.MaxHistory,
    contextLoader := { workspaceDir := "ws" } }

/-- Surroundings in which no storage call fails, the clock reads 5 and then 6,
no context file exists and every arguments text decodes to the empty mapping. -/
def env : agent.Env Nat :=
  { addUser := (none, 5), history := none, addAssistant := (none, 6),
    os := { ReadFile := fun _ _ => ("", some "no such file or directory"),
            Join := fun dir name => dir ++ "/" ++ name },
    unmarshal := fun _ => ([], none) }

/-- The first call of the model in the turn of `agent store bodies` on user
message `hi`, when the endpoint answers it with `asking`. -/
def firstCall (bodies : List String) : agent.Exchange Nat :=
  { messages := [{ Role := "system", Content := agent.baseSystemPrompt },
                 { Role := "user", Content := "hi" }],
    tools := (agent store bodies).providerTools, world := 0, reply := .ok asking }

/-- The second call of the model in that turn, with the reply it gets. -/
def secondCall (bodies : List String) (reply : Except String zhipu.ChatResponse) :
    agent.Exchange Nat :=
  { messages := [{ Role := "system", Content := agent.baseSystemPrompt },
                 { Role := "user", Content := "hi" },
                 { Role := "assistant", Content := "", ToolCalls := [callEcho, callNope] },
                 { Role := "tool", Content := "echoed", ToolID := "call_1" },
                 { Role := "tool", Content := "Error: tool not found: nope", ToolID := "call_2" }],
    tools := (agent store bodies).providerTools, world := 1, reply := reply }

/-- The part of `unicode.ToLower` the instances below evaluate: the letters A
to Z and the Kelvin sign U+212A, whose lower case is the letter k; every other
character is kept. -/
def lower (c : Char) : Char :=
  if 'A' ≤ c ∧ c ≤ 'Z' then Char.ofNat (c.toNat + 32)
  else if c.toNat = 0x212A then 'k'
  else c

/-- The wording of the syntax error of a text that ends too early. -/
def malformed : String → String :=
  fun _ => "unexpected end of JSON input"

/-- The part of package `time` the instances below evaluate: the reading `t`
is second `t` modulo 60 of 2026-11-01T10:00 UTC, written as RFC 3339 writes it
and read back from a text of that length; letters are compared through `lower`. -/
def codec : memory.Codec :=
  { MarshalJSON := fun t =>
      ("2026-11-01T10:00:" ++ (if t % 60 < 10 then "0" else "") ++ toString (t % 60) ++ "Z",
        none),
    UnmarshalJSON := fun raw =>
      match raw.data with
      | '\x22' :: rest =>
        if rest.length = 21 then (strconv.natOfDigits ((rest.drop 17).take 2), none)
        else (0, some "parsing time: cannot parse")
      | _ => (0, some "Time.UnmarshalJSON: input is not a JSON string"),
    EqualFold := fun a b => strings.ToLower lower a = strings.ToLower lower b }

/-- A machine whose state is the list of the processes spawned so far, each
with its time limit in nanoseconds, its program and its arguments; every
process prints `ok` and succeeds. A number out of range converts to the least
`int`. -/
def exec : tools.Exec (List (Int × String × List String)) :=
  { CombinedOutput := fun d name argv w => (("ok", none), w ++ [(d, name, argv)]),
    intOutOfRange := fun _ => - 2 ^ 63 }

/-- A machine like `exec` on which every process fails with exit status 1
after printing `boom`. -/
def execFailing : tools.Exec (List (Int × String × List String)) :=
  { CombinedOutput := fun d name argv w =>
      (("boom", some "exit status 1"), w ++ [(d, name, argv)]),
    intOutOfRange := fun _ => - 2 ^ 63 }

/-- An endpoint that answers every request with status `status` and body
`final`, the serialisation of a request being the model it names. -/
def answering (status : Int) : zhipu.HTTP :=
  { Marshal := fun req => (req.Model, none),
    NewRequest := fun _ _ _ => none,
    Do := fun _ _ => ({ StatusCode := status, Body := ("final", none) }, none),
    Unmarshal := fun body =>
      if body = "final" then (final, none)
      else (default, some "unexpected end of JSON input") }

/-- An endpoint that sends back what it is sent, with status 400. -/
def mirror : zhipu.HTTP :=
  { Marshal := fun req => (req.Model, none),
    NewRequest := fun _ _ _ => none,
    Do := fun _ httpReq => ({ StatusCode := 400, Body := (httpReq.Body, none) }, none),
    Unmarshal := fun _ => (default, some "unexpected end of JSON input") }

/-- A second tool named `echo`, which answers `second` and leaves the machine
as it is. -/
def echo2 : tools.Tool Nat :=
  { Name := "echo", Description := "echo again", Parameters := [],
    Execute := fun _ w => (("second", none), w) }

/-- A tool named `other`. -/
def other : tools.Tool Nat :=
  { Name := "other", Description := "other", Parameters := [],
    Execute := fun _ w => (("other", none), w) }

/-- A tool that answers with the `command` it is given. -/
def repeating : tools.Tool Nat :=
  { Name := "repeat", Description := "repeat", Parameters := [],
    Execute := fun args w => (((args.index "command").assertString.1, none), w + 1) }

/-- A workspace in which `IDENTITY.md` and `memory/MEMORY.md` can be read and
`SOUL.md` cannot. -/
def os : agent.OS Nat :=
  { ReadFile := fun path _ =>
      if path = "ws/IDENTITY.md" then ("I am goclaw", none)
      else if path = "ws/memory/MEMORY.md" then ("likes tea", none)
      else ("", some "no such file or directory"),
    Join := fun dir name => dir ++ "/" ++ name }

/-- A file of the sample machine: its path, its content and whether the
process may read it. -/
structure File where
  path : String
  content : String
  readable : Bool
deriving DecidableEq, Repr, Inhabited

/-- The content of the file at `p` after a write of `data`: a file that exists
is overwritten and keeps its permissions, another is created readable. -/
def write (p data : String) (w : List File) : List File :=
  if w.any (fun f => f.path = p) then
    w.map (fun f => if f.path = p then { f with content := data } else f)
  else w ++ [{ path := p, content := data, readable := true }]

/-- A machine whose state is the list of its files. Relative paths are taken
from `/home/goclaw`, every directory can be created, a file can be written
whether it is readable or not, a directory lists the files under it, and the
clock always reads 10:00:00 on 2026-11-01. -/
def host : Host (List File) :=
  { Abs := fun p _ => if p.data.head? = some '/' then (p, none) else ("/home/goclaw/" ++ p, none),
    Dir := fun p => String.mk ((p.data.reverse.dropWhile (fun c => c ≠ '/')).drop 1).reverse,
    Join := fun parts => String.intercalate "/" parts,
    ReadFile := fun p w =>
      match w.find? (fun f => f.path = p) with
      | some f =>
        if f.readable then (f.content, none)
        else ("", some ("open " ++ p ++ ": permission denied"))
      | none => ("", some ("open " ++ p ++ ": no such file or directory")),
    ReadDir := fun dir w =>
      match w.filterMap (fun f =>
          if (dir ++ "/").data.isPrefixOf f.path.data then
            some ({ Name := String.mk (f.path.data.drop (dir.length + 1)), IsDir := false } :
              DirEntry)
          else none) with
      | [] => ([], some ("open " ++ dir ++ ": no such file or directory"))
      | entries => (entries, none),
    MkdirAll := fun _ _ w => (none, w),
    WriteFile := fun p data _ w => (none, write p data w),
    Now := fun w => (0, w),
    Format := fun _ layout =>
      if layout = "2006-01-02 15:04:05" then "2026-11-01 10:00:00"
      else if layout = "20060102-150405" then "20261101-100000"
      else if layout = "20060102-150405.md" then "20261101-100000.md"
      else "10:00",
    ToLower := lower }

/-- A workspace whose memory holds `MEMORY.md` and three conversation files. -/
def disk : List File :=
  [{ path := "ws/memory/MEMORY.md", content := "# Memory\nLikes green tea.\n", readable := true },
   { path := "ws/memory/conversations/20261030-tea.md", content := "Tea at five", readable := true },
   { path := "ws/memory/conversations/20261031-go.md", content := "Go modules", readable := true },
   { path := "ws/memory/conversations/notes.txt", content := "tea", readable := true }]

/-- A workspace whose `MEMORY.md` exists and cannot be read. -/
def locked : List File :=
  [{ path := "ws/memory/MEMORY.md", content := "old notes", readable := false }]

/-- An agent on the machine of `host`, with store `mem` and no tool. -/
def scribe (mem : memory.Store) : agent.Agent (List File) :=
  { cfg := cfg, client := zhipu.New cfg (http []), memory := mem,
    tools := tools.New (List File), maxHistory := cfg.Agent.MaxHistory,
    contextLoader := { workspaceDir := "ws" } }

end sample

/-! # Properties

First the lemmas on the store, on the loop over the tool calls and on the turn;
then the claims C1 to C25 of the specification, each with its instance on the
system of namespace `sample`. -/

/-! ## Lemmas on the memory store -/

namespace memory

end memory

/-! ## Lemmas on the texts of `encoding/json`

What the encoder writes for a history, the scanner reads back: a string from
its escaped text, an `int64` from its digits, a message from its five members,
the history from the array. -/

namespace json

end json

namespace strconv

end strconv

namespace json

end json

namespace memory
open json

end memory

namespace json

mutual

/-- A JSON value is stored in an `interface` value without error exactly when
every number written in it is in the range of `float64`. -/
theorem toInterface_ok_iff : ∀ v : Value,
    (∃ a, toInterface v = .ok a) ↔ ∀ l ∈ v.literals, strconv.ParseFloat l ≠ none
  | Value.null => by simp [toInterface, Value.literals]
  | Value.bool _ => by simp [toInterface, Value.literals]
  | Value.number literal => by
    cases h : strconv.ParseFloat literal <;> simp [toInterface, Value.literals, h]
  | Value.string _ _ => by simp [toInterface, Value.literals]
  | Value.array xs => by
    have ih := toSlice_ok_iff xs
    simp only [Value.literals]
    rw [← ih]
    cases h : toSlice xs <;> simp [toInterface, h]
  | Value.object members => by
    have ih := toMap_ok_iff members []
    simp only [Value.literals]
    rw [← ih]
    cases h : toMap members [] <;> simp [toInterface, h]

/-- The elements of an array are stored without error exactly when every number
written in them is in the range of `float64`. -/
theorem toSlice_ok_iff : ∀ xs : List Value,
    (∃ a, toSlice xs = .ok a) ↔ ∀ l ∈ literalsOfElements xs, strconv.ParseFloat l ≠ none
  | [] => by simp [toSlice, literalsOfElements]
  | x :: xs => by
    have ih1 := toInterface_ok_iff x
    have ih2 := toSlice_ok_iff xs
    simp only [literalsOfElements, List.mem_append, or_imp, forall_and]
    rw [← ih1, ← ih2]
    cases h1 : toInterface x <;> cases h2 : toSlice xs <;> simp [toSlice, h1, h2]

/-- The members of an object are stored without error exactly when every number
written in them is in the range of `float64`. -/
theorem toMap_ok_iff : ∀ (members : List (String × Value)) (m : Object),
    (∃ a, toMap members m = .ok a) ↔ ∀ l ∈ literalsOfMembers members, strconv.ParseFloat l ≠ none
  | [], m => by simp [toMap, literalsOfMembers]
  | (key, x) :: rest, m => by
    have ih1 := toInterface_ok_iff x
    simp only [literalsOfMembers, List.mem_append, or_imp, forall_and]
    rw [← ih1]
    cases h1 : toInterface x with
    | error e => simp [toMap, h1]
    | ok v =>
      have ih2 := toMap_ok_iff rest (insert m key v)
      simp [toMap, h1, ih2]
end

end json

/-! ## Lemmas on the agent loop -/

namespace agent

/-- HasToolCalls holds exactly when GetToolCalls is not empty. -/
theorem hasToolCalls_iff (r : zhipu.ChatResponse) :
    r.HasToolCalls = true ↔ r.GetToolCalls ≠ [] := by
  unfold zhipu.ChatResponse.HasToolCalls zhipu.ChatResponse.GetToolCalls
  cases r.Choices with
  | nil => simp
  | cons c rest => simp [List.length_pos]

/-- On a response without tool calls the loop ends at once. -/
theorem toolLoop_done {ω : Type} (a : Agent ω) (um : String → Object × Err)
    (tools : List zhipu.Tool)
    (fuel n : Nat) (msgs : List zhipu.Message) (resp : zhipu.ChatResponse) (w : ω)
    (h : resp.HasToolCalls = false) :
    a.toolLoop um tools fuel n msgs resp w = { outcome := some (.ok resp), world := w, calls := [] } := by
  cases fuel <;> simp [Agent.toolLoop, h]

/-- On a response with tool calls and no iteration left, the loop stops unfinished. -/
theorem toolLoop_zero {ω : Type} (a : Agent ω) (um : String → Object × Err)
    (tools : List zhipu.Tool)
    (n : Nat) (msgs : List zhipu.Message) (resp : zhipu.ChatResponse) (w : ω)
    (h : resp.HasToolCalls = true) :
    a.toolLoop um tools 0 n msgs resp w = { outcome := none, world := w, calls := [] } := by
  simp [Agent.toolLoop, h]

/-- One iteration of the loop whose call of the model fails. -/
theorem toolLoop_succ_error {ω : Type} (a : Agent ω) (um : String → Object × Err)
    (tools : List zhipu.Tool)
    (fuel n : Nat) (msgs : List zhipu.Message) (resp : zhipu.ChatResponse) (w : ω) (err : String)
    (h : resp.HasToolCalls = true)
    (hrep : a.client.ChatWithTools n (a.round um resp msgs w).1 tools = .error err) :
    a.toolLoop um tools (fuel + 1) n msgs resp w =
      { outcome := some (.error ("API call after tool execution failed: " ++ err)),
        world := (a.round um resp msgs w).2,
        calls := [{ messages := (a.round um resp msgs w).1, tools := tools,
                    world := (a.round um resp msgs w).2, reply := .error err }] } := by
  unfold Agent.round at *
  rw [Agent.toolLoop]
  simp only [h, if_true, hrep]

/-- One iteration of the loop whose call of the model succeeds. -/
theorem toolLoop_succ_ok {ω : Type} (a : Agent ω) (um : String → Object × Err)
    (tools : List zhipu.Tool)
    (fuel n : Nat) (msgs : List zhipu.Message) (resp resp1 : zhipu.ChatResponse) (w : ω)
    (h : resp.HasToolCalls = true)
    (hrep : a.client.ChatWithTools n (a.round um resp msgs w).1 tools = .ok resp1) :
    a.toolLoop um tools (fuel + 1) n msgs resp w =
      { outcome := (a.toolLoop um tools fuel (n + 1) (a.round um resp msgs w).1 resp1
                      (a.round um resp msgs w).2).outcome,
        world := (a.toolLoop um tools fuel (n + 1) (a.round um resp msgs w).1 resp1
                      (a.round um resp msgs w).2).world,
        calls := { messages := (a.round um resp msgs w).1, tools := tools,
                   world := (a.round um resp msgs w).2, reply := .ok resp1 } ::
                 (a.toolLoop um tools fuel (n + 1) (a.round um resp msgs w).1 resp1
                      (a.round um resp msgs w).2).calls } := by
  unfold Agent.round at *
  rw [Agent.toolLoop]
  simp only [h, if_true, hrep]

/-- Every response with tool calls that the loop has the iterations to handle
is followed by a call whose messages and state are those of `round`. -/
theorem toolLoop_next {ω : Type} (a : Agent ω) (um : String → Object × Err)
    (tools : List zhipu.Tool) :
    ∀ (fuel n : Nat) (msgs : List zhipu.Message) (resp : zhipu.ChatResponse) (w : ω)
      (cur : Exchange ω), cur.messages = msgs → cur.world = w → cur.reply = .ok resp →
      ∀ (j : Nat) (e : Exchange ω) (r : zhipu.ChatResponse),
        (cur :: (a.toolLoop um tools fuel n msgs resp w).calls)[j]? = some e →
        e.reply = .ok r → r.HasToolCalls = true → j < fuel →
        ∃ e1, (cur :: (a.toolLoop um tools fuel n msgs resp w).calls)[j + 1]? = some e1 ∧
          (e1.messages, e1.world) = a.round um r e.messages e.world := by
  intro fuel
  induction fuel with
  | zero => intro n msgs resp w cur _ _ _ j e r _ _ _ hj; omega
  | succ fuel ih =>
    intro n msgs resp w cur hm hw hr j e r hje her htc hj
    cases hres : resp.HasToolCalls with
    | false =>
      rw [toolLoop_done a um tools _ n msgs resp w hres] at hje
      cases j with
      | zero =>
        simp only [List.getElem?_cons_zero, Option.some.injEq] at hje
        subst hje
        rw [hr] at her
        cases her
        rw [hres] at htc
        cases htc
      | succ j => simp at hje
    | true =>
      cases hrep : a.client.ChatWithTools n (a.round um resp msgs w).1 tools with
      | error err =>
        rw [toolLoop_succ_error a um tools fuel n msgs resp w err hres hrep] at hje ⊢
        cases j with
        | zero =>
          simp only [List.getElem?_cons_zero, Option.some.injEq] at hje
          subst hje
          rw [hr] at her
          cases her
          simp only [Nat.zero_add, List.getElem?_cons_succ, List.getElem?_cons_zero]
          refine ⟨_, rfl, ?_⟩
          simp [hm, hw]
        | succ j =>
          cases j with
          | zero =>
            simp only [List.getElem?_cons_succ, List.getElem?_cons_zero, Option.some.injEq] at hje
            subst hje
            cases her
          | succ j => simp at hje
      | ok resp1 =>
        rw [toolLoop_succ_ok a um tools fuel n msgs resp resp1 w hres hrep] at hje ⊢
        cases j with
        | zero =>
          simp only [List.getElem?_cons_zero, Option.some.injEq] at hje
          subst hje
          rw [hr] at her
          cases her
          simp only [Nat.zero_add, List.getElem?_cons_succ, List.getElem?_cons_zero]
          refine ⟨_, rfl, ?_⟩
          simp [hm, hw]
        | succ j =>
          have h := ih (n + 1) (a.round um resp msgs w).1 resp1 (a.round um resp msgs w).2
            { messages := (a.round um resp msgs w).1, tools := tools,
              world := (a.round um resp msgs w).2, reply := .ok resp1 }
            rfl rfl rfl j e r (by simpa using hje) her htc (by omega)
          simpa using h

/-- A failed call of the model ends the loop with an error. -/
theorem toolLoop_failed {ω : Type} (a : Agent ω) (um : String → Object × Err)
    (tools : List zhipu.Tool) :
    ∀ (fuel n : Nat) (msgs : List zhipu.Message) (resp : zhipu.ChatResponse) (w : ω)
      (e : Exchange ω) (err : String),
      e ∈ (a.toolLoop um tools fuel n msgs resp w).calls → e.reply = .error err →
      ∃ msg, (a.toolLoop um tools fuel n msgs resp w).outcome = some (.error msg) := by
  intro fuel
  induction fuel with
  | zero =>
    intro n msgs resp w e err he _
    cases hres : resp.HasToolCalls with
    | false => rw [toolLoop_done a um tools _ n msgs resp w hres] at he; simp at he
    | true => rw [toolLoop_zero a um tools n msgs resp w hres] at he; simp at he
  | succ fuel ih =>
    intro n msgs resp w e err he her
    cases hres : resp.HasToolCalls with
    | false => rw [toolLoop_done a um tools _ n msgs resp w hres] at he; simp at he
    | true =>
      cases hrep : a.client.ChatWithTools n (a.round um resp msgs w).1 tools with
      | error err1 =>
        rw [toolLoop_succ_error a um tools fuel n msgs resp w err1 hres hrep]
        exact ⟨_, rfl⟩
      | ok resp1 =>
        rw [toolLoop_succ_ok a um tools fuel n msgs resp resp1 w hres hrep] at he ⊢
        simp only [List.mem_cons] at he
        rcases he with rfl | he
        · cases her
        · exact ih _ _ _ _ e err he her

/-- A loop that ends on a response ends on the reply of its last call (of the
call before the loop when it makes none), and that response has no tool call. -/
theorem toolLoop_last {ω : Type} (a : Agent ω) (um : String → Object × Err)
    (tools : List zhipu.Tool) :
    ∀ (fuel n : Nat) (msgs : List zhipu.Message) (resp : zhipu.ChatResponse) (w : ω)
      (cur : Exchange ω) (last : zhipu.ChatResponse), cur.reply = .ok resp →
      (a.toolLoop um tools fuel n msgs resp w).outcome = some (.ok last) →
      last.HasToolCalls = false ∧
      ∃ e, (cur :: (a.toolLoop um tools fuel n msgs resp w).calls).getLast? = some e ∧
        e.reply = .ok last := by
  intro fuel
  induction fuel with
  | zero =>
    intro n msgs resp w cur last hr hout
    cases hres : resp.HasToolCalls with
    | false =>
      rw [toolLoop_done a um tools _ n msgs resp w hres] at hout ⊢
      simp only [Option.some.injEq, Except.ok.injEq] at hout
      subst hout
      exact ⟨hres, cur, rfl, hr⟩
    | true => rw [toolLoop_zero a um tools n msgs resp w hres] at hout; simp at hout
  | succ fuel ih =>
    intro n msgs resp w cur last hr hout
    cases hres : resp.HasToolCalls with
    | false =>
      rw [toolLoop_done a um tools _ n msgs resp w hres] at hout ⊢
      simp only [Option.some.injEq, Except.ok.injEq] at hout
      subst hout
      exact ⟨hres, cur, rfl, hr⟩
    | true =>
      cases hrep : a.client.ChatWithTools n (a.round um resp msgs w).1 tools with
      | error err1 =>
        rw [toolLoop_succ_error a um tools fuel n msgs resp w err1 hres hrep] at hout
        simp at hout
      | ok resp1 =>
        rw [toolLoop_succ_ok a um tools fuel n msgs resp resp1 w hres hrep] at hout ⊢
        obtain ⟨h1, e, he, her⟩ := ih (n + 1) (a.round um resp msgs w).1 resp1
          (a.round um resp msgs w).2
          { messages := (a.round um resp msgs w).1, tools := tools,
            world := (a.round um resp msgs w).2, reply := .ok resp1 } last rfl hout
        refine ⟨h1, e, ?_, her⟩
        simpa [List.getLast?_cons_cons] using he

/-- One step of the loop over the tool calls. -/
theorem executeEach_cons {ω : Type} (a : Agent ω) (um : String → Object × Err) (tc : zhipu.ToolCall)
    (rest : List zhipu.ToolCall) (msgs : List zhipu.Message) (w : ω) :
    a.executeEach um (tc :: rest) msgs w =
      a.executeEach um rest
        (msgs ++ [{ Role := "tool",
                    Content :=
                      (match (a.tools.ExecuteToolCall um tc.Function.Name
                          tc.Function.Arguments w).1.2 with
                        | some e => "Error: " ++ e
                        | none => (a.tools.ExecuteToolCall um tc.Function.Name
                            tc.Function.Arguments w).1.1),
                    ToolID := tc.ID }])
        (a.tools.ExecuteToolCall um tc.Function.Name tc.Function.Arguments w).2 := by
  rw [Agent.executeEach]

/-- The loop over the tool calls only appends to the messages it is given. -/
theorem executeEach_messages {ω : Type} (a : Agent ω) (um : String → Object × Err) :
    ∀ (tcs : List zhipu.ToolCall) (msgs : List zhipu.Message) (w : ω),
      a.executeEach um tcs msgs w =
        (msgs ++ (a.executeEach um tcs [] w).1, (a.executeEach um tcs [] w).2) := by
  intro tcs
  induction tcs with
  | nil => intro msgs w; simp [Agent.executeEach]
  | cons tc rest ih =>
    intro msgs w
    rw [executeEach_cons, executeEach_cons, ih, ih ([] ++ _)]
    simp

/-- The loop over a list of tool calls, cut in two. -/
theorem executeEach_append {ω : Type} (a : Agent ω) (um : String → Object × Err) :
    ∀ (xs ys : List zhipu.ToolCall) (msgs : List zhipu.Message) (w : ω),
      a.executeEach um (xs ++ ys) msgs w =
        a.executeEach um ys (a.executeEach um xs msgs w).1 (a.executeEach um xs msgs w).2 := by
  intro xs
  induction xs with
  | nil => intro ys msgs w; simp [Agent.executeEach]
  | cons tc rest ih =>
    intro ys msgs w
    rw [List.cons_append, executeEach_cons, executeEach_cons, ih]

/-- The tool messages of one round, one per tool call in the order of the
calls, each the outcome of the dispatch in the state the dispatches before it
left. -/
theorem executeEach_spec {ω : Type} (a : Agent ω) (um : String → Object × Err) :
    ∀ (tcs : List zhipu.ToolCall) (w : ω),
      ∃ ws : List ω, ws.length = tcs.length + 1 ∧ ws[0]? = some w ∧
        ws[tcs.length]? = some (a.executeEach um tcs [] w).2 ∧
        (a.executeEach um tcs [] w).1.length = tcs.length ∧
        ∀ i tc, tcs[i]? = some tc → ∃ wi, ws[i]? = some wi ∧
          ws[i + 1]? = some (a.tools.ExecuteToolCall um tc.Function.Name
            tc.Function.Arguments wi).2 ∧
          (a.executeEach um tcs [] w).1[i]? = some
            { Role := "tool",
              Content :=
                (match (a.tools.ExecuteToolCall um tc.Function.Name
                    tc.Function.Arguments wi).1.2 with
                  | some e => "Error: " ++ e
                  | none => (a.tools.ExecuteToolCall um tc.Function.Name
                      tc.Function.Arguments wi).1.1),
              ToolID := tc.ID } := by
  intro tcs
  induction tcs with
  | nil =>
    intro w
    exact ⟨[w], rfl, rfl, rfl, rfl, by simp⟩
  | cons tc rest ih =>
    intro w
    obtain ⟨ws, hlen, h0, hlast, hmlen, hall⟩ :=
      ih (a.tools.ExecuteToolCall um tc.Function.Name tc.Function.Arguments w).2
    refine ⟨w :: ws, by simp [hlen], by simp, ?_, ?_, ?_⟩
    · rw [executeEach_cons, executeEach_messages]
      simpa using hlast
    · rw [executeEach_cons, executeEach_messages]
      simp [hmlen]
    · intro i tc1 hi
      rw [executeEach_cons, executeEach_messages]
      cases i with
      | zero =>
        simp only [List.getElem?_cons_zero, Option.some.injEq] at hi
        subst hi
        exact ⟨w, by simp, by simpa using h0, by simp⟩
      | succ i =>
        simp only [List.getElem?_cons_succ] at hi
        obtain ⟨wi, h1, h2, h3⟩ := hall i tc1 hi
        refine ⟨wi, by simpa using h1, by simpa using h2, ?_⟩
        simpa using h3

/-- The three ways a dispatch fails, with the text of the error of each. -/
theorem executeToolCall_error {ω : Type} (r : tools.Registry ω) (um : String → Object × Err)
    (name argsJSON : String) (w : ω) (msg : String)
    (h : (r.ExecuteToolCall um name argsJSON w).1.2 = some msg) :
    (r.Get name = none ∧ msg = "tool not found: " ++ name) ∨
    (∃ tool err, r.Get name = some tool ∧ (um argsJSON).2 = some err ∧
      msg = "failed to parse arguments: " ++ err) ∨
    (∃ tool err, r.Get name = some tool ∧ (um argsJSON).2 = none ∧
      (tool.Execute (um argsJSON).1 w).1.2 = some err ∧
      msg = "tool execution failed: " ++ err) := by
  unfold tools.Registry.ExecuteToolCall at h
  cases hget : r.Get name with
  | none =>
    left
    simp only [hget] at h
    exact ⟨rfl, by simpa using h.symm⟩
  | some tool =>
    right
    simp only [hget] at h
    rcases hum : um argsJSON with ⟨args, _ | err⟩
    · right
      simp only [hum] at h
      rcases hex : tool.Execute args w with ⟨⟨res, _ | err⟩, w1⟩
      · simp [hex] at h
      · simp only [hex] at h
        exact ⟨tool, err, rfl, rfl, by simp [hex], by simpa using h.symm⟩
    · left
      simp only [hum] at h
      exact ⟨tool, err, rfl, rfl, by simpa using h.symm⟩

/-- A turn whose first or second storage call fails calls the model not once. -/
theorem Chat_storage_failed {ω : Type} (a : Agent ω) (env : Env ω) (fuel : Nat)
    (userMessage : String) (w : ω)
    (h : env.addUser.1 ≠ none ∨ env.history ≠ none) :
    (a.Chat env fuel userMessage w).calls = [] := by
  unfold Agent.Chat
  cases h1 : env.addUser.1 with
  | some err => simp [memory.Store.Add]
  | none =>
    cases h2 : env.history with
    | none => simp [h1, h2] at h
    | some err => simp [memory.Store.Add, memory.Store.ToProviderFormat, memory.Store.GetHistory]

/-- A turn that called the model got through its first two storage calls. -/
theorem Chat_storage_ok {ω : Type} (a : Agent ω) (env : Env ω) (fuel : Nat)
    (userMessage : String) (w : ω)
    (h : (a.Chat env fuel userMessage w).calls ≠ []) :
    env.addUser.1 = none ∧ env.history = none := by
  by_contra hcon
  apply h
  apply Chat_storage_failed
  by_cases h1 : env.addUser.1 = none
  · right; intro h2; exact hcon ⟨h1, h2⟩
  · left; exact h1

/-- The first call of the model in a turn whose storage calls succeed. -/
theorem Chat_shape {ω : Type} (a : Agent ω) (env : Env ω) (fuel : Nat) (userMessage : String)
    (w : ω)
    (h1 : env.addUser.1 = none) (h2 : env.history = none) :
    ∃ call0 : Exchange ω, call0.world = w ∧
      call0.messages = a.providerMessages env.os w
        ((a.memory.Add none env.addUser.2 "user" userMessage).2.ToProviderFormat none
          a.maxHistory).1 ∧
      ((∃ err, call0.reply = .error err ∧
          (a.Chat env fuel userMessage w).calls = [call0] ∧
          (a.Chat env fuel userMessage w).result = some ("", some ("API call failed: " ++ err)) ∧
          (a.Chat env fuel userMessage w).memory =
            (a.memory.Add none env.addUser.2 "user" userMessage).2) ∨
       (∃ resp, call0.reply = .ok resp ∧
          (a.Chat env fuel userMessage w).calls =
            call0 :: (a.toolLoop env.unmarshal call0.tools fuel 1 call0.messages resp w).calls ∧
          (a.Chat env fuel userMessage w).world =
            (a.toolLoop env.unmarshal call0.tools fuel 1 call0.messages resp w).world ∧
          ((a.toolLoop env.unmarshal call0.tools fuel 1 call0.messages resp w).outcome = none →
            (a.Chat env fuel userMessage w).result = none ∧
            (a.Chat env fuel userMessage w).memory =
              (a.memory.Add none env.addUser.2 "user" userMessage).2) ∧
          (∀ err, (a.toolLoop env.unmarshal call0.tools fuel 1 call0.messages resp w).outcome
              = some (.error err) →
            (a.Chat env fuel userMessage w).result = some ("", some err) ∧
            (a.Chat env fuel userMessage w).memory =
              (a.memory.Add none env.addUser.2 "user" userMessage).2) ∧
          (∀ last, (a.toolLoop env.unmarshal call0.tools fuel 1 call0.messages resp w).outcome
              = some (.ok last) →
            (a.Chat env fuel userMessage w).result =
              (match env.addAssistant.1 with
               | some err => some ("", some ("failed to store assistant message: " ++ err))
               | none => some (last.GetContent, none)) ∧
            (a.Chat env fuel userMessage w).memory =
              ((a.memory.Add none env.addUser.2 "user" userMessage).2.Add env.addAssistant.1
                env.addAssistant.2 "assistant" last.GetContent).2))) := by
  refine ⟨{ messages := a.providerMessages env.os w
              ((a.memory.Add none env.addUser.2 "user" userMessage).2.ToProviderFormat none
                a.maxHistory).1,
            tools := a.providerTools, world := w,
            reply := a.client.ChatWithTools 0 (a.providerMessages env.os w
              ((a.memory.Add none env.addUser.2 "user" userMessage).2.ToProviderFormat none
                a.maxHistory).1) a.providerTools }, rfl, rfl, ?_⟩
  unfold Agent.Chat
  simp only [h1, h2, memory.Store.Add, memory.Store.ToProviderFormat, memory.Store.GetHistory]
  generalize hrep : a.client.ChatWithTools 0 _ _ = reply
  cases reply with
  | error err => exact Or.inl ⟨err, rfl, rfl, rfl, rfl⟩
  | ok resp =>
    refine Or.inr ⟨resp, rfl, ?_⟩
    dsimp only
    generalize a.toolLoop env.unmarshal _ fuel 1 _ resp w = L
    rcases L with ⟨outcome, world, calls⟩
    rcases outcome with _ | ⟨err | last⟩
    · simp
    · simp
    · cases h3 : env.addAssistant.1 <;> simp [h3]

/-- Every response with tool calls that the turn has the iterations to handle
is followed by a call of the model with the messages and state of `round`. -/
theorem Chat_next {ω : Type} (a : Agent ω) (env : Env ω) (fuel : Nat) (userMessage : String) (w : ω)
    (j : Nat) (e : Exchange ω) (r : zhipu.ChatResponse)
    (hj : (a.Chat env fuel userMessage w).calls[j]? = some e)
    (hr : e.reply = .ok r) (htc : r.HasToolCalls = true) (hfuel : j < fuel) :
    ∃ e1, (a.Chat env fuel userMessage w).calls[j + 1]? = some e1 ∧
      (e1.messages, e1.world) = a.round env.unmarshal r e.messages e.world := by
  have hne : (a.Chat env fuel userMessage w).calls ≠ [] := by
    intro h; rw [h] at hj; simp at hj
  obtain ⟨h1, h2⟩ := Chat_storage_ok a env fuel userMessage w hne
  obtain ⟨call0, hw, _, hcase⟩ := Chat_shape a env fuel userMessage w h1 h2
  rcases hcase with ⟨err0, hrep, hcalls, _, _⟩ | ⟨resp, hrep, hcalls, _, _, _, _⟩
  · exfalso
    rw [hcalls] at hj
    cases j with
    | zero =>
      simp only [List.getElem?_cons_zero, Option.some.injEq] at hj
      subst hj; rw [hrep] at hr; cases hr
    | succ j => simp at hj
  · rw [hcalls] at hj ⊢
    exact toolLoop_next a env.unmarshal call0.tools fuel 1 call0.messages resp w call0 rfl hw
      hrep j e r hj hr htc hfuel

/-- The two calls of the model in the turn of the sample agent whose second request fails. -/
theorem sample_calls_failed :
    ((sample.agent sample.store ["asking"]).Chat sample.env 1 "hi" 0).calls =
      [sample.firstCall ["asking"],
       sample.secondCall ["asking"] (.error "failed to send request: connection refused")] := rfl

end agent

/-! ## The claims on the agent loop: C1 to C6 -/

namespace agent

/-- Claim C2: after a turn that returns `response` without error, the table holds
the rows it held before followed by exactly two rows of the session, `user`
with the user text and `assistant` with `response`, in this order; `response`
is the content of the last reply of the model, which carries no tool call. -/
theorem chat_persists_two_rows {ω : Type} (a : Agent ω) (env : Env ω) (fuel : Nat)
    (userMessage : String)
    (w : ω) (response : String)
    (h : (a.Chat env fuel userMessage w).result = some (response, none)) :
    (a.Chat env fuel userMessage w).memory.db.rows.map
        (fun m => (m.SessionID, m.Role, m.Content)) =
      a.memory.db.rows.map (fun m => (m.SessionID, m.Role, m.Content)) ++
        [(a.memory.sessionID, "user", userMessage),
         (a.memory.sessionID, "assistant", response)] ∧
    ∃ e last, (a.Chat env fuel userMessage w).calls.getLast? = some e ∧
      e.reply = .ok last ∧ last.HasToolCalls = false ∧ response = last.GetContent := by
  have h1 : env.addUser.1 = none := by
    cases h1 : env.addUser.1 with
    | none => rfl
    | some err => simp [Agent.Chat, h1, memory.Store.Add] at h
  have h2 : env.history = none := by
    cases h2 : env.history with
    | none => rfl
    | some err =>
      simp [Agent.Chat, h1, h2, memory.Store.Add, memory.Store.ToProviderFormat,
        memory.Store.GetHistory] at h
  obtain ⟨call0, _, _, hcase⟩ := Chat_shape a env fuel userMessage w h1 h2
  rcases hcase with ⟨err, _, _, hres, _⟩ | ⟨resp, hrep, hcalls, _, hnone, herr, hok⟩
  · rw [hres] at h; simp at h
  · cases hout : (a.toolLoop env.unmarshal call0.tools fuel 1 call0.messages resp w).outcome with
    | none => rw [(hnone hout).1] at h; simp at h
    | some out =>
      cases out with
      | error err => rw [(herr err hout).1] at h; simp at h
      | ok last =>
        obtain ⟨hres, hmem⟩ := hok last hout
        rw [hres] at h
        cases h3 : env.addAssistant.1 with
        | some err => rw [h3] at h; simp at h
        | none =>
          rw [h3] at h
          simp only [Option.some.injEq, Prod.mk.injEq, and_true] at h
          obtain ⟨hnt, e, he, her⟩ := toolLoop_last a env.unmarshal call0.tools fuel 1
            call0.messages resp w call0 last hrep hout
          refine ⟨?_, e, last, by rw [hcalls]; exact he, her, hnt, h.symm⟩
          rw [hmem, h3, h]
          simp [memory.Store.Add, memory.DB.insert]

/-- A turn of the sample system on a store of four rows: two rows more. -/
theorem chat_persists_two_rows_witness :
    ((sample.agent sample.store4 ["asking", "final"]).Chat sample.env 1 "m5" 0).result
      = some ("done", none) ∧
    ((sample.agent sample.store4 ["asking", "final"]).Chat sample.env 1 "m5" 0).memory.db.rows.map
        (fun m => (m.SessionID, m.Role, m.Content)) =
      sample.store4.db.rows.map (fun m => (m.SessionID, m.Role, m.Content)) ++
        [("default", "user", "m5"), ("default", "assistant", "done")] :=
  ⟨by decide,
   (chat_persists_two_rows (sample.agent sample.store4 ["asking", "final"]) sample.env 1 "m5" 0
      "done" (by decide)).1⟩

/-- Claim C3: when a call of the model fails in a turn, whichever call it is, Chat
returns an error with an empty response, and the table holds the rows it held
before followed by exactly one row, `user` with the user text. -/
theorem chat_model_failure {ω : Type} (a : Agent ω) (env : Env ω) (fuel : Nat)
    (userMessage : String)
    (w : ω) (e : Exchange ω) (err : String)
    (he : e ∈ (a.Chat env fuel userMessage w).calls) (her : e.reply = .error err) :
    (∃ msg, (a.Chat env fuel userMessage w).result = some ("", some msg)) ∧
    (a.Chat env fuel userMessage w).memory.db.rows.map
        (fun m => (m.SessionID, m.Role, m.Content)) =
      a.memory.db.rows.map (fun m => (m.SessionID, m.Role, m.Content)) ++
        [(a.memory.sessionID, "user", userMessage)] := by
  obtain ⟨h1, h2⟩ := Chat_storage_ok a env fuel userMessage w (List.ne_nil_of_mem he)
  obtain ⟨call0, _, _, hcase⟩ := Chat_shape a env fuel userMessage w h1 h2
  have hrows : (a.memory.Add none env.addUser.2 "user" userMessage).2.db.rows.map
      (fun m => (m.SessionID, m.Role, m.Content)) =
      a.memory.db.rows.map (fun m => (m.SessionID, m.Role, m.Content)) ++
        [(a.memory.sessionID, "user", userMessage)] := by
    simp [memory.Store.Add, memory.DB.insert]
  rcases hcase with ⟨err0, _, _, hres, hmem⟩ | ⟨resp, hrep, hcalls, _, _, herr, _⟩
  · exact ⟨⟨_, hres⟩, by rw [hmem]; exact hrows⟩
  · rw [hcalls, List.mem_cons] at he
    rcases he with rfl | he
    · rw [hrep] at her; cases her
    · obtain ⟨msg, hout⟩ := toolLoop_failed a env.unmarshal call0.tools fuel 1
        call0.messages resp w e err he her
      obtain ⟨hres, hmem⟩ := herr msg hout
      exact ⟨⟨_, hres⟩, by rw [hmem]; exact hrows⟩

/-- A turn of the sample system whose second call of the model fails. -/
theorem chat_model_failure_witness :
    sample.secondCall ["asking"] (.error "failed to send request: connection refused") ∈
      ((sample.agent sample.store ["asking"]).Chat sample.env 1 "hi" 0).calls ∧
    (∃ msg, ((sample.agent sample.store ["asking"]).Chat sample.env 1 "hi" 0).result
      = some ("", some msg)) ∧
    ((sample.agent sample.store ["asking"]).Chat sample.env 1 "hi" 0).memory.db.rows.map
        (fun m => (m.SessionID, m.Role, m.Content)) =
      sample.store.db.rows.map (fun m => (m.SessionID, m.Role, m.Content)) ++
        [("default", "user", "hi")] :=
  ⟨List.getElem?_mem (n := 1) rfl,
   chat_model_failure (sample.agent sample.store ["asking"]) sample.env 1 "hi" 0
      (sample.secondCall ["asking"] (.error "failed to send request: connection refused"))
      "failed to send request: connection refused" (List.getElem?_mem (n := 1) rfl) rfl⟩

/-- Claim C4: when the dispatch of a tool call of a reply fails, in the state the
dispatches before it left, the loop goes on to the next call of the model, and
the messages of that call contain the tool message of that tool call with
content `Error: ` followed by the text of the error; the error is that of an
unknown tool, of arguments that do not parse, or of the handler. -/
theorem chat_tool_error_is_data {ω : Type} (a : Agent ω) (env : Env ω) (fuel : Nat)
    (userMessage : String)
    (w : ω) (j : Nat) (e : Exchange ω) (r : zhipu.ChatResponse)
    (before after : List zhipu.ToolCall) (tc : zhipu.ToolCall) (msg : String)
    (hj : (a.Chat env fuel userMessage w).calls[j]? = some e)
    (hr : e.reply = .ok r) (hfuel : j < fuel)
    (hsplit : r.GetToolCalls = before ++ tc :: after)
    (hfail : (a.tools.ExecuteToolCall env.unmarshal tc.Function.Name tc.Function.Arguments
      (a.executeEach env.unmarshal before [] e.world).2).1.2 = some msg) :
    (∃ e1, (a.Chat env fuel userMessage w).calls[j + 1]? = some e1 ∧
      ({ Role := "tool", Content := "Error: " ++ msg, ToolID := tc.ID } : zhipu.Message)
        ∈ e1.messages) ∧
    ((a.tools.Get tc.Function.Name = none ∧ msg = "tool not found: " ++ tc.Function.Name) ∨
     (∃ err, msg = "failed to parse arguments: " ++ err) ∨
     (∃ err, msg = "tool execution failed: " ++ err)) := by
  have htc : r.HasToolCalls = true := by
    rw [hasToolCalls_iff, hsplit]; simp
  obtain ⟨e1, he1, hround⟩ := Chat_next a env fuel userMessage w j e r hj hr htc hfuel
  refine ⟨⟨e1, he1, ?_⟩, ?_⟩
  · have hm : e1.messages = (a.round env.unmarshal r e.messages e.world).1 := by
      rw [← hround]
    rw [hm, Agent.round, hsplit, executeEach_messages, executeEach_append, executeEach_cons,
      executeEach_messages]
    simp only [hfail]
    simp
  · rcases executeToolCall_error _ _ _ _ _ _ hfail with h | ⟨_, err, _, _, h⟩ | ⟨_, err, _, _, _, h⟩
    · exact Or.inl h
    · exact Or.inr (Or.inl ⟨err, h⟩)
    · exact Or.inr (Or.inr ⟨err, h⟩)

/-- The call of the unregistered tool `nope` on the sample system. -/
theorem chat_tool_error_is_data_witness :
    ((sample.agent sample.store ["asking", "final"]).Chat sample.env 1 "hi" 0).calls[0]?
      = some (sample.firstCall ["asking", "final"]) ∧
    (∃ e1, ((sample.agent sample.store ["asking", "final"]).Chat sample.env 1 "hi" 0).calls[0 + 1]?
        = some e1 ∧
      ({ Role := "tool", Content := "Error: " ++ "tool not found: nope", ToolID := "call_2" }
        : zhipu.Message) ∈ e1.messages) :=
  ⟨rfl,
   (chat_tool_error_is_data (sample.agent sample.store ["asking", "final"]) sample.env 1 "hi" 0 0
      (sample.firstCall ["asking", "final"]) sample.asking [sample.callEcho] []
      sample.callNope "tool not found: nope" rfl rfl (by decide) rfl rfl).1⟩

/-- Claim C5: after a reply with tool calls `t1..tn`, the messages of the next call
are those of the previous call, then the assistant message with the content and
the tool calls of the reply, then `n` tool messages; the `i`-th has the id of
`ti` and the outcome of dispatching `ti` in the state the dispatches of
`t1..t(i-1)` left, starting from the state at the previous call. -/
theorem chat_next_request {ω : Type} (a : Agent ω) (env : Env ω) (fuel : Nat) (userMessage : String)
    (w : ω) (j : Nat) (e : Exchange ω) (r : zhipu.ChatResponse)
    (hj : (a.Chat env fuel userMessage w).calls[j]? = some e)
    (hr : e.reply = .ok r) (htc : r.HasToolCalls = true) (hfuel : j < fuel) :
    ∃ (e1 : Exchange ω) (toolMsgs : List zhipu.Message) (ws : List ω),
      (a.Chat env fuel userMessage w).calls[j + 1]? = some e1 ∧
      e1.messages = e.messages ++
        [{ Role := "assistant", Content := r.GetContent, ToolCalls := r.GetToolCalls }] ++
        toolMsgs ∧
      1 ≤ r.GetToolCalls.length ∧
      toolMsgs.length = r.GetToolCalls.length ∧
      ws.length = r.GetToolCalls.length + 1 ∧
      ws[0]? = some e.world ∧ ws[r.GetToolCalls.length]? = some e1.world ∧
      ∀ i tc, r.GetToolCalls[i]? = some tc → ∃ wi, ws[i]? = some wi ∧
        ws[i + 1]? = some (a.tools.ExecuteToolCall env.unmarshal tc.Function.Name
          tc.Function.Arguments wi).2 ∧
        toolMsgs[i]? = some
          { Role := "tool",
            Content :=
              (match (a.tools.ExecuteToolCall env.unmarshal tc.Function.Name
                  tc.Function.Arguments wi).1.2 with
                | some err => "Error: " ++ err
                | none => (a.tools.ExecuteToolCall env.unmarshal tc.Function.Name
                    tc.Function.Arguments wi).1.1),
            ToolID := tc.ID } := by
  obtain ⟨e1, he1, hround⟩ := Chat_next a env fuel userMessage w j e r hj hr htc hfuel
  obtain ⟨ws, hlen, h0, hlast, hmlen, hall⟩ :=
    executeEach_spec a env.unmarshal r.GetToolCalls e.world
  have hm : e1.messages = (a.round env.unmarshal r e.messages e.world).1 := by rw [← hround]
  have hw : e1.world = (a.round env.unmarshal r e.messages e.world).2 := by rw [← hround]
  rw [Agent.round, executeEach_messages] at hm hw
  refine ⟨e1, (a.executeEach env.unmarshal r.GetToolCalls [] e.world).1, ws, he1, hm, ?_,
    hmlen, hlen, h0, by rw [hw]; exact hlast, hall⟩
  have := (hasToolCalls_iff r).1 htc
  exact List.length_pos.2 this

/-- The second request of the sample system after the reply `asking`. -/
theorem chat_next_request_witness :
    ((sample.agent sample.store ["asking", "final"]).Chat sample.env 1 "hi" 0).calls[0]?
      = some (sample.firstCall ["asking", "final"]) ∧
    ∃ (e1 : Exchange Nat) (toolMsgs : List zhipu.Message),
      ((sample.agent sample.store ["asking", "final"]).Chat sample.env 1 "hi" 0).calls[0 + 1]?
        = some e1 ∧
      e1.messages = (sample.firstCall ["asking", "final"]).messages ++
        [{ Role := "assistant", Content := sample.asking.GetContent,
           ToolCalls := sample.asking.GetToolCalls }] ++ toolMsgs ∧
      toolMsgs.length = sample.asking.GetToolCalls.length := by
  refine ⟨rfl, ?_⟩
  obtain ⟨e1, toolMsgs, ws, h1, h2, _, h3, _⟩ :=
    chat_next_request (sample.agent sample.store ["asking", "final"]) sample.env 1 "hi" 0 0
      (sample.firstCall ["asking", "final"]) sample.asking rfl rfl rfl (by decide)
  exact ⟨e1, toolMsgs, h1, h2, h3⟩

/-- Claim C6, on the code as it is: with `max_history = 4` and four messages
persisted, the only request of the turn on a fifth message `m5` carries the
four oldest messages `m1..m4`; the message `m5` just appended is the one left
out, while the store holds it. -/
theorem chat_history_keeps_oldest :
    ((sample.agent sample.store4 ["final"]).Chat sample.env 1 "m5" 0).calls.map
        (fun e => e.messages.map (fun m => (m.Role, m.Content))) =
      [[("system", baseSystemPrompt), ("user", "m1"), ("assistant", "m2"), ("user", "m3"),
        ("assistant", "m4")]] ∧
    ((sample.agent sample.store4 ["final"]).Chat sample.env 1 "m5" 0).memory.db.rows.map
        (fun m => (m.Role, m.Content)) =
      [("user", "m1"), ("assistant", "m2"), ("user", "m3"), ("assistant", "m4"),
       ("user", "m5"), ("assistant", "done")] :=
  ⟨rfl, rfl⟩

end agent

/-! ## The claims on the memory store: C7 to C9 -/

namespace memory

/-- Claim C9: Clear after Clear leaves the store as one Clear does, and after Clear
the count of the session is 0 and GetHistory returns no message, whatever the
limit. -/
theorem clear_idempotent (s : Store) :
    (s.Clear none).2.Clear none = s.Clear none ∧
    (s.Clear none).2.Count none = (0, none) ∧
    ∀ limit : Int, (s.Clear none).2.GetHistory none limit = ([], none) := by
  have hfil : (s.db.rows.filter (fun m => ¬ (m.SessionID = s.sessionID))).filter
      (fun m => m.SessionID = s.sessionID) = [] := by
    simp [List.filter_filter]
  refine ⟨?_, ?_, ?_⟩
  · simp [Store.Clear, DB.delete, List.filter_filter]
  · simp [Store.Clear, Store.Count, DB.delete, DB.count, hfil]
  · intro limit
    simp only [Store.Clear, Store.GetHistory, DB.delete, DB.select, hfil]
    simp

end memory

/-! ## The claim on the tool registry: C10 -/

namespace tools

/-- Claim C10: for a name bound to no tool, ExecuteToolCall returns the empty
string and the error `tool not found: ` followed by the name, whatever the
arguments text and whether it parses or not, and leaves the state of the
machine as it was: no handler runs. -/
theorem executeToolCall_unknown {ω : Type} (r : Registry ω) (um : String → Object × Err)
    (name argsJSON : String) (w : ω) (h : ∀ kv ∈ r.tools, kv.1 ≠ name) :
    r.Get name = none ∧
    r.ExecuteToolCall um name argsJSON w = (("", some ("tool not found: " ++ name)), w) := by
  have hget : r.Get name = none := by
    unfold Registry.Get
    rw [Option.map_eq_none', List.find?_eq_none]
    intro kv hkv
    simpa using h kv hkv
  exact ⟨hget, by simp [Registry.ExecuteToolCall, hget]⟩

/-- The dispatch of `nope` on the sample registry. -/
theorem executeToolCall_unknown_witness :
    (∀ kv ∈ sample.registry.tools, kv.1 ≠ "nope") ∧
    sample.registry.ExecuteToolCall sample.env.unmarshal "nope" "not json" 7 =
      (("", some ("tool not found: " ++ "nope")), 7) :=
  ⟨by simp [sample.registry, Registry.Register, New, sample.echo],
   (executeToolCall_unknown sample.registry sample.env.unmarshal "nope" "not json" 7
      (by simp [sample.registry, Registry.Register, New, sample.echo])).2⟩

end tools

/-! ## The claims on the dispatch of a tool call and on the registry: C11, C12 -/

namespace tools

/-- Claim C11, amended: for a registered tool, ExecuteToolCall fails with the
argument-parse error, leaving the state of the machine as it was (Execute does
not run), when the arguments text is not JSON, when it is a JSON boolean,
number, string or array, and when it is a JSON object in which a number is
written that is out of the range of `float64`; it runs Execute on the decoded
mapping when the text is a JSON object whose numbers are all in that range, and
on the nil mapping when the text is the JSON value null. -/
theorem executeToolCall_arguments {ω : Type} (r : Registry ω) (malformed : String → String)
    (name argsJSON : String) (w : ω) (tool : Tool ω) (hget : r.Get name = some tool) :
    (json.Parse argsJSON = none →
      r.ExecuteToolCall (json.Unmarshal malformed) name argsJSON w =
        (("", some ("failed to parse arguments: " ++ malformed argsJSON)), w)) ∧
    (∀ v, json.Parse argsJSON = some v → v ≠ json.Value.null →
      (∀ members, v ≠ json.Value.object members) →
      ∃ err, json.Unmarshal malformed argsJSON = ([], some err) ∧
        r.ExecuteToolCall (json.Unmarshal malformed) name argsJSON w =
          (("", some ("failed to parse arguments: " ++ err)), w)) ∧
    (∀ members, json.Parse argsJSON = some (json.Value.object members) →
      ((∃ l ∈ json.literalsOfMembers members, strconv.ParseFloat l = none) →
        ∃ err, json.Unmarshal malformed argsJSON = ([], some err) ∧
          r.ExecuteToolCall (json.Unmarshal malformed) name argsJSON w =
            (("", some ("failed to parse arguments: " ++ err)), w)) ∧
      ((∀ l ∈ json.literalsOfMembers members, strconv.ParseFloat l ≠ none) →
        ∃ args, json.toMap members [] = .ok args ∧
          json.Unmarshal malformed argsJSON = (args, none) ∧
          r.ExecuteToolCall (json.Unmarshal malformed) name argsJSON w =
            match tool.Execute args w with
            | ((_, some err), w1) => (("", some ("tool execution failed: " ++ err)), w1)
            | ((result, none), w1) => ((result, none), w1))) ∧
    (json.Parse argsJSON = some json.Value.null →
      r.ExecuteToolCall (json.Unmarshal malformed) name argsJSON w =
        match tool.Execute [] w with
        | ((_, some err), w1) => (("", some ("tool execution failed: " ++ err)), w1)
        | ((result, none), w1) => ((result, none), w1)) := by
  refine ⟨?_, ?_, ?_, ?_⟩
  · intro h
    simp [Registry.ExecuteToolCall, hget, json.Unmarshal, h]
  · intro v h hnull hmap
    cases v with
    | null => exact absurd rfl hnull
    | object members => exact absurd rfl (hmap members)
    | _ =>
      refine ⟨(json.Unmarshal malformed argsJSON).2.getD "", ?_, ?_⟩ <;>
        simp [Registry.ExecuteToolCall, hget, json.Unmarshal, h]
  · intro members h
    refine ⟨?_, ?_⟩
    · intro hbad
      cases hmap : json.toMap members [] with
      | ok args =>
        obtain ⟨l, hl, hnone⟩ := hbad
        exact absurd hnone ((json.toMap_ok_iff members []).1 ⟨args, hmap⟩ l hl)
      | error err =>
        refine ⟨err, ?_, ?_⟩ <;>
          simp [Registry.ExecuteToolCall, hget, json.Unmarshal, h, hmap]
    · intro hgood
      obtain ⟨args, hmap⟩ := (json.toMap_ok_iff members []).2 hgood
      refine ⟨args, hmap, ?_, ?_⟩
      · simp only [json.Unmarshal, h, hmap]
      · simp only [Registry.ExecuteToolCall, hget, json.Unmarshal, h, hmap]
  · intro h
    simp only [Registry.ExecuteToolCall, hget, json.Unmarshal, h]

/-- Against claim C11 as stated: on the arguments text `null`, which is JSON
and not a JSON object, the dispatch of `echo` does not fail: the handler runs,
as the count of its executions shows. -/
theorem executeToolCall_null :
    json.Parse "null" = some json.Value.null ∧
    sample.registry.ExecuteToolCall (json.Unmarshal sample.malformed)
      "echo" "null" 0 = (("echoed", none), 1) :=
  ⟨rfl, rfl⟩

/-- The dispatch of `repeat` on the texts of an object, of an object holding a
number out of the range of `float64`, of a text cut short, on the empty text,
on the text of an array and on `null`. -/
theorem executeToolCall_arguments_witness :
    ((tools.New Nat).Register sample.repeating).Get "repeat" = some sample.repeating ∧
    ((tools.New Nat).Register sample.repeating).ExecuteToolCall
      (json.Unmarshal sample.malformed) "repeat"
      "\x7b\"command\": \"ls -l\", \"n\": [1, true]\x7d" 0 = (("ls -l", none), 1) ∧
    ((tools.New Nat).Register sample.repeating).ExecuteToolCall
      (json.Unmarshal sample.malformed) "repeat"
      "\x7b\"command\": \"ls -l\", \"n\": 1e400\x7d" 0 =
        (("", some ("failed to parse arguments: " ++
          "json: cannot unmarshal number 1e400 into Go value of type float64")), 0) ∧
    ((tools.New Nat).Register sample.repeating).ExecuteToolCall
      (json.Unmarshal sample.malformed) "repeat" "\x7b\"command\": " 0 =
        (("", some "failed to parse arguments: unexpected end of JSON input"), 0) ∧
    ((tools.New Nat).Register sample.repeating).ExecuteToolCall
      (json.Unmarshal sample.malformed) "repeat" "" 0 =
        (("", some "failed to parse arguments: unexpected end of JSON input"), 0) ∧
    (∃ err, json.Unmarshal sample.malformed "[\"ls\"]" = ([], some err) ∧
      ((tools.New Nat).Register sample.repeating).ExecuteToolCall
        (json.Unmarshal sample.malformed) "repeat" "[\"ls\"]" 0 =
          (("", some ("failed to parse arguments: " ++ err)), 0)) ∧
    ((tools.New Nat).Register sample.repeating).ExecuteToolCall
      (json.Unmarshal sample.malformed) "repeat" "null" 0 = (("", none), 1) := by
  refine ⟨rfl, ?_, ?_, ?_, ?_, ?_, ?_⟩
  · obtain ⟨args, hmap, _, hrun⟩ :=
      ((executeToolCall_arguments ((tools.New Nat).Register sample.repeating)
        sample.malformed "repeat" "\x7b\"command\": \"ls -l\", \"n\": [1, true]\x7d" 0
        sample.repeating rfl).2.2.1 _ rfl).2 (by decide)
    exact hrun.trans (by cases hmap; rfl)
  · obtain ⟨err, herr, hrun⟩ :=
      ((executeToolCall_arguments ((tools.New Nat).Register sample.repeating)
        sample.malformed "repeat" "\x7b\"command\": \"ls -l\", \"n\": 1e400\x7d" 0
        sample.repeating rfl).2.2.1 _ rfl).1 ⟨"1e400", by decide, by decide⟩
    exact hrun.trans (by cases herr; rfl)
  · exact ((executeToolCall_arguments ((tools.New Nat).Register sample.repeating)
      sample.malformed "repeat" "\x7b\"command\": " 0 sample.repeating rfl).1 rfl).trans rfl
  · exact ((executeToolCall_arguments ((tools.New Nat).Register sample.repeating)
      sample.malformed "repeat" "" 0 sample.repeating rfl).1 rfl).trans rfl
  · exact (executeToolCall_arguments ((tools.New Nat).Register sample.repeating)
      sample.malformed "repeat" "[\"ls\"]" 0 sample.repeating rfl).2.1
      (json.Value.array [json.Value.string "ls" "ls"]) rfl (by simp) (by simp)
  · exact ((executeToolCall_arguments ((tools.New Nat).Register sample.repeating)
      sample.malformed "repeat" "null" 0 sample.repeating rfl).2.2.2 rfl).trans rfl

/-- After Register of a tool, Get of its name returns it. -/
theorem get_register_self {ω : Type} (r : Registry ω) (t : Tool ω) :
    (r.Register t).Get t.Name = some t := by
  unfold Registry.Get Registry.Register
  rw [List.find?_append]
  have h : (r.tools.filter (fun kv => ¬ (kv.1 = t.Name))).find? (fun kv => kv.1 = t.Name)
      = none := by
    rw [List.find?_eq_none]
    intro kv hkv
    simpa using (List.mem_filter.1 hkv).2
  simp [h]

/-- Register of a tool leaves Get of every other name as it was. -/
theorem get_register_other {ω : Type} (r : Registry ω) (t : Tool ω) (name : String)
    (h : name ≠ t.Name) : (r.Register t).Get name = r.Get name := by
  unfold Registry.Get Registry.Register
  rw [List.find?_append]
  have h1 : ([(t.Name, t)] : List (String × Tool ω)).find? (fun kv => kv.1 = name) = none := by
    simp [Ne.symm h]
  have h2 : (r.tools.filter (fun kv => ¬ (kv.1 = t.Name))).find? (fun kv => kv.1 = name)
      = r.tools.find? (fun kv => kv.1 = name) := by
    rw [List.find?_filter]
    congr 1
    funext kv
    by_cases hn : kv.1 = name
    · have : ¬ kv.1 = t.Name := fun hk => h (hn.symm.trans hk)
      simp [hn, this, h]
    · simp [hn]
  rw [h1, h2]
  simp

/-- The invariant of the bindings of a registry built by Register: every
binding is under the name of its tool, and no name is bound twice. -/
theorem registered_invariant {ω : Type} (ts : List (Tool ω)) :
    (∀ kv ∈ (ts.foldl Registry.Register (New ω)).tools, kv.1 = kv.2.Name) ∧
    ((ts.foldl Registry.Register (New ω)).tools.map (fun kv => kv.1)).Nodup := by
  suffices H : ∀ (ts : List (Tool ω)) (r : Registry ω),
      ((∀ kv ∈ r.tools, kv.1 = kv.2.Name) ∧ (r.tools.map (fun kv => kv.1)).Nodup) →
      (∀ kv ∈ (ts.foldl Registry.Register r).tools, kv.1 = kv.2.Name) ∧
      ((ts.foldl Registry.Register r).tools.map (fun kv => kv.1)).Nodup from
    H ts (New ω) ⟨by simp [New], by simp [New]⟩
  intro ts
  induction ts with
  | nil => intro r h; exact h
  | cons t rest ih =>
    intro r ⟨h1, h2⟩
    apply ih
    constructor
    · intro kv hkv
      simp only [Registry.Register, List.mem_append, List.mem_filter, List.mem_singleton] at hkv
      rcases hkv with ⟨hkv, _⟩ | rfl
      · exact h1 kv hkv
      · rfl
    · simp only [Registry.Register, List.map_append, List.map_cons, List.map_nil]
      rw [List.nodup_append]
      refine ⟨(h2.sublist ((List.filter_sublist _).map _)), by simp, ?_⟩
      intro a ha hb
      simp only [List.mem_singleton] at hb
      subst hb
      obtain ⟨kv, hkv, hname⟩ := List.mem_map.1 ha
      have := (List.mem_filter.1 hkv).2
      simp [hname] at this

/-- The names bound after Register: those bound before and the name of the tool. -/
theorem names_register {ω : Type} (r : Registry ω) (t : Tool ω) (name : String) :
    name ∈ (r.Register t).tools.map (fun kv => kv.1) ↔
      name ∈ r.tools.map (fun kv => kv.1) ∨ t.Name = name := by
  constructor
  · intro h
    obtain ⟨kv, hkv, rfl⟩ := List.mem_map.1 h
    simp only [Registry.Register, List.mem_append, List.mem_filter, List.mem_singleton] at hkv
    rcases hkv with ⟨hkv, _⟩ | rfl
    · exact Or.inl (List.mem_map.2 ⟨kv, hkv, rfl⟩)
    · exact Or.inr rfl
  · intro h
    by_cases hn : t.Name = name
    · subst hn
      exact List.mem_map.2 ⟨(t.Name, t), by simp [Registry.Register], rfl⟩
    · rcases h with h | h
      · obtain ⟨kv, hkv, rfl⟩ := List.mem_map.1 h
        refine List.mem_map.2 ⟨kv, ?_, rfl⟩
        simp only [Registry.Register, List.mem_append, List.mem_filter]
        exact Or.inl ⟨hkv, by simpa using fun hk => hn hk.symm⟩
      · exact absurd h hn

/-- The names bound after registering tools in turn. -/
theorem names_foldl_register {ω : Type} (ts : List (Tool ω)) :
    ∀ (r : Registry ω) (name : String),
      name ∈ (ts.foldl Registry.Register r).tools.map (fun kv => kv.1) ↔
        name ∈ r.tools.map (fun kv => kv.1) ∨ ∃ t ∈ ts, t.Name = name := by
  induction ts with
  | nil => intro r name; simp
  | cons t rest ih =>
    intro r name
    rw [List.foldl_cons, ih, names_register]
    simp only [List.mem_cons, exists_eq_or_imp]
    tauto

/-- Where no name is bound twice, the lookup of the name of a binding finds it. -/
theorem find_of_nodup_keys {ω : Type} (l : List (String × Tool ω))
    (hnd : (l.map (fun kv => kv.1)).Nodup) (kv : String × Tool ω) (hkv : kv ∈ l) :
    l.find? (fun b => b.1 = kv.1) = some kv := by
  induction l with
  | nil => simp at hkv
  | cons b rest ih =>
    simp only [List.map_cons, List.nodup_cons] at hnd
    rcases List.mem_cons.1 hkv with rfl | h
    · simp
    · have hne : ¬ b.1 = kv.1 := by
        intro hb
        exact hnd.1 (hb ▸ List.mem_map.2 ⟨kv, h, rfl⟩)
      simp only [List.find?_cons, hne, decide_False]
      exact ih hnd.2 h

/-- Claim C12: after Register of `t`, Get of the name of `t` returns `t` and
Get of every other name returns what it returned before; registering `t2`
under the name of `t` after `t` leaves the registry that registering `t2`
alone leaves (the last writer wins); and in the registry built from the empty
one by registering the tools `ts` in turn, List holds no two tools of the same
name, the names in List are exactly the names of the tools of `ts`, Get of the
name of a listed tool returns that tool, and Get of a name that no tool of
`ts` bears reports absence. -/
theorem registry_last_writer_wins {ω : Type} (r : Registry ω) (t t2 : Tool ω)
    (ts : List (Tool ω)) :
    (r.Register t).Get t.Name = some t ∧
    (∀ name, name ≠ t.Name → (r.Register t).Get name = r.Get name) ∧
    (t2.Name = t.Name → (r.Register t).Register t2 = r.Register t2) ∧
    ((ts.foldl Registry.Register (New ω)).List.map (fun tool => tool.Name)).Nodup ∧
    (∀ name, name ∈ (ts.foldl Registry.Register (New ω)).List.map (fun tool => tool.Name) ↔
      ∃ tool ∈ ts, tool.Name = name) ∧
    (∀ tool ∈ (ts.foldl Registry.Register (New ω)).List,
      (ts.foldl Registry.Register (New ω)).Get tool.Name = some tool) ∧
    (∀ name, (∀ tool ∈ ts, tool.Name ≠ name) →
      (ts.foldl Registry.Register (New ω)).Get name = none) := by
  obtain ⟨hinv, hnd⟩ := registered_invariant ts
  have hnames : (ts.foldl Registry.Register (New ω)).List.map (fun tool => tool.Name) =
      (ts.foldl Registry.Register (New ω)).tools.map (fun kv => kv.1) := by
    simp only [Registry.List, List.map_map]
    apply List.map_congr_left
    intro kv hkv
    exact (hinv kv hkv).symm
  refine ⟨get_register_self r t, fun name h => get_register_other r t name h, ?_, ?_, ?_, ?_, ?_⟩
  · intro h
    simp only [Registry.Register, h, List.filter_append, List.filter_filter]
    simp
  · rw [hnames]; exact hnd
  · intro name
    rw [hnames, names_foldl_register]
    simp [New]
  · intro tool htool
    obtain ⟨kv, hkv, rfl⟩ := List.mem_map.1 htool
    unfold Registry.Get
    rw [← hinv kv hkv, find_of_nodup_keys _ hnd kv hkv]
    rfl
  · intro name h
    unfold Registry.Get
    rw [Option.map_eq_none', List.find?_eq_none]
    intro kv hkv hk
    have hmem : name ∈ (ts.foldl Registry.Register (New ω)).tools.map (fun kv => kv.1) :=
      List.mem_map.2 ⟨kv, hkv, by simpa using hk⟩
    rw [names_foldl_register] at hmem
    rcases hmem with h0 | ⟨tool, ht, hn⟩
    · simp [New] at h0
    · exact h tool ht hn

/-- The registry of `echo` after `echo2` is registered, and the registry built
from `echo`, `other` and `echo2` in turn. -/
theorem registry_last_writer_wins_witness :
    "other" ≠ sample.echo2.Name ∧
    (sample.registry.Register sample.echo2).Get "other" = sample.registry.Get "other" ∧
    ((sample.registry.Register sample.echo2).Get "echo").map (fun tool => tool.Description) =
      some "echo again" ∧
    sample.echo2.Name = sample.echo.Name ∧
    ((New Nat).Register sample.echo).Register sample.echo2 = (New Nat).Register sample.echo2 ∧
    ([sample.echo, sample.other, sample.echo2].foldl Registry.Register (New Nat)).List.map
      (fun tool => tool.Name) = ["other", "echo"] ∧
    (∀ tool ∈ [sample.echo, sample.other, sample.echo2], tool.Name ≠ "nope") ∧
    ([sample.echo, sample.other, sample.echo2].foldl Registry.Register (New Nat)).Get "nope" =
      none :=
  ⟨by decide,
   (registry_last_writer_wins sample.registry sample.echo2 sample.echo2 []).2.1 "other"
     (by decide),
   congrArg (Option.map (fun tool => tool.Description))
     (registry_last_writer_wins sample.registry sample.echo2 sample.echo2 []).1,
   rfl,
   (registry_last_writer_wins (New Nat) sample.echo sample.echo2 []).2.2.1 rfl,
   by decide,
   by simp [sample.echo, sample.other, sample.echo2],
   (registry_last_writer_wins (New Nat) sample.echo sample.echo2
     [sample.echo, sample.other, sample.echo2]).2.2.2.2.2.2 "nope"
     (by simp [sample.echo, sample.other, sample.echo2])⟩

end tools

/-! ## The claim on the accessors of a response: C13 -/

namespace zhipu

/-- Claim C13: a response without choices yields false, the empty string and
no tool call; on a response whose first choice is `first`, HasToolCalls is
true exactly when the tool calls of the message of `first` are not empty,
GetContent is the content of that message and GetToolCalls its tool calls in
order; HasToolCalls is true exactly when GetToolCalls is not empty; and two
responses with the same first choice, or both without choices, agree on all
three, whatever their other choices and fields. -/
theorem response_first_choice (r : ChatResponse) :
    (r.Choices = [] → r.HasToolCalls = false ∧ r.GetContent = "" ∧ r.GetToolCalls = []) ∧
    (∀ first rest, r.Choices = first :: rest →
      (r.HasToolCalls = true ↔ first.Message.ToolCalls ≠ []) ∧
      r.GetContent = first.Message.Content ∧
      r.GetToolCalls = first.Message.ToolCalls) ∧
    (r.HasToolCalls = true ↔ r.GetToolCalls ≠ []) ∧
    (∀ r1 : ChatResponse, r1.Choices.head? = r.Choices.head? →
      r1.HasToolCalls = r.HasToolCalls ∧ r1.GetContent = r.GetContent ∧
      r1.GetToolCalls = r.GetToolCalls) := by
  refine ⟨?_, ?_, ?_, ?_⟩
  · intro h
    simp [ChatResponse.HasToolCalls, ChatResponse.GetContent, ChatResponse.GetToolCalls, h]
  · intro first rest h
    simp [ChatResponse.HasToolCalls, ChatResponse.GetContent, ChatResponse.GetToolCalls, h,
      List.length_pos]
  · unfold ChatResponse.HasToolCalls ChatResponse.GetToolCalls
    cases r.Choices with
    | nil => simp
    | cons c rest => simp [List.length_pos]
  · intro r1 h
    unfold ChatResponse.HasToolCalls ChatResponse.GetContent ChatResponse.GetToolCalls
    cases h1 : r1.Choices with
    | nil =>
      cases h2 : r.Choices with
      | nil => simp
      | cons c rest => simp [h1, h2] at h
    | cons c1 rest1 =>
      cases h2 : r.Choices with
      | nil => simp [h1, h2] at h
      | cons c rest =>
        simp only [h1, h2, List.head?_cons, Option.some.injEq] at h
        subst h
        simp

/-- The three accessors on `asking`, on `asking` followed by the choice of
`final`, and on a response without choices. -/
theorem response_first_choice_witness :
    sample.asking.HasToolCalls = true ∧
    sample.asking.GetContent = "" ∧
    sample.asking.GetToolCalls = [sample.callEcho, sample.callNope] ∧
    ({ sample.final with Choices := sample.asking.Choices ++ sample.final.Choices } :
      ChatResponse).GetToolCalls = sample.asking.GetToolCalls ∧
    ({ sample.final with Choices := [] } : ChatResponse).HasToolCalls = false :=
  ⟨((response_first_choice sample.asking).2.1 _ _ rfl).1.2 (by decide),
   ((response_first_choice sample.asking).2.1 _ _ rfl).2.1,
   ((response_first_choice sample.asking).2.1 _ _ rfl).2.2,
   ((response_first_choice sample.asking).2.2.2
     { sample.final with Choices := sample.asking.Choices ++ sample.final.Choices } rfl).2.2,
   ((response_first_choice { sample.final with Choices := [] }).1 rfl).1⟩

end zhipu

/-! ## The claims on the context files: C14, C15 -/

namespace agent

/-- The loop of BuildContextPrompt appends the four lines of each file. -/
theorem foldl_sections (files : List ContextFile) (init : List String) :
    files.foldl (fun sections file => sections ++ ["### " ++ file.Path, "", file.Content, ""])
        init =
      init ++ files.flatMap (fun file => ["### " ++ file.Path, "", file.Content, ""]) := by
  induction files generalizing init with
  | nil => simp
  | cons f rest ih => simp [List.foldl_cons, ih, List.flatMap_cons]

/-- What `strings.Join` builds starts with its first element. -/
theorem intercalate_go_data (sep : String) (l : List String) (acc : String) :
    ∃ tail : List Char, (String.intercalate.go acc sep l).data = acc.data ++ tail := by
  induction l generalizing acc with
  | nil => exact ⟨[], by simp [String.intercalate.go]⟩
  | cons a rest ih =>
    obtain ⟨tail, h⟩ := ih (acc ++ sep ++ a)
    exact ⟨sep.data ++ a.data ++ tail, by simp [String.intercalate.go, h, String.data_append]⟩

/-- Claim C14: BuildContextPrompt of no file is the empty string; of a list of
files that is not empty it is the four lines of the heading followed, for each
file in the order of the list, by the lines `### ` and the path, the empty
line, the content and the empty line, all these lines joined by one newline;
so the result is empty exactly when the list is. -/
theorem buildContextPrompt_lines (files : List ContextFile) :
    BuildContextPrompt [] = "" ∧
    (files ≠ [] → BuildContextPrompt files =
      String.intercalate "\n"
        (["## Workspace 上下文文件", "", "以下文件已加载，提供了我的身份和记忆：", ""] ++
          files.flatMap (fun file => ["### " ++ file.Path, "", file.Content, ""]))) ∧
    (BuildContextPrompt files = "" ↔ files = []) := by
  have hne : files ≠ [] → BuildContextPrompt files =
      String.intercalate "\n"
        (["## Workspace 上下文文件", "", "以下文件已加载，提供了我的身份和记忆：", ""] ++
          files.flatMap (fun file => ["### " ++ file.Path, "", file.Content, ""])) := by
    intro h
    have hlen : files.length ≠ 0 := by simpa using h
    simp only [BuildContextPrompt, hlen, if_false, foldl_sections]
  refine ⟨rfl, hne, ?_⟩
  constructor
  · intro h
    by_contra hfiles
    rw [hne hfiles] at h
    simp only [List.cons_append, String.intercalate] at h
    obtain ⟨tail, ht⟩ := intercalate_go_data "\n" (("" :: "以下文件已加载，提供了我的身份和记忆：" :: "" :: ([] ++
          files.flatMap (fun file => ["### " ++ file.Path, "", file.Content, ""])))) "## Workspace 上下文文件"
    rw [h] at ht
    simp at ht
  · rintro rfl; rfl

/-- The prompt built from two files. -/
theorem buildContextPrompt_lines_witness :
    ([{ Path := "IDENTITY.md", Content := "I am goclaw" },
      { Path := "memory/MEMORY.md", Content := "likes tea" }] : List ContextFile) ≠ [] ∧
    BuildContextPrompt [{ Path := "IDENTITY.md", Content := "I am goclaw" },
                        { Path := "memory/MEMORY.md", Content := "likes tea" }] =
      "## Workspace 上下文文件\n\n以下文件已加载，提供了我的身份和记忆：\n\n" ++
      "### IDENTITY.md\n\nI am goclaw\n\n### memory/MEMORY.md\n\nlikes tea\n" :=
  ⟨by simp,
   ((buildContextPrompt_lines [{ Path := "IDENTITY.md", Content := "I am goclaw" },
      { Path := "memory/MEMORY.md", Content := "likes tea" }]).2.1 (by simp)).trans
     (by decide)⟩

/-- Claim C15: LoadContextFiles returns, of the names `IDENTITY.md`, `SOUL.md`
and `memory/MEMORY.md` in this order, those whose file in the workspace
directory can be read, each as the relative name with the content read; a file
that cannot be read adds nothing and is no error, and the result has at most
three entries. -/
theorem loadContextFiles_subsequence {ω : Type} (cl : ContextLoader) (os : OS ω) (w : ω) :
    cl.LoadContextFiles os w =
      ["IDENTITY.md", "SOUL.md", "memory/MEMORY.md"].filterMap (fun filename =>
        match os.ReadFile (os.Join cl.workspaceDir filename) w with
        | (content, none) => some { Path := filename, Content := content }
        | (_, some _) => none) ∧
    (cl.LoadContextFiles os w).length ≤ 3 := by
  have h : cl.LoadContextFiles os w =
      ["IDENTITY.md", "SOUL.md", "memory/MEMORY.md"].filterMap (fun filename =>
        match os.ReadFile (os.Join cl.workspaceDir filename) w with
        | (content, none) => some { Path := filename, Content := content }
        | (_, some _) => none) := by
    unfold ContextLoader.LoadContextFiles
    simp only [ContextLoader.loadEach, List.filterMap_cons, List.filterMap_nil]
    rcases h1 : os.ReadFile (os.Join cl.workspaceDir "IDENTITY.md") w with ⟨c1, _ | e1⟩ <;>
    rcases h2 : os.ReadFile (os.Join cl.workspaceDir "SOUL.md") w with ⟨c2, _ | e2⟩ <;>
    rcases h3 : os.ReadFile (os.Join cl.workspaceDir "memory/MEMORY.md") w with ⟨c3, _ | e3⟩ <;>
    simp
  refine ⟨h, ?_⟩
  rw [h]
  exact le_trans (List.length_filterMap_le _ _) (by simp)

/-- The files loaded from a workspace without `SOUL.md`. -/
theorem loadContextFiles_subsequence_witness :
    ({ workspaceDir := "ws" } : ContextLoader).LoadContextFiles sample.os 0 =
      [{ Path := "IDENTITY.md", Content := "I am goclaw" },
       { Path := "memory/MEMORY.md", Content := "likes tea" }] :=
  (loadContextFiles_subsequence { workspaceDir := "ws" } sample.os 0).1.trans (by decide)

end agent

/-! ## The claims on the request and the reply of the client: C16, C17 -/

namespace zhipu


/-- The request Chat serialises, field by field. -/
theorem fill_eq (c : Client) (req : ChatRequest) :
    c.fill req =
      { Model := c.cfg.Zhipu.Model, Messages := req.Messages, Tools := req.Tools,
        Stream := req.Stream,
        Temperature := if req.Temperature = 0 then c.cfg.Zhipu.Temperature else req.Temperature,
        MaxTokens := if req.MaxTokens = 0 then c.cfg.Zhipu.MaxTokens else req.MaxTokens } := by
  unfold Client.fill
  by_cases h1 : req.Temperature = 0 <;> by_cases h2 : req.MaxTokens = 0 <;> simp [h1, h2]

/-- Chat serialises the filled request and goes on with `post`. -/
theorem chat_eq_post (c : Client) (n : Nat) (req : ChatRequest) :
    c.Chat n req =
      match c.client.Marshal (c.fill req) with
      | (_, some err) => .error ("failed to marshal request: " ++ err)
      | (body, none) => c.post n body := rfl

/-- Claim C16, amended: the request Chat serialises names the configured model
whatever model the caller named; its temperature is the one of the caller when
that is not zero and the configured one otherwise, likewise its max_tokens;
messages, tools and stream are those of the caller. Chat goes on with the
serialised text, or fails with the error of the serialisation. -/
theorem chat_fills_request (c : Client) (n : Nat) (req : ChatRequest) :
    c.Chat n req =
      match c.client.Marshal
        { Model := c.cfg.Zhipu.Model, Messages := req.Messages, Tools := req.Tools,
          Stream := req.Stream,
          Temperature :=
            if req.Temperature = 0 then c.cfg.Zhipu.Temperature else req.Temperature,
          MaxTokens := if req.MaxTokens = 0 then c.cfg.Zhipu.MaxTokens else req.MaxTokens } with
      | (_, some err) => .error ("failed to marshal request: " ++ err)
      | (body, none) => c.post n body := by
  rw [chat_eq_post, fill_eq]

/-- Against claim C16 as stated: for a caller naming model `glm-4-plus` under
a configuration naming `glm-4-flash`, the request serialised names
`glm-4-flash`, as the endpoint that sends back what it is sent shows. -/
theorem chat_overwrites_model :
    ((New sample.cfg sample.mirror).fill { Model := "glm-4-plus", Messages := [] }).Model =
      "glm-4-flash" ∧
    (New sample.cfg sample.mirror).Chat 0 { Model := "glm-4-plus", Messages := [] } =
      .error "API error (status 400): glm-4-flash" :=
  ⟨rfl, rfl⟩

/-- Two texts that start with different characters differ. -/
theorem append_ne_of_head (a b : Char) (s1 s2 t1 t2 : String) (h : a ≠ b)
    (h1 : s1.data.head? = some a) (h2 : s2.data.head? = some b) : s1 ++ t1 ≠ s2 ++ t2 := by
  intro heq
  have hd : (s1 ++ t1).data.head? = (s2 ++ t2).data.head? := by rw [heq]
  rw [String.data_append, String.data_append] at hd
  cases hs1 : s1.data with
  | nil => simp [hs1] at h1
  | cons x xs =>
    cases hs2 : s2.data with
    | nil => simp [hs2] at h2
    | cons y ys =>
      simp only [hs1, hs2, List.cons_append, List.head?_cons, Option.some.injEq] at hd h1 h2
      exact h (h1 ▸ h2 ▸ hd)

/-- Claim C17, amended: when the request is sent and the body of the reply is
read, Chat returns the API error carrying the status and the body exactly when
the status is not 200, whether the body is JSON or not; when the status is 200
the body is decoded, which gives the decode error or the parsed response. -/
theorem chat_status (c : Client) (n : Nat) (req : ChatRequest) (sent : String)
    (resp : HTTPResponse) (body : String)
    (hmarshal : c.client.Marshal (c.fill req) = (sent, none))
    (hnew : c.client.NewRequest "POST" (c.baseURL ++ "/chat/completions") sent = none)
    (hdo : c.client.Do n
      { Method := "POST", URL := c.baseURL ++ "/chat/completions",
        ContentType := "application/json", Authorization := "Bearer " ++ c.apiKey,
        Body := sent } = (resp, none))
    (hbody : resp.Body = (body, none)) :
    c.Chat n req =
      (if resp.StatusCode ≠ 200 then
        .error ("API error (status " ++ toString resp.StatusCode ++ "): " ++ body)
      else
        match c.client.Unmarshal body with
        | (_, some err) => .error ("failed to unmarshal response: " ++ err)
        | (chatResp, none) => .ok chatResp) ∧
    (c.Chat n req = .error ("API error (status " ++ toString resp.StatusCode ++ "): " ++ body) ↔
      resp.StatusCode ≠ 200) := by
  have h : c.Chat n req =
      (if resp.StatusCode ≠ 200 then
        .error ("API error (status " ++ toString resp.StatusCode ++ "): " ++ body)
      else
        match c.client.Unmarshal body with
        | (_, some err) => .error ("failed to unmarshal response: " ++ err)
        | (chatResp, none) => .ok chatResp) := by
    simp only [Client.Chat, hmarshal, hnew, hdo, hbody]
  refine ⟨h, ?_⟩
  rw [h]
  by_cases hs : resp.StatusCode = 200
  · simp only [hs, ne_eq, not_true_eq_false, if_false, iff_false]
    rcases c.client.Unmarshal body with ⟨r, _ | err⟩
    · simp
    · simp only [Except.error.injEq]
      have := append_ne_of_head 'f' 'A' "failed to unmarshal response: "
        "API error (status " err (toString (200 : Int) ++ "): " ++ body) (by decide) rfl rfl
      simpa [String.append_assoc] using this
  · simp [hs]

/-- Against claim C17 as stated: a reply of status 201, which is in the range
2xx, whose body decodes to `final`, gives the API error. -/
theorem chat_status_created :
    (New sample.cfg (sample.answering 201)).Chat 0 { Messages := [] } =
      .error "API error (status 201): final" ∧
    (sample.answering 201).Unmarshal "final" = (sample.final, none) :=
  ⟨rfl, rfl⟩

/-- The replies of status 200 and of status 404 with the same body. -/
theorem chat_status_witness :
    (New sample.cfg (sample.answering 200)).Chat 0 { Messages := [] } = .ok sample.final ∧
    (New sample.cfg (sample.answering 404)).Chat 0 { Messages := [] } =
      .error "API error (status 404): final" :=
  ⟨((chat_status (New sample.cfg (sample.answering 200)) 0 { Messages := [] } "glm-4-flash"
      { StatusCode := 200, Body := ("final", none) } "final" rfl rfl rfl rfl).1).trans rfl,
   ((chat_status (New sample.cfg (sample.answering 404)) 0 { Messages := [] } "glm-4-flash"
      { StatusCode := 404, Body := ("final", none) } "final" rfl rfl rfl rfl).1).trans rfl⟩

end zhipu

/-! ## The claims on exec_command and on the search of the memory: C18, C19, C20 -/

/-- Truncation rounds toward zero: down for a number that is not negative, up
for a negative one. -/
theorem truncate_eq (x : Rat) : truncate x = if 0 ≤ x then ⌊x⌋ else ⌈x⌉ := by
  unfold truncate
  split
  · rename_i h
    rw [Rat.floor_def, Int.tdiv_eq_ediv (Rat.num_nonneg.2 h) (Int.ofNat_nonneg _)]
  · rename_i h
    have hneg : 0 ≤ -x := by linarith
    have h1 : ⌈x⌉ = -⌊-x⌋ := by rw [← Int.ceil_neg, neg_neg]
    rw [h1, Rat.floor_def, Rat.neg_num, Rat.neg_den,
      ← Int.tdiv_eq_ediv (by simpa using Rat.num_nonneg.2 hneg) (Int.ofNat_nonneg _),
      Int.neg_tdiv, neg_neg]

/-- A number that fits 64 bits is kept. -/
theorem wrapInt64_of_fits (n : Int) (h1 : - 2 ^ 63 ≤ n) (h2 : n < 2 ^ 63) : wrapInt64 n = n := by
  unfold wrapInt64
  rw [Int.emod_eq_of_lt (by omega) (by omega)]
  omega

namespace strings

/-- Every field the loop returns is non-empty and free of white space. -/
theorem fields_tokens : ∀ (cs cur : List Char), (∀ c ∈ cur, unicode.IsSpace c = false) →
    ∀ tok ∈ fields cs cur, tok ≠ [] ∧ ∀ c ∈ tok, unicode.IsSpace c = false := by
  intro cs
  induction cs with
  | nil =>
    intro cur hcur tok htok
    by_cases h : cur = []
    · simp [fields, h] at htok
    · simp only [fields, h, if_false, List.mem_singleton] at htok
      subst htok
      exact ⟨h, hcur⟩
  | cons c cs ih =>
    intro cur hcur tok htok
    by_cases hc : unicode.IsSpace c = true
    · by_cases h : cur = []
      · simp only [fields, hc, h, if_true] at htok
        exact ih [] (by simp) tok htok
      · simp only [fields, hc, h, if_true, if_false, List.mem_cons] at htok
        rcases htok with rfl | htok
        · exact ⟨h, hcur⟩
        · exact ih [] (by simp) tok htok
    · simp only [fields, hc] at htok
      refine ih (cur ++ [c]) ?_ tok htok
      intro x hx
      rcases List.mem_append.1 hx with hx | hx
      · exact hcur x hx
      · simp only [List.mem_singleton] at hx
        subst hx
        simpa using hc

/-- A character before the first separator. -/
theorem weave_cons_head (c : Char) (sep0 : List Char) (rest toks : List (List Char)) :
    weave ((c :: sep0) :: rest) toks = c :: weave (sep0 :: rest) toks := by
  cases toks <;> simp [weave]

/-- The text the loop reads is its fields woven with runs of white space, of
which those between two fields are not empty. -/
theorem fields_weave : ∀ (cs cur : List Char),
    ∃ seps : List (List Char), seps.length = (fields cs cur).length + 1 ∧
      (∀ sep ∈ seps, ∀ c ∈ sep, unicode.IsSpace c = true) ∧
      (∀ sep ∈ seps.tail.dropLast, sep ≠ []) ∧
      cur ++ cs = weave seps (fields cs cur) ∧
      (cur ≠ [] → seps.head? = some []) := by
  intro cs
  induction cs with
  | nil =>
    intro cur
    by_cases h : cur = []
    · exact ⟨[[]], by simp [fields, h], by simp, by simp, by simp [fields, h, weave],
        fun hne => absurd h hne⟩
    · exact ⟨[[], []], by simp [fields, h], by simp, by simp, by simp [fields, h, weave],
        fun _ => rfl⟩
  | cons c cs ih =>
    intro cur
    by_cases hc : unicode.IsSpace c = true
    · obtain ⟨seps, hlen, hwhite, hinner, hweave, _⟩ := ih []
      obtain ⟨sep0, rest, rfl⟩ : ∃ sep0 rest, seps = sep0 :: rest := by
        cases seps with
        | nil => simp at hlen
        | cons a b => exact ⟨a, b, rfl⟩
      have hw0 : ∀ x ∈ c :: sep0, unicode.IsSpace x = true := by
        intro x hx
        rcases List.mem_cons.1 hx with rfl | hx
        · exact hc
        · exact hwhite sep0 (List.mem_cons_self _ _) x hx
      have hcs : cs = weave (sep0 :: rest) (fields cs []) := by simpa using hweave
      have hcons : c :: cs = weave ((c :: sep0) :: rest) (fields cs []) := by
        rw [weave_cons_head, ← hcs]
      by_cases h : cur = []
      · refine ⟨(c :: sep0) :: rest, ?_, ?_, ?_, ?_, fun hne => absurd h hne⟩
        · simpa [fields, hc, h] using hlen
        · intro sep hsep
          rcases List.mem_cons.1 hsep with rfl | hsep
          · exact hw0
          · exact hwhite sep (List.mem_cons_of_mem _ hsep)
        · simpa using hinner
        · simp only [fields, hc, h, if_true, List.nil_append]
          exact hcons
      · refine ⟨[] :: (c :: sep0) :: rest, ?_, ?_, ?_, ?_, fun _ => rfl⟩
        · simpa [fields, hc, h] using hlen
        · intro sep hsep
          rcases List.mem_cons.1 hsep with rfl | hsep
          · simp
          · rcases List.mem_cons.1 hsep with rfl | hsep
            · exact hw0
            · exact hwhite sep (List.mem_cons_of_mem _ hsep)
        · intro sep hsep
          simp only [List.tail_cons] at hsep hinner
          cases rest with
          | nil => simp at hsep
          | cons r rs =>
            simp only [List.dropLast_cons₂, List.mem_cons] at hsep
            rcases hsep with rfl | hsep
            · simp
            · exact hinner sep hsep
        · simp only [fields, hc, h, if_true, if_false, weave, List.nil_append]
          rw [← hcons]
    · obtain ⟨seps, hlen, hwhite, hinner, hweave, hhead⟩ := ih (cur ++ [c])
      refine ⟨seps, ?_, hwhite, hinner, ?_, fun _ => hhead (by simp)⟩
      · have hf : fields (c :: cs) cur = fields cs (cur ++ [c]) := by simp [fields, hc]
        rw [hf]; exact hlen
      · have hf : fields (c :: cs) cur = fields cs (cur ++ [c]) := by simp [fields, hc]
        rw [hf, ← hweave]
        simp

/-- Fields returns nothing exactly on a text of white space only. -/
theorem fields_eq_nil (s : String) :
    Fields s = [] ↔ ∀ c ∈ s.data, unicode.IsSpace c = true := by
  constructor
  · intro h
    obtain ⟨seps, hlen, hwhite, _, hweave, _⟩ := fields_weave s.data []
    have hf : fields s.data [] = [] := by simpa [Fields] using h
    rw [hf] at hlen hweave
    obtain ⟨sep0, rfl⟩ : ∃ sep0, seps = [sep0] := by
      cases seps with
      | nil => simp at hlen
      | cons a b =>
        cases b with
        | nil => exact ⟨a, rfl⟩
        | cons _ _ => simp at hlen
    simp only [List.nil_append, weave] at hweave
    rw [hweave]
    exact hwhite sep0 (by simp)
  · intro h
    have : ∀ cs : List Char, (∀ c ∈ cs, unicode.IsSpace c = true) → fields cs [] = [] := by
      intro cs
      induction cs with
      | nil => intro _; rfl
      | cons c cs ih =>
        intro hall
        have hc : unicode.IsSpace c = true := hall c (List.mem_cons_self _ _)
        simp only [fields, hc, if_true]
        exact ih (fun x hx => hall x (List.mem_cons_of_mem _ hx))
    simp [Fields, this s.data h]

/-- Contains holds exactly when `substr` is a run of consecutive characters
of `s`. -/
theorem contains_iff (s substr : String) :
    Contains s substr = true ↔ substr.data <:+: s.data := by
  unfold Contains
  rw [List.any_eq_true, List.infix_iff_prefix_suffix]
  constructor
  · rintro ⟨t, ht, hp⟩
    exact ⟨t, List.isPrefixOf_iff_prefix.1 hp, (List.mem_tails _ _).1 ht⟩
  · rintro ⟨t, hp, hs⟩
    exact ⟨t, (List.mem_tails _ _).2 hs, List.isPrefixOf_iff_prefix.2 hp⟩

end strings

namespace tools

/-- With a `float64` under `timeout`, the timeout is its conversion to `int`. -/
theorem timeout_float64 {ω : Type} (sys : Exec ω) (args : Object) (x : Rat)
    (h : args.index "timeout" = Any.float64 x) :
    ExecCommand.timeout sys args = sys.int x := by
  simp [ExecCommand.timeout, h, Any.assertFloat64]

/-- Without a `float64` under `timeout`, the timeout is 30. -/
theorem timeout_default {ω : Type} (sys : Exec ω) (args : Object)
    (h : ∀ x, args.index "timeout" ≠ Any.float64 x) :
    ExecCommand.timeout sys args = 30 := by
  unfold ExecCommand.timeout
  cases hv : args.index "timeout" with
  | float64 x => exact absurd hv (h x)
  | _ => simp [Any.assertFloat64]

/-- Claim C18, amended: when `timeout` is bound to a `float64`, which is what
every number of a decoded JSON text is, and its integer part fits an `int`,
the variable `timeout` is the number truncated toward zero (rounded down when
it is not negative, up when it is negative); when `timeout` is bound to no
`float64`, because it is absent or bound to a value of another type such as
an `int` or a string, the variable is 30. The process is spawned under the
time limit `timeout * time.Second`, a 64-bit number of nanoseconds: it is
`timeout` seconds when `timeout` is at most 9223372036 in absolute value, and
the product wrapped to 64 bits otherwise. -/
theorem exec_timeout {ω : Type} (sys : Exec ω) (args : Object) :
    (∀ x, args.index "timeout" = Any.float64 x →
      - 2 ^ 63 ≤ truncate x → truncate x < 2 ^ 63 →
      ExecCommand.timeout sys args = truncate x ∧
      truncate x = (if 0 ≤ x then ⌊x⌋ else ⌈x⌉)) ∧
    ((∀ x, args.index "timeout" ≠ Any.float64 x) → ExecCommand.timeout sys args = 30) ∧
    (∀ (w : ω) (command name : String) (argv : List String),
      args.index "command" = Any.string command → strings.Fields command = name :: argv →
      ExecCommand.Execute sys args w =
        match sys.CombinedOutput (wrapInt64 (ExecCommand.timeout sys args * 1000000000))
          name argv w with
        | ((output, some err), w1) =>
          (("", some ("command failed: " ++ err ++ "\nOutput: " ++ output)), w1)
        | ((output, none), w1) => ((output, none), w1)) ∧
    (- 9223372036 ≤ ExecCommand.timeout sys args → ExecCommand.timeout sys args ≤ 9223372036 →
      wrapInt64 (ExecCommand.timeout sys args * 1000000000) =
        ExecCommand.timeout sys args * 1000000000) := by
  refine ⟨?_, timeout_default sys args, ?_, ?_⟩
  · intro x hx h1 h2
    refine ⟨?_, truncate_eq x⟩
    rw [timeout_float64 sys args x hx]
    unfold Exec.int
    rw [if_pos ⟨h1, h2⟩]
  · intro w command name argv hcommand hparts
    simp only [ExecCommand.Execute, hcommand, Any.assertString, hparts]
  · intro h1 h2
    exact wrapInt64_of_fits _ (by norm_num; omega) (by norm_num; omega)

/-- Against claim C18 as stated: with `timeout` bound to the `int` 5, or to the
string `5`, the timeout is 30 seconds, and the process is spawned under a
limit of 30 seconds. -/
theorem exec_timeout_int_ignored :
    ExecCommand.timeout sample.exec
      [("command", Any.string "sleep 1"), ("timeout", Any.int 5)] = 30 ∧
    ExecCommand.timeout sample.exec
      [("command", Any.string "sleep 1"), ("timeout", Any.string "5")] = 30 ∧
    ExecCommand.Execute sample.exec
      [("command", Any.string "sleep 1"), ("timeout", Any.int 5)] [] =
        (("ok", none), [(30000000000, "sleep", ["1"])]) :=
  ⟨rfl, rfl, rfl⟩

/-- The timeouts for the decoded texts with `timeout` 2.9, 5 and
2.9999999999999999999 (the `float64` nearest to which is 3), for the number
-2.9 and for no `timeout`; the process spawned for 2.9, under a limit of 2
seconds, and the process spawned for 18446744074, under a limit of 290448384
nanoseconds, which is what is left of that many seconds in 64 bits. -/
theorem exec_timeout_witness :
    ExecCommand.timeout sample.exec (json.Unmarshal sample.malformed
      "\x7b\"command\": \"sleep 1\", \"timeout\": 2.9\x7d").1 = 2 ∧
    ExecCommand.timeout sample.exec (json.Unmarshal sample.malformed
      "\x7b\"command\": \"sleep 1\", \"timeout\": 5\x7d").1 = 5 ∧
    ExecCommand.timeout sample.exec (json.Unmarshal sample.malformed
      "\x7b\"command\": \"sleep 1\", \"timeout\": 2.9999999999999999999\x7d").1 = 3 ∧
    ExecCommand.timeout sample.exec
      [("command", Any.string "sleep 1"), ("timeout", Any.float64 (mkRat (-29) 10))] = -2 ∧
    ExecCommand.timeout sample.exec [("command", Any.string "sleep 1")] = 30 ∧
    ExecCommand.Execute sample.exec (json.Unmarshal sample.malformed
      "\x7b\"command\": \"sleep 1\", \"timeout\": 2.9\x7d").1 [] =
        (("ok", none), [(2000000000, "sleep", ["1"])]) ∧
    ExecCommand.Execute sample.exec (json.Unmarshal sample.malformed
      "\x7b\"command\": \"sleep 1\", \"timeout\": 18446744074\x7d").1 [] =
        (("ok", none), [(290448384, "sleep", ["1"])]) := by
  have h29 := ((exec_timeout sample.exec (json.Unmarshal sample.malformed
      "\x7b\"command\": \"sleep 1\", \"timeout\": 2.9\x7d").1).1
      (mkRat 6530219459687219 2251799813685248) rfl (by decide) (by decide)).1
  have h5 := ((exec_timeout sample.exec (json.Unmarshal sample.malformed
      "\x7b\"command\": \"sleep 1\", \"timeout\": 5\x7d").1).1
      (mkRat 5 1) rfl (by decide) (by decide)).1
  have h3 := ((exec_timeout sample.exec (json.Unmarshal sample.malformed
      "\x7b\"command\": \"sleep 1\", \"timeout\": 2.9999999999999999999\x7d").1).1
      (mkRat 3 1) rfl (by decide) (by decide)).1
  have hbig := ((exec_timeout sample.exec (json.Unmarshal sample.malformed
      "\x7b\"command\": \"sleep 1\", \"timeout\": 18446744074\x7d").1).1
      (mkRat 18446744074 1) rfl (by decide) (by decide)).1
  refine ⟨h29.trans (by decide), h5.trans (by decide), h3.trans (by decide), ?_, ?_, ?_, ?_⟩
  · exact ((exec_timeout sample.exec
      [("command", Any.string "sleep 1"), ("timeout", Any.float64 (mkRat (-29) 10))]).1
      (mkRat (-29) 10) rfl (by decide) (by decide)).1.trans (by decide)
  · exact (exec_timeout sample.exec [("command", Any.string "sleep 1")]).2.1
      (fun x h => by cases h)
  · refine ((exec_timeout sample.exec (json.Unmarshal sample.malformed
      "\x7b\"command\": \"sleep 1\", \"timeout\": 2.9\x7d").1).2.2.1
      [] "sleep 1" "sleep" ["1"] rfl rfl).trans ?_
    rw [h29]
    rfl
  · refine ((exec_timeout sample.exec (json.Unmarshal sample.malformed
      "\x7b\"command\": \"sleep 1\", \"timeout\": 18446744074\x7d").1).2.2.1
      [] "sleep 1" "sleep" ["1"] rfl rfl).trans ?_
    rw [hbig]
    rfl

/-- Claim C19: for a `command` that is a string, no field Fields returns is
empty or holds a white space character, the command is its fields in order
with runs of white space around and between them, those between two fields
not empty (the fields are the maximal runs of other characters, quotes and
pipes included); the process spawned is the first field with the other fields
as its arguments; a command of white space only, the empty one included,
fails with `empty command`, and a `command` that is absent or not a string
fails with `command argument is required`, both leaving the machine as it
was, so that nothing is spawned. -/
theorem exec_command_fields {ω : Type} (sys : Exec ω) (args : Object) (w : ω) :
    (∀ command, args.index "command" = Any.string command →
      (∀ tok ∈ strings.Fields command,
        tok ≠ "" ∧ ∀ c ∈ tok.data, unicode.IsSpace c = false) ∧
      (∃ seps : List (List Char),
        seps.length = (strings.Fields command).length + 1 ∧
        (∀ sep ∈ seps, ∀ c ∈ sep, unicode.IsSpace c = true) ∧
        (∀ sep ∈ seps.tail.dropLast, sep ≠ []) ∧
        command.data = strings.weave seps ((strings.Fields command).map (fun tok => tok.data))) ∧
      (∀ name argv, strings.Fields command = name :: argv →
        ExecCommand.Execute sys args w =
          match sys.CombinedOutput (wrapInt64 (ExecCommand.timeout sys args * 1000000000))
            name argv w with
          | ((output, some err), w1) =>
            (("", some ("command failed: " ++ err ++ "\nOutput: " ++ output)), w1)
          | ((output, none), w1) => ((output, none), w1)) ∧
      ((∀ c ∈ command.data, unicode.IsSpace c = true) →
        ExecCommand.Execute sys args w = (("", some "empty command"), w))) ∧
    ((∀ command, args.index "command" ≠ Any.string command) →
      ExecCommand.Execute sys args w = (("", some "command argument is required"), w)) := by
  constructor
  · intro command hcommand
    refine ⟨?_, ?_, ?_, ?_⟩
    · intro tok htok
      obtain ⟨l, hl, rfl⟩ := List.mem_map.1 htok
      obtain ⟨h1, h2⟩ := strings.fields_tokens command.data [] (by simp) l hl
      refine ⟨?_, h2⟩
      intro h
      apply h1
      simpa using congrArg String.data h
    · obtain ⟨seps, hlen, hwhite, hinner, hweave, _⟩ := strings.fields_weave command.data []
      refine ⟨seps, by simpa [strings.Fields] using hlen, hwhite, hinner, ?_⟩
      have hmap : (strings.Fields command).map (fun tok => tok.data) =
          strings.fields command.data [] := by
        simp [strings.Fields, List.map_map, Function.comp_def]
      rw [hmap, ← hweave]
      simp
    · intro name argv hparts
      simp only [ExecCommand.Execute, hcommand, Any.assertString, hparts]
    · intro hall
      have hparts : strings.Fields command = [] := (strings.fields_eq_nil command).2 hall
      simp only [ExecCommand.Execute, hcommand, Any.assertString, hparts]
  · intro h
    unfold ExecCommand.Execute
    cases hv : args.index "command" with
    | string s => exact absurd hv (h s)
    | _ => simp [Any.assertString]

/-- The process spawned for a command with quotes and a pipe, and the failures
for a command of white space and for no command. -/
theorem exec_command_fields_witness :
    strings.Fields "  ls   -l\t'a b' | wc \n" = ["ls", "-l", "'a", "b'", "|", "wc"] ∧
    ExecCommand.Execute sample.exec [("command", Any.string "  ls   -l\t'a b' | wc \n")] [] =
      (("ok", none), [(30000000000, "ls", ["-l", "'a", "b'", "|", "wc"])]) ∧
    ExecCommand.Execute sample.execFailing [("command", Any.string "false")] [] =
      (("", some "command failed: exit status 1\nOutput: boom"), [(30000000000, "false", [])]) ∧
    (∀ c ∈ " \t ".data, unicode.IsSpace c = true) ∧
    ExecCommand.Execute sample.exec [("command", Any.string " \t ")] [] =
      (("", some "empty command"), []) ∧
    ExecCommand.Execute sample.exec [("command", Any.int 3)] [] =
      (("", some "command argument is required"), []) :=
  ⟨by decide,
   (((exec_command_fields sample.exec
      [("command", Any.string "  ls   -l\t'a b' | wc \n")] []).1 _ rfl).2.2.1
      "ls" ["-l", "'a", "b'", "|", "wc"] (by decide)).trans (by decide),
   (((exec_command_fields sample.execFailing [("command", Any.string "false")] []).1 _
      rfl).2.2.1 "false" [] (by decide)).trans (by decide),
   by decide,
   ((exec_command_fields sample.exec [("command", Any.string " \t ")] []).1 _ rfl).2.2.2
     (by decide),
   (exec_command_fields sample.exec [("command", Any.int 3)] []).2 (fun command h => by cases h)⟩

/-- What containsIgnoreCase computes: the empty query matches, a query longer
in bytes than the text does not, and otherwise the lower-cased texts decide. -/
theorem containsIgnoreCase_iff (lower : Char → Char) (text substr : String) :
    containsIgnoreCase lower text substr = true ↔
      substr.utf8ByteSize = 0 ∨
      (substr.utf8ByteSize ≤ text.utf8ByteSize ∧
        (strings.ToLower lower substr).data <:+: (strings.ToLower lower text).data) := by
  unfold containsIgnoreCase
  by_cases h0 : substr.utf8ByteSize = 0
  · simp [h0]
  · by_cases hlt : text.utf8ByteSize < substr.utf8ByteSize
    · simp [h0, hlt]
    · simp only [h0, hlt, if_false, false_or]
      rw [strings.contains_iff]
      constructor
      · intro h; exact ⟨by omega, h⟩
      · intro h; exact h.2

/-- Lower-casing that keeps the number of bytes of every character keeps the
number of bytes of a text. -/
theorem utf8ByteSize_toLower (lower : Char → Char)
    (hsize : ∀ c, (lower c).utf8Size = c.utf8Size) (s : String) :
    (strings.ToLower lower s).utf8ByteSize = s.utf8ByteSize := by
  have h : ∀ l : List Char, String.utf8Len (l.map lower) = String.utf8Len l := by
    intro l
    induction l with
    | nil => rfl
    | cons c cs ih => simp [String.utf8Len_cons, ih, hsize]
  show String.utf8ByteSize ⟨s.data.map lower⟩ = String.utf8ByteSize ⟨s.data⟩
  simp only [String.utf8ByteSize_mk, h]

/-- When lower-casing keeps the number of bytes of every character, as it does
on ASCII, the guard on the lengths changes nothing: containsIgnoreCase is the
test `strings.Contains` on the lower-cased texts. -/
theorem containsIgnoreCase_of_size (lower : Char → Char)
    (hsize : ∀ c, (lower c).utf8Size = c.utf8Size) (text substr : String) :
    containsIgnoreCase lower text substr =
      strings.Contains (strings.ToLower lower text) (strings.ToLower lower substr) := by
  rw [Bool.eq_iff_iff, containsIgnoreCase_iff, strings.contains_iff]
  constructor
  · rintro (h | h)
    · have hnil : (strings.ToLower lower substr).data = [] := by
        have h1 := utf8ByteSize_toLower lower hsize substr
        rw [h] at h1
        have h2 : String.utf8Len (strings.ToLower lower substr).data = 0 := h1
        cases hd : (strings.ToLower lower substr).data with
        | nil => rfl
        | cons c cs =>
          rw [hd, String.utf8Len_cons] at h2
          have := Char.utf8Size_pos c
          omega
      rw [hnil]
      exact List.nil_infix
    · exact h.2
  · intro h
    right
    refine ⟨?_, h⟩
    obtain ⟨a, b, hab⟩ := h
    have h1 := utf8ByteSize_toLower lower hsize substr
    have h2 := utf8ByteSize_toLower lower hsize text
    have h3 : (strings.ToLower lower text).utf8ByteSize =
        String.utf8Len (a ++ (strings.ToLower lower substr).data ++ b) := by
      rw [hab]; rfl
    have h4 : (strings.ToLower lower substr).utf8ByteSize =
        String.utf8Len (strings.ToLower lower substr).data := rfl
    rw [String.utf8Len_append, String.utf8Len_append] at h3
    omega

/-- Claim C20 fails on the code: with the text `kelvin` and the query made of
the Kelvin sign U+212A and `ELVIN`, the lower-cased query is `kelvin`, which
occurs in the lower-cased text, and containsKeywords answers false, because
the query has 8 bytes and the text 6. -/
theorem containsIgnoreCase_kelvin :
    tools.containsKeywords sample.lower "kelvin" "\u212AELVIN" = false ∧
    strings.ToLower sample.lower "\u212AELVIN" = "kelvin" ∧
    strings.Contains (strings.ToLower sample.lower "kelvin")
      (strings.ToLower sample.lower "\u212AELVIN") = true ∧
    String.utf8ByteSize "kelvin" = 6 ∧ String.utf8ByteSize "\u212AELVIN" = 8 := by
  decide

end tools

/-! ## The claims on update_memory and write_file: C21, C22 -/

namespace tools

/-- The section a block is filed under: the `section` argument when it is a
string that is not empty, and `其他` otherwise. -/
theorem sectionOrDefault_cases (args : Object) :
    (∀ s, args.index "section" = Any.string s → s ≠ "" →
      sectionOrDefault (args.index "section").assertString.1 "其他" = s) ∧
    ((∀ s, args.index "section" = Any.string s → s = "") →
      sectionOrDefault (args.index "section").assertString.1 "其他" = "其他") := by
  constructor
  · intro s hs hne
    simp [hs, Any.assertString, sectionOrDefault, hne]
  · intro h
    cases hv : args.index "section" with
    | string s =>
      have := h s hv
      subst this
      simp [Any.assertString, sectionOrDefault]
    | _ => simp [Any.assertString, sectionOrDefault]

/-- What update_memory writes: for a `content` that is a string, Execute of
update_memory reads the clock, reads MEMORY.md dropping the error of the
read, and writes to MEMORY.md the text `E` the read returned followed by the
one block `\n## S\n\n**时间**: timestamp\n\ncontent\n`; it succeeds exactly when
that write does, and the machine is then as the write leaves it. `E` is the
content of the file when the read succeeds; when the read fails, for a file
that is absent or for one that cannot be read, the block is written after
what the failed read returned, and a content the file had is overwritten. `S`
is the `section` argument when that is a string that is not empty and `其他`
when it is absent, empty or not a string. When `content` is absent or not a
string Execute fails and leaves the machine as it was. -/
theorem updateMemory_appends {ω : Type} (t : UpdateMemory) (sys : Host ω) (args : Object)
    (w : ω) :
    (∀ (content : String) (now : Time) (w1 : ω) (E : String) (readErr : Err),
      args.index "content" = Any.string content →
      sys.Now w = (now, w1) →
      sys.ReadFile (sys.Join [t.WorkspaceDir, "memory", "MEMORY.md"]) w1 = (E, readErr) →
      t.Execute sys args w =
        match sys.WriteFile (sys.Join [t.WorkspaceDir, "memory", "MEMORY.md"])
          (E ++ "\n## " ++ sectionOrDefault (args.index "section").assertString.1 "其他" ++
            "\n\n**时间**: " ++ sys.Format now "2006-01-02 15:04:05" ++ "\n\n" ++ content ++ "\n")
          0o644 w1 with
        | (some err, w2) => (("", some ("写入 MEMORY.md 失败: " ++ err)), w2)
        | (none, w2) =>
          (("✓ 已更新 MEMORY.md [" ++
            sectionOrDefault (args.index "section").assertString.1 "其他" ++ "]", none), w2)) ∧
    ((∀ s, args.index "section" = Any.string s → s ≠ "" →
        sectionOrDefault (args.index "section").assertString.1 "其他" = s) ∧
      ((∀ s, args.index "section" = Any.string s → s = "") →
        sectionOrDefault (args.index "section").assertString.1 "其他" = "其他")) ∧
    ((∀ content, args.index "content" ≠ Any.string content) →
      t.Execute sys args w = (("", some "content 参数是必需的"), w)) := by
  refine ⟨?_, sectionOrDefault_cases args, ?_⟩
  · intro content now w1 E readErr hcontent hnow hread
    simp only [UpdateMemory.Execute, hcontent, Any.assertString, hnow, hread, String.append_assoc]
  · intro h
    unfold UpdateMemory.Execute
    cases hv : args.index "content" with
    | string s => exact absurd hv (h s)
    | _ => simp [Any.assertString]

/-- Claim C21 fails on the code: on a workspace whose MEMORY.md holds `old
notes` and cannot be read, update_memory succeeds and leaves the file equal
to the new block alone. The previous content is not kept as a prefix: the
error of the read is dropped and the block is written over the file. -/
theorem updateMemory_overwrites_unreadable :
    sample.locked =
      [{ path := "ws/memory/MEMORY.md", content := "old notes", readable := false }] ∧
    UpdateMemory.Execute { WorkspaceDir := "ws" } sample.host [("content", Any.string "new")]
      sample.locked =
        (("✓ 已更新 MEMORY.md [其他]", none),
         [{ path := "ws/memory/MEMORY.md",
            content := "\n## 其他\n\n**时间**: 2026-11-01 10:00:00\n\nnew\n", readable := false }]) := by
  decide

/-- The updates of a readable MEMORY.md under a section and of an absent one
without section, and the failure without `content`. -/
theorem updateMemory_appends_witness :
    UpdateMemory.Execute { WorkspaceDir := "ws" } sample.host
      [("content", Any.string "Drinks oolong."), ("section", Any.string "用户偏好")]
      [{ path := "ws/memory/MEMORY.md", content := "# Memory\n", readable := true }] =
        (("✓ 已更新 MEMORY.md [用户偏好]", none),
         [{ path := "ws/memory/MEMORY.md",
            content := "# Memory\n\n## 用户偏好\n\n**时间**: 2026-11-01 10:00:00\n\nDrinks oolong.\n",
            readable := true }]) ∧
    UpdateMemory.Execute { WorkspaceDir := "ws" } sample.host
      [("content", Any.string "new"), ("section", Any.string "")] [] =
        (("✓ 已更新 MEMORY.md [其他]", none),
         [{ path := "ws/memory/MEMORY.md",
            content := "\n## 其他\n\n**时间**: 2026-11-01 10:00:00\n\nnew\n", readable := true }]) ∧
    UpdateMemory.Execute { WorkspaceDir := "ws" } sample.host
      [("content", Any.int 3)] sample.disk =
        (("", some "content 参数是必需的"), sample.disk) :=
  ⟨((updateMemory_appends { WorkspaceDir := "ws" } sample.host
      [("content", Any.string "Drinks oolong."), ("section", Any.string "用户偏好")]
      [{ path := "ws/memory/MEMORY.md", content := "# Memory\n", readable := true }]).1
      "Drinks oolong." 0 _ "# Memory\n" none rfl rfl rfl).trans (by decide),
   ((updateMemory_appends { WorkspaceDir := "ws" } sample.host
      [("content", Any.string "new"), ("section", Any.string "")] []).1
      "new" 0 _ "" _ rfl rfl rfl).trans (by decide),
   (updateMemory_appends { WorkspaceDir := "ws" } sample.host
      [("content", Any.int 3)] sample.disk).2.2 (fun content h => by cases h)⟩

/-- Claim C22: for a `path` and a `content` that are strings, every success of
Execute of write_file returns `Successfully wrote N bytes to path`, with N the
number of bytes of the content in decimal and the path as it was given; on
such a success the path was made absolute, the directories above it were
created with mode 0755 and the last thing done to the machine is the
successful `os.WriteFile` of exactly the content to the absolute path with
mode 0644, which replaces what the file held; and whenever these three calls
succeed so does Execute. When `path`, or else `content`, is absent or not a
string, Execute fails and leaves the machine as it was. -/
theorem writeFile_reports_bytes {ω : Type} (sys : Host ω) (args : Object) (w : ω) :
    (∀ path content, args.index "path" = Any.string path →
      args.index "content" = Any.string content →
      (∀ result w2, WriteFile.Execute sys args w = ((result, none), w2) →
        result =
          "Successfully wrote " ++ toString content.utf8ByteSize ++ " bytes to " ++ path ∧
        ∃ absPath w1, sys.Abs path w = (absPath, none) ∧
          sys.MkdirAll (sys.Dir absPath) 0o755 w = (none, w1) ∧
          sys.WriteFile absPath content 0o644 w1 = (none, w2)) ∧
      (∀ absPath w1 w2, sys.Abs path w = (absPath, none) →
        sys.MkdirAll (sys.Dir absPath) 0o755 w = (none, w1) →
        sys.WriteFile absPath content 0o644 w1 = (none, w2) →
        WriteFile.Execute sys args w =
          (("Successfully wrote " ++ toString content.utf8ByteSize ++ " bytes to " ++ path,
            none), w2))) ∧
    ((∀ path, args.index "path" ≠ Any.string path) →
      WriteFile.Execute sys args w = (("", some "path argument is required"), w)) ∧
    (∀ path, args.index "path" = Any.string path →
      (∀ content, args.index "content" ≠ Any.string content) →
      WriteFile.Execute sys args w = (("", some "content argument is required"), w)) := by
  refine ⟨?_, ?_, ?_⟩
  · intro path content hpath hcontent
    constructor
    · intro result w2 h
      simp only [WriteFile.Execute, hpath, hcontent, Any.assertString] at h
      rcases habs : sys.Abs path w with ⟨absPath, _ | e⟩
      · rw [habs] at h
        simp only at h
        rcases hmk : sys.MkdirAll (sys.Dir absPath) 0o755 w with ⟨_ | e, w1⟩
        · rw [hmk] at h
          simp only at h
          rcases hwr : sys.WriteFile absPath content 0o644 w1 with ⟨_ | e, w3⟩
          · rw [hwr] at h
            simp only [Prod.mk.injEq, and_true] at h
            exact ⟨h.1.symm, absPath, w1, rfl, hmk, h.2 ▸ hwr⟩
          · rw [hwr] at h
            simp at h
        · rw [hmk] at h
          simp at h
      · rw [habs] at h
        simp at h
    · intro absPath w1 w2 habs hmk hwr
      simp only [WriteFile.Execute, hpath, hcontent, Any.assertString, habs, hmk, hwr]
  · intro h
    unfold WriteFile.Execute
    cases hv : args.index "path" with
    | string s => exact absurd hv (h s)
    | _ => simp [Any.assertString]
  · intro path hpath h
    unfold WriteFile.Execute
    cases hv : args.index "content" with
    | string s => exact absurd hv (h s)
    | _ => simp [Any.assertString, hpath]

/-- The write of a text of five characters and six bytes over a file that
exists, and the failures without `content` and without `path`. -/
theorem writeFile_reports_bytes_witness :
    WriteFile.Execute sample.host
      [("path", Any.string "notes/a.txt"), ("content", Any.string "héllo")]
      [{ path := "/home/goclaw/notes/a.txt", content := "previous content", readable := true }] =
        (("Successfully wrote 6 bytes to notes/a.txt", none),
         [{ path := "/home/goclaw/notes/a.txt", content := "héllo", readable := true }]) ∧
    "héllo".length = 5 ∧
    WriteFile.Execute sample.host [("path", Any.string "notes/a.txt")] sample.disk =
      (("", some "content argument is required"), sample.disk) ∧
    WriteFile.Execute sample.host [("content", Any.string "héllo")] sample.disk =
      (("", some "path argument is required"), sample.disk) :=
  ⟨(((writeFile_reports_bytes sample.host
      [("path", Any.string "notes/a.txt"), ("content", Any.string "héllo")]
      [{ path := "/home/goclaw/notes/a.txt", content := "previous content",
         readable := true }]).1 "notes/a.txt" "héllo" rfl rfl).2
      "/home/goclaw/notes/a.txt" _ _ rfl rfl rfl).trans (by decide),
   by decide,
   (writeFile_reports_bytes sample.host [("path", Any.string "notes/a.txt")] sample.disk).2.2
     "notes/a.txt" rfl (fun content h => by cases h),
   (writeFile_reports_bytes sample.host [("content", Any.string "héllo")] sample.disk).2.1
     (fun path h => by cases h)⟩

end tools

/-! ## The claim on the first request of a turn: C23 -/

namespace agent

/-- The entries of a message in provider format are read back as they were
written. -/
theorem mapIndex_role_content (role content : String) :
    mapIndex [("role", role), ("content", content)] "role" = role ∧
    mapIndex [("role", role), ("content", content)] "content" = content := by
  constructor
  · simp [mapIndex, List.find?]
  · have h : ("role" == "content") = false := by decide
    simp [mapIndex, List.find?, h]

/-- Claim C23: in a turn whose first two storage calls succeed, for every
history the store returns for the turn, of any length, the messages of the
first request are one system message followed by the messages of the history
in order, each with its role and content and without tool calls or tool id;
the content of the system message is the base system prompt when the context
prompt is empty, and the base system prompt, two newlines and the context
prompt otherwise. -/
theorem chat_first_request {ω : Type} (a : Agent ω) (env : Env ω) (fuel : Nat)
    (userMessage : String) (w : ω) (history : List memory.Message)
    (h1 : env.addUser.1 = none) (h2 : env.history = none)
    (hhistory : (a.memory.Add none env.addUser.2 "user" userMessage).2.GetHistory none
      a.maxHistory = (history, none)) :
    ((a.Chat env fuel userMessage w).calls.head?).map (fun call => call.messages) =
      some ({ Role := "system", Content := a.systemContent env.os w, ToolCalls := [],
              ToolID := "" } ::
        history.map (fun msg =>
          { Role := msg.Role, Content := msg.Content, ToolCalls := [], ToolID := "" })) ∧
    a.systemContent env.os w =
      (if BuildContextPrompt (a.contextLoader.LoadContextFiles env.os w) = "" then
        baseSystemPrompt
      else baseSystemPrompt ++ "\n\n" ++
        BuildContextPrompt (a.contextLoader.LoadContextFiles env.os w)) := by
  constructor
  · obtain ⟨call0, _, hmsg, hcalls⟩ := Chat_shape a env fuel userMessage w h1 h2
    have hhead : (a.Chat env fuel userMessage w).calls.head? = some call0 := by
      rcases hcalls with ⟨err, _, hc, _⟩ | ⟨resp, _, hc, _⟩
      · rw [hc]; rfl
      · rw [hc]; rfl
    rw [hhead, Option.map_some', hmsg]
    have hfmt : ((a.memory.Add none env.addUser.2 "user" userMessage).2.ToProviderFormat none
        a.maxHistory).1 =
        history.map (fun msg => [("role", msg.Role), ("content", msg.Content)]) := by
      simp only [memory.Store.ToProviderFormat, hhistory]
    rw [hfmt]
    simp only [Agent.providerMessages, ite_self, List.map_map, List.singleton_append,
      Option.some.injEq, List.cons.injEq, true_and]
    apply List.map_congr_left
    intro msg _
    simp only [Function.comp_apply, (mapIndex_role_content msg.Role msg.Content).1,
      (mapIndex_role_content msg.Role msg.Content).2]
  · unfold Agent.systemContent
    by_cases h : BuildContextPrompt (a.contextLoader.LoadContextFiles env.os w) = ""
    · simp [h]
    · simp [h, String.append_assoc]

set_option maxRecDepth 8000 in
/-- The first request of a turn on an empty store without context files, and
of a turn on a store of four messages with two context files. -/
theorem chat_first_request_witness :
    sample.env.addUser.1 = none ∧ sample.env.history = none ∧
    (((sample.agent sample.store ["final"]).Chat sample.env 0 "hi" 0).calls.head?).map
      (fun call => call.messages) =
      some [{ Role := "system", Content := baseSystemPrompt },
            { Role := "user", Content := "hi" }] ∧
    (((sample.agent sample.store4 ["final"]).Chat { sample.env with os := sample.os } 0 "m5"
      0).calls.head?).map (fun call => call.messages) =
      some [{ Role := "system",
              Content := baseSystemPrompt ++ "\n\n" ++
                "## Workspace 上下文文件\n\n以下文件已加载，提供了我的身份和记忆：\n\n" ++
                "### IDENTITY.md\n\nI am goclaw\n\n### memory/MEMORY.md\n\nlikes tea\n" },
            { Role := "user", Content := "m1" },
            { Role := "assistant", Content := "m2" },
            { Role := "user", Content := "m3" },
            { Role := "assistant", Content := "m4" }] :=
  ⟨rfl, rfl,
   ((chat_first_request (sample.agent sample.store ["final"]) sample.env 0 "hi" 0
      [{ ID := 1, Role := "user", Content := "hi", Timestamp := 5, SessionID := "default" }]
      rfl rfl rfl).1).trans rfl,
   ((chat_first_request (sample.agent sample.store4 ["final"])
      { sample.env with os := sample.os } 0 "m5" 0
      [{ ID := 1, Role := "user", Content := "m1", Timestamp := 1, SessionID := "default" },
       { ID := 2, Role := "assistant", Content := "m2", Timestamp := 2,
         SessionID := "default" },
       { ID := 3, Role := "user", Content := "m3", Timestamp := 3, SessionID := "default" },
       { ID := 4, Role := "assistant", Content := "m4", Timestamp := 4,
         SessionID := "default" }]
      rfl rfl rfl).1).trans rfl⟩

end agent

/-! ## The claim on memory_search: C24 -/

namespace tools

/-- The number of bytes of a text under construction grows by those of what is
appended. -/
theorem utf8ByteSize_append_eq (s t : String) :
    (s ++ t).utf8ByteSize = s.utf8ByteSize + t.utf8ByteSize := by
  show String.utf8Len (s ++ t).data = String.utf8Len s.data + String.utf8Len t.data
  rw [String.data_append, String.utf8Len_append]

/-- The loop of joinStrings adds at least the bytes of the strings it joins. -/
theorem joinStrings_loop_size (sep : String) (rest : List String) :
    ∀ acc : String, (∀ s ∈ rest, 2 ≤ s.utf8ByteSize) →
      acc.utf8ByteSize + 2 * rest.length ≤
        (rest.foldl (fun result s => result ++ (sep ++ s)) acc).utf8ByteSize := by
  induction rest with
  | nil => intro acc _; simp
  | cons s rest ih =>
    intro acc h
    have hs : 2 ≤ s.utf8ByteSize := h s (List.mem_cons_self _ _)
    have := ih (acc ++ (sep ++ s)) (fun x hx => h x (List.mem_cons_of_mem _ hx))
    rw [utf8ByteSize_append_eq, utf8ByteSize_append_eq] at this
    simp only [List.foldl_cons, List.length_cons]
    omega

/-- Strings of two bytes or more, joined, have more bytes than they are. -/
theorem joinStrings_size (strs : List String) (sep : String)
    (h : ∀ s ∈ strs, 2 ≤ s.utf8ByteSize) (hne : strs ≠ []) :
    strs.length < (joinStrings strs sep).utf8ByteSize := by
  cases strs with
  | nil => exact absurd rfl hne
  | cons first rest =>
    have h1 : 2 ≤ first.utf8ByteSize := h first (List.mem_cons_self _ _)
    have h2 := joinStrings_loop_size sep rest first
      (fun x hx => h x (List.mem_cons_of_mem _ hx))
    simp only [joinStrings, List.length_cons]
    omega

/-- What joinStrings builds is what `strings.Join` builds. -/
theorem joinStrings_eq_intercalate (strs : List String) (sep : String) :
    joinStrings strs sep = sep.intercalate strs := by
  cases strs with
  | nil => rfl
  | cons first rest =>
    simp only [joinStrings, String.intercalate]
    induction rest generalizing first with
    | nil => rfl
    | cons s rest ih =>
      simp only [List.foldl_cons, String.intercalate.go]
      rw [ih, String.append_assoc]

/-- The loop over the directory appends, in the order of the directory, the
line of every entry that is a file with extension `.md` whose content can be
read and matches. -/
theorem searchEntries_eq {ω : Type} (sys : Host ω) (conversationsDir query : String) (w : ω)
    (entries : List DirEntry) :
    ∀ results : List String,
      MemorySearch.searchEntries sys conversationsDir query w entries results =
        results ++ (entries.filter (fun entry =>
          decide (¬ entry.IsDir ∧ filepath.Ext entry.Name = ".md") &&
          (match sys.ReadFile (sys.Join [conversationsDir, entry.Name]) w with
           | (content, none) => containsKeywords sys.ToLower content query
           | (_, some _) => false))).map (fun entry => "- " ++ entry.Name) := by
  induction entries with
  | nil => intro results; simp [MemorySearch.searchEntries]
  | cons entry rest ih =>
    intro results
    unfold MemorySearch.searchEntries
    by_cases hmd : ¬ entry.IsDir ∧ filepath.Ext entry.Name = ".md"
    · rw [if_pos hmd]
      rcases hread : sys.ReadFile (sys.Join [conversationsDir, entry.Name]) w with
        ⟨content, _ | e⟩
      · by_cases hk : containsKeywords sys.ToLower content query = true
        · simp only [hk, if_true, ih, List.filter_cons, hmd, hread]
          simp
        · simp only [hk, if_false, ih, List.filter_cons, hmd, hread]
          simp [hk]
      · simp only [ih, List.filter_cons, hmd, hread]
        simp
    · rw [if_neg hmd]
      simp only [ih, List.filter_cons, hmd]
      simp

/-- Every line of the results is a dash, a blank and a name. -/
theorem results_lines {ω : Type} (t : MemorySearch) (sys : Host ω) (query : String) (w : ω) :
    ∀ line ∈ t.results sys query w, ∃ name, line = "- " ++ name := by
  intro line hline
  unfold MemorySearch.results at hline
  simp only [searchEntries_eq] at hline
  have hfirst : ∀ l ∈ (match sys.ReadFile (sys.Join [sys.Join [t.WorkspaceDir, "memory"],
      "MEMORY.md"]) w with
      | (content, none) =>
        if containsKeywords sys.ToLower content query then ([] : List String) ++ ["- MEMORY.md"]
        else []
      | (_, some _) => []), ∃ name, l = "- " ++ name := by
    intro l hl
    split at hl
    · split at hl
      · simp only [List.nil_append, List.mem_singleton] at hl
        exact ⟨"MEMORY.md", hl⟩
      · simp at hl
    · simp at hl
  split at hline
  · simp only [List.mem_append, List.mem_map] at hline
    rcases hline with h | ⟨entry, _, rfl⟩
    · exact hfirst line h
    · exact ⟨entry.Name, rfl⟩
  · exact hfirst line hline

/-- What memory_search answers, for every state of the workspace: the message
that nothing was found when no file matches, and otherwise a header with the
number of bytes of the joined lines, which is more than the number of lines,
followed by the lines joined by newlines. -/
theorem memorySearch_header {ω : Type} (t : MemorySearch) (sys : Host ω) (args : Object)
    (w : ω) (query : String) (hquery : args.index "query" = Any.string query) :
    (t.results sys query w = [] →
      t.Execute sys args w = (("未找到关于 '" ++ query ++ "' 的记忆", none), w)) ∧
    (t.results sys query w ≠ [] →
      t.Execute sys args w =
        (("找到 " ++ toString ("\n".intercalate (t.results sys query w)).utf8ByteSize ++
          " 条相关记忆：\n" ++ "\n".intercalate (t.results sys query w), none), w) ∧
      (t.results sys query w).length <
        ("\n".intercalate (t.results sys query w)).utf8ByteSize) := by
  have hsize : ∀ s ∈ t.results sys query w, 2 ≤ s.utf8ByteSize := by
    intro s hs
    obtain ⟨name, rfl⟩ := results_lines t sys query w s hs
    rw [utf8ByteSize_append_eq]
    have : "- ".utf8ByteSize = 2 := by decide
    omega
  constructor
  · intro h
    have hz : "".utf8ByteSize = 0 := rfl
    simp only [MemorySearch.Execute, hquery, Any.assertString, MemorySearch.searchInMemory, h,
      joinStrings, hz, if_true]
  · intro h
    have hlt := joinStrings_size (t.results sys query w) "\n" hsize h
    rw [joinStrings_eq_intercalate] at hlt
    refine ⟨?_, hlt⟩
    have hne : ¬ ("\n".intercalate (t.results sys query w)).utf8ByteSize = 0 := by omega
    simp only [MemorySearch.Execute, hquery, Any.assertString, MemorySearch.searchInMemory,
      joinStrings_eq_intercalate, hne, if_false]

/-- Claim C24 fails on the code: on the sample workspace the query `green`
matches one file, MEMORY.md, and the header reports 11, and the query `tea`
matches two files and the header reports 29: the number is the count of the
bytes of the lines that follow, not of the files. A query that matches no file
gets the message that nothing was found. -/
theorem memorySearch_reports_bytes :
    MemorySearch.results { WorkspaceDir := "ws" } sample.host "green" sample.disk =
      ["- MEMORY.md"] ∧
    MemorySearch.Execute { WorkspaceDir := "ws" } sample.host [("query", Any.string "green")]
      sample.disk = (("找到 11 条相关记忆：\n- MEMORY.md", none), sample.disk) ∧
    MemorySearch.results { WorkspaceDir := "ws" } sample.host "tea" sample.disk =
      ["- MEMORY.md", "- 20261030-tea.md"] ∧
    MemorySearch.Execute { WorkspaceDir := "ws" } sample.host [("query", Any.string "tea")]
      sample.disk = (("找到 29 条相关记忆：\n- MEMORY.md\n- 20261030-tea.md", none), sample.disk) ∧
    MemorySearch.Execute { WorkspaceDir := "ws" } sample.host [("query", Any.string "coffee")]
      sample.disk = (("未找到关于 'coffee' 的记忆", none), sample.disk) := by
  decide

end tools

/-! ## The claim on the file name of a saved conversation: C25 -/

namespace agent

/-- The characters the mapping keeps, by their code points. -/
theorem sanitize_class (r : Char) :
    (('a' ≤ r ∧ r ≤ 'z') ∨ ('A' ≤ r ∧ r ≤ 'Z') ∨ ('0' ≤ r ∧ r ≤ '9') ∨ r = '-' ∨ r = '_') ↔
    ((97 ≤ r.toNat ∧ r.toNat ≤ 122) ∨ (65 ≤ r.toNat ∧ r.toNat ≤ 90) ∨
      (48 ≤ r.toNat ∧ r.toNat ≤ 57) ∨ r.toNat = 45 ∨ r.toNat = 95) := by
  have h1 : r = '-' ↔ r.toNat = 45 := by
    constructor
    · rintro rfl; rfl
    · intro h; apply Char.ext; apply UInt32.ext; exact h
  have h2 : r = '_' ↔ r.toNat = 95 := by
    constructor
    · rintro rfl; rfl
    · intro h; apply Char.ext; apply UInt32.ext; exact h
  rw [h1, h2]
  rfl

/-- The image of a character is the character when it is a letter of the
basic Latin alphabet, a digit, a dash or an underscore, and a dash otherwise;
in both cases it is one of these. -/
theorem sanitize_spec (r : Char) :
    sanitize r =
      (if (97 ≤ r.toNat ∧ r.toNat ≤ 122) ∨ (65 ≤ r.toNat ∧ r.toNat ≤ 90) ∨
          (48 ≤ r.toNat ∧ r.toNat ≤ 57) ∨ r.toNat = 45 ∨ r.toNat = 95 then r else '-') ∧
    ((97 ≤ (sanitize r).toNat ∧ (sanitize r).toNat ≤ 122) ∨
      (65 ≤ (sanitize r).toNat ∧ (sanitize r).toNat ≤ 90) ∨
      (48 ≤ (sanitize r).toNat ∧ (sanitize r).toNat ≤ 57) ∨
      (sanitize r).toNat = 45 ∨ (sanitize r).toNat = 95) := by
  unfold sanitize
  by_cases h : ('a' ≤ r ∧ r ≤ 'z') ∨ ('A' ≤ r ∧ r ≤ 'Z') ∨ ('0' ≤ r ∧ r ≤ '9') ∨ r = '-' ∨ r = '_'
  · rw [if_pos h, if_pos ((sanitize_class r).1 h)]
    exact ⟨rfl, (sanitize_class r).1 h⟩
  · rw [if_neg h, if_neg (fun h1 => h ((sanitize_class r).2 h1))]
    exact ⟨rfl, Or.inr (Or.inr (Or.inr (Or.inl rfl)))⟩

/-- A character the mapping keeps is mapped to itself. -/
theorem sanitize_idem (r : Char) : sanitize (sanitize r) = sanitize r := by
  rw [(sanitize_spec (sanitize r)).1, if_pos (sanitize_spec r).2]

/-- Claim C25: for a title that is not empty, the sanitised title has as many
characters as the title; at every position it holds the character of the title
when that is one of `A` to `Z`, `a` to `z`, `0` to `9`, the dash and the
underscore, and a dash otherwise; so each of its characters is one of these,
and none is a slash, a backslash, a dot or a white space character;
sanitising it again changes nothing. The file name is the timestamp, a dash,
the sanitised title and `.md`; it holds no slash when the timestamp holds
none; and a conversation that is saved is written to the path joined from
the conversations directory and that file name, which is the path returned. -/
theorem safeTitle_sanitised {ω : Type} (a : Agent ω) (sys : Host ω) (dbErr : Err)
    (title : String) (w : ω) (h : title ≠ "") :
    (safeTitle title).length = title.length ∧
    (∀ (i : Nat) (c : Char), title.data[i]? = some c →
      (safeTitle title).data[i]? =
        some (if (97 ≤ c.toNat ∧ c.toNat ≤ 122) ∨ (65 ≤ c.toNat ∧ c.toNat ≤ 90) ∨
          (48 ≤ c.toNat ∧ c.toNat ≤ 57) ∨ c.toNat = 45 ∨ c.toNat = 95 then c else '-')) ∧
    (∀ c ∈ (safeTitle title).data,
      ((97 ≤ c.toNat ∧ c.toNat ≤ 122) ∨ (65 ≤ c.toNat ∧ c.toNat ≤ 90) ∨
        (48 ≤ c.toNat ∧ c.toNat ≤ 57) ∨ c.toNat = 45 ∨ c.toNat = 95) ∧
      c ≠ '/' ∧ c ≠ '\\' ∧ c ≠ '.' ∧ unicode.IsSpace c = false) ∧
    safeTitle (safeTitle title) = safeTitle title ∧
    (Agent.filename sys title w).1 =
      sys.Format (sys.Now w).1 "20060102-150405" ++ "-" ++ safeTitle title ++ ".md" ∧
    ((∀ c ∈ (sys.Format (sys.Now w).1 "20060102-150405").data, c ≠ '/') →
      ∀ c ∈ (Agent.filename sys title w).1.data, c ≠ '/') ∧
    (∀ path w4, a.SaveConversation sys dbErr title w = ((path, none), w4) →
      ∃ w1 content w3,
        sys.MkdirAll (sys.Join [a.cfg.Memory.Workspace, "memory", "conversations"]) 0o755 w =
          (none, w1) ∧
        path = sys.Join [sys.Join [a.cfg.Memory.Workspace, "memory", "conversations"],
          sys.Format (sys.Now w1).1 "20060102-150405" ++ "-" ++ safeTitle title ++ ".md"] ∧
        sys.WriteFile path content 0o644 w3 = (none, w4)) := by
  have hclass : ∀ c ∈ (safeTitle title).data,
      (97 ≤ c.toNat ∧ c.toNat ≤ 122) ∨ (65 ≤ c.toNat ∧ c.toNat ≤ 90) ∨
        (48 ≤ c.toNat ∧ c.toNat ≤ 57) ∨ c.toNat = 45 ∨ c.toNat = 95 := by
    intro c hc
    simp only [safeTitle, strings.Map, List.mem_map] at hc
    obtain ⟨r, _, rfl⟩ := hc
    exact (sanitize_spec r).2
  have hname : (Agent.filename sys title w).1 =
      sys.Format (sys.Now w).1 "20060102-150405" ++ "-" ++ safeTitle title ++ ".md" := by
    simp [Agent.filename, h]
  refine ⟨?_, ?_, ?_, ?_, hname, ?_, ?_⟩
  · show (title.data.map sanitize).length = title.data.length
    exact List.length_map _ _
  · intro i c hc
    simp only [safeTitle, strings.Map, List.getElem?_map, hc, Option.map_some',
      (sanitize_spec c).1]
  · intro c hc
    have hcl := hclass c hc
    refine ⟨hcl, ?_, ?_, ?_, ?_⟩
    · rintro rfl
      revert hcl
      decide
    · rintro rfl
      revert hcl
      decide
    · rintro rfl
      revert hcl
      decide
    · rw [Bool.eq_false_iff]
      intro hsp
      simp only [unicode.IsSpace, Bool.or_eq_true, Bool.and_eq_true, decide_eq_true_eq] at hsp
      omega
  · simp only [safeTitle, strings.Map, List.map_map]
    congr 1
    apply List.map_congr_left
    intro r _
    exact sanitize_idem r
  · intro hts c hc
    rw [hname] at hc
    simp only [String.data_append, List.mem_append] at hc
    rcases hc with ((hc | hc) | hc) | hc
    · exact hts c hc
    · have : c = '-' := by simpa using hc
      subst this
      decide
    · have hcl := hclass c hc
      rintro rfl
      revert hcl
      decide
    · have : c = '.' ∨ c = 'm' ∨ c = 'd' := by simpa using hc
      rcases this with rfl | rfl | rfl <;> decide
  · intro path w4 hsave
    unfold Agent.SaveConversation at hsave
    dsimp only at hsave
    rcases hmk : sys.MkdirAll (sys.Join [a.cfg.Memory.Workspace, "memory", "conversations"])
      0o755 w with ⟨_ | e, w1⟩
    · rw [hmk] at hsave
      simp only at hsave
      have hname1 : Agent.filename sys title w1 =
          (sys.Format (sys.Now w1).1 "20060102-150405" ++ "-" ++ safeTitle title ++ ".md",
           (sys.Now w1).2) := by
        simp [Agent.filename, h]
      rw [hname1] at hsave
      simp only at hsave
      rcases hh : a.memory.GetHistory dbErr 1000 with ⟨messages, _ | e⟩
      · rw [hh] at hsave
        simp only at hsave
        split at hsave
        · simp at hsave
        · rename_i w5 hwr
          simp only [Prod.mk.injEq, and_true] at hsave
          obtain ⟨hpath, hw⟩ := hsave
          subst hpath
          subst hw
          exact ⟨w1, _, _, rfl, rfl, hwr⟩
      · rw [hh] at hsave
        simp at hsave
    · rw [hmk] at hsave
      simp at hsave

/-- The sanitised form of a title with ideographs, a blank, dots and slashes,
and the conversation saved under a title that names a path. -/
theorem safeTitle_sanitised_witness :
    "周报 v1.2/../x" ≠ "" ∧
    (safeTitle "周报 v1.2/../x").length = 12 ∧
    safeTitle "周报 v1.2/../x" = "---v1-2----x" ∧
    safeTitle (safeTitle "周报 v1.2/../x") = safeTitle "周报 v1.2/../x" ∧
    (Agent.filename sample.host "周报 v1.2/../x" []).1 = "20261101-100000----v1-2----x.md" ∧
    (sample.scribe sample.store).SaveConversation sample.host none "../../etc/cron.d/x y" [] =
      (("ws/memory/conversations/20261101-100000-------etc-cron-d-x-y.md", none),
       [{ path := "ws/memory/conversations/20261101-100000-------etc-cron-d-x-y.md",
          content := "# ../../etc/cron.d/x y\n\n**时间**: 2026-11-01 10:00:00\n**消息数**: 0\n\n---\n\n",
          readable := true }]) :=
  ⟨by decide,
   (safeTitle_sanitised (sample.scribe sample.store) sample.host none "周报 v1.2/../x" []
      (by decide)).1.trans (by decide),
   by decide,
   (safeTitle_sanitised (sample.scribe sample.store) sample.host none "周报 v1.2/../x" []
      (by decide)).2.2.2.1,
   (safeTitle_sanitised (sample.scribe sample.store) sample.host none "周报 v1.2/../x" []
      (by decide)).2.2.2.2.1.trans (by decide),
   by decide⟩

end agent

end Goclaw
